import Mathlib

/-!
Two-phase commit between a coordinator and bank participants

A shallow embedding of `P2Final` (`Protocol.h`, `TCPClient.cpp`,
`2PC_Coordinator.cpp`, `2PC_Participant.cpp`).

Modelling conventions used throughout:

* a C++ `double` is an IEEE 754 binary64 value (`Double`): a finite value
  given as a rational number, negative zero, an infinity or a NaN; parsing and
  addition round to nearest, ties to even;
* an `unordered_map<string,double>` is an association list with pairwise
  distinct keys, kept in order of insertion; the order in which a loop visits
  it is unspecified and is a parameter of the functions that iterate;
* a file is the text it contains, a log is the list of lines appended to it;
* a socket is a record of what has been written to it and a script of what the
  successive reads will deliver;
* a C++ exception is an `Except.error` result returned next to the state
  reached when it was thrown.
-/

namespace TwoPC

/-! ## Protocol.h -/

/-- The enum `Protocol`. -/
inductive Protocol where
  | VOTE_REQUEST
  | VOTE_COMMIT
  | VOTE_ABORT
  | GLOBAL_COMMIT
  | GLOBAL_ABORT
  | ACK
  | UNKNOWN_PROTOCOL
  deriving DecidableEq, Repr

/-- `Protocol toProtocol(const string &message)`. -/
def toProtocol (message : String) : Protocol :=
  if message = "VOTE-REQUEST" then Protocol.VOTE_REQUEST
  else if message = "VOTE-COMMIT" then Protocol.VOTE_COMMIT
  else if message = "VOTE-ABORT" then Protocol.VOTE_ABORT
  else if message = "GLOBAL-COMMIT" then Protocol.GLOBAL_COMMIT
  else if message = "GLOBAL-ABORT" then Protocol.GLOBAL_ABORT
  else if message = "ACK" then Protocol.ACK
  else Protocol.UNKNOWN_PROTOCOL

/-- `const char *toString(Protocol protocol)`. -/
def toString : Protocol → String
  | Protocol.VOTE_REQUEST => "VOTE-REQUEST"
  | Protocol.VOTE_COMMIT => "VOTE-COMMIT"
  | Protocol.VOTE_ABORT => "VOTE-ABORT"
  | Protocol.GLOBAL_COMMIT => "GLOBAL-COMMIT"
  | Protocol.GLOBAL_ABORT => "GLOBAL-ABORT"
  | Protocol.ACK => "ACK"
  | Protocol.UNKNOWN_PROTOCOL => "UNKNOWN-PROTOCOL"

/-! ## Decimal text of numbers -/

/-- The character of a decimal digit `d < 10`. -/
def digitChar (d : Nat) : Char := Char.ofNat (48 + d)

/-- Decimal digits of `n`, most significant first; `fuel` bounds the number of
digits produced. -/
def decimalDigits : Nat → Nat → List Char
  | 0, _ => []
  | fuel + 1, n =>
    if n < 10 then [digitChar n]
    else decimalDigits fuel (n / 10) ++ [digitChar (n % 10)]

/-- The decimal text of a natural number (`"0"` for zero). -/
def natText (n : Nat) : List Char := decimalDigits (n + 1) n

/-- Rounding of a non-negative rational to the nearest natural number, ties to
the even neighbour. -/
def roundHalfEven (x : ℚ) : Nat :=
  let f := (Rat.floor x).toNat
  let r := x - (f : ℚ)
  if r < 1 / 2 then f
  else if 1 / 2 < r then f + 1
  else if f % 2 = 0 then f else f + 1

/-! ## The type `double` -/

/-- A C++ `double` (IEEE 754 binary64): a finite value, given as a rational
number, with `finite 0` for positive zero; negative zero; an infinity or a NaN
with its sign bit. -/
inductive Double where
  | finite (q : ℚ)
  | negZero
  | inf (negative : Bool)
  | nan (negative : Bool)
  deriving DecidableEq, Repr

/-- `2 ^ e` for an integer exponent. -/
def pow2 (e : Int) : ℚ :=
  if 0 ≤ e then (2 : ℚ) ^ e.toNat else 1 / (2 : ℚ) ^ (-e).toNat

/-- The number of binary digits of `n`; `fuel` bounds the number of digits
counted. -/
def bitLength : Nat → Nat → Nat
  | 0, _ => 0
  | fuel + 1, n => if n = 0 then 0 else bitLength fuel (n / 2) + 1

/-- `floor (log2 x)` for a positive rational: the difference of the bit
lengths of numerator and denominator, or one less. -/
def log2floor (x : ℚ) : Int :=
  let c : Int :=
    (bitLength x.num.toNat x.num.toNat : Int) - (bitLength x.den x.den : Int)
  if pow2 c ≤ x then c else c - 1

/-- Rounding of a non-negative rational to the binary64 grid, to nearest with
ties to even: 53 significant bits, and the spacing `2 ^ -1074` of the
subnormal numbers below `2 ^ -1022`. The exponent is not bounded above here: a
result of `2 ^ 1024` or more is an overflow. -/
def roundMagnitude (x : ℚ) : ℚ :=
  if x = 0 then 0
  else
    let e := max (log2floor x) (-1022)
    (roundHalfEven (x / pow2 (e - 52)) : ℚ) * pow2 (e - 52)

namespace Double

/-- The largest finite `double`, `DBL_MAX`. -/
def maxFinite : ℚ := (2 ^ 53 - 1) * 2 ^ 971

/-- The `double` nearest to the number with the given sign and magnitude, as
`strtod` and the arithmetic operations round: an infinity on overflow, a zero
that keeps the sign when the magnitude rounds to zero. -/
def round (negative : Bool) (magnitude : ℚ) : Double :=
  let r := roundMagnitude magnitude
  if pow2 1024 ≤ r then inf negative
  else if r = 0 then (if negative then negZero else finite 0)
  else finite (if negative then -r else r)

/-- The `double` nearest to a rational number. -/
def ofRat (q : ℚ) : Double := round (decide (q < 0)) |q|

/-- The number a value stands for; `0` for the zeros, and also for the
infinities and NaN, which stand for none. -/
def value : Double → ℚ
  | finite q => q
  | _ => 0

/-- Unary minus: the sign bit is flipped. -/
def neg : Double → Double
  | finite q => if q = 0 then negZero else finite (-q)
  | negZero => finite 0
  | inf n => inf (!n)
  | nan n => nan (!n)

/-- The place of a value on the extended real line, `none` for a NaN; the two
zeros share one place. -/
def key : Double → Option (Int × ℚ)
  | finite q => some (0, q)
  | negZero => some (0, 0)
  | inf n => some (if n then -1 else 1, 0)
  | nan _ => none

/-- The comparison `a < b`: false when either side is a NaN. -/
def lt (a b : Double) : Bool :=
  match a.key, b.key with
  | some x, some y => decide (x.1 < y.1 ∨ (x.1 = y.1 ∧ x.2 < y.2))
  | _, _ => false

/-- The comparison `a <= b`: false when either side is a NaN. -/
def le (a b : Double) : Bool :=
  match a.key, b.key with
  | some x, some y => decide (x.1 < y.1 ∨ (x.1 = y.1 ∧ x.2 ≤ y.2))
  | _, _ => false

/-- The comparison `a >= b`. -/
def ge (a b : Double) : Bool := le b a

/-- The sum `a + b`, rounded to nearest. A NaN operand is handed on; when
both are NaN, which one is handed on depends on the instruction the compiler
emits, and the left one is taken here. Infinities of opposite sign give the
default NaN, whose sign bit is set on x86-64. An exact sum of zero is positive
zero unless both operands are negative zero. -/
def add : Double → Double → Double
  | nan n, _ => nan n
  | _, nan n => nan n
  | inf n, inf m => if n = m then inf n else nan true
  | inf n, _ => inf n
  | _, inf m => inf m
  | negZero, negZero => negZero
  | negZero, finite q => finite q
  | finite q, negZero => finite q
  | finite p, finite q => if p + q = 0 then finite 0 else ofRat (p + q)

end Double

/-- The text of a finite value in fixed notation with two decimals. -/
def fixedTwo (amount : ℚ) : String :=
  let n := roundHalfEven (|amount| * 100)
  String.mk ((if amount < 0 then ['-'] else []) ++ natText (n / 100) ++
    ['.', digitChar (n % 100 / 10), digitChar (n % 10)])

/-- `Coordinator::formatAmount` and `Participant::formatAmount` (same body):
`stream << fixed << setprecision(2) << amount`. -/
def formatAmount : Double → String
  | Double.finite q => fixedTwo q
  | Double.negZero => "-0.00"
  | Double.inf n => if n then "-inf" else "inf"
  | Double.nan n => if n then "-nan" else "nan"

/-- The text the C library sees in a `const char *`: the characters before the
first NUL. -/
def cstr (s : String) : String :=
  String.mk (s.data.takeWhile (fun c => c ≠ Char.ofNat 0))

deriving instance DecidableEq for Except

/-! ## TCPClient.cpp -/

/-- What can abort a coordinator run: a `runtime_error` thrown by the transport,
or an access past the end of the two-element `messages` vector. -/
inductive Failure where
  | transport
  | outOfRange
  deriving DecidableEq, Repr

/-- A connected client socket. `outbox` lists the texts written to it, oldest
first. `sendScript` tells for the successive calls of `send` whether they
succeed (an exhausted script means success). `inbox` holds what the successive
calls of `get_response` return: `some text`, or `none` when `recv` fails; an
exhausted inbox is a peer that has closed the connection (`recv` returns 0 and
the response is the empty text). -/
structure TCPClient where
  outbox : List String
  sendScript : List Bool
  inbox : List (Option String)
  deriving DecidableEq, Repr

namespace TCPClient

/-- `TCPClient::send_request`: writes `strlen(request.c_str())` bytes; `none`
is the thrown `runtime_error`. -/
def send_request (c : TCPClient) (request : String) : Option TCPClient :=
  match c.sendScript with
  | false :: _ => none
  | true :: rest =>
    some { c with outbox := c.outbox ++ [cstr request], sendScript := rest }
  | [] => some { c with outbox := c.outbox ++ [cstr request] }

/-- `TCPClient::get_response`: the next response (`none` is the thrown
`runtime_error`) and the socket afterwards. -/
def get_response (c : TCPClient) : Option String × TCPClient :=
  match c.inbox with
  | [] => (some "", c)
  | none :: rest => (none, { c with inbox := rest })
  | some r :: rest => (some r, { c with inbox := rest })

end TCPClient

/-! ## 2PC_Coordinator.cpp -/

/-- The enum `Coordinator::ParticipantState`. -/
inductive ParticipantState where
  | INIT
  | ABORT
  | COMMIT
  deriving DecidableEq, Repr

/-- One element of `Coordinator::participants`:
`tuple<TCPClient, string, u_short, ParticipantState>`. -/
structure Bank where
  client : TCPClient
  host : String
  port : Nat
  state : ParticipantState
  deriving DecidableEq, Repr

/-- The coordinator: its participant vector, the lines appended to its log
file (each is also printed on `cout`), and the lines printed on `cerr`. -/
structure Coordinator where
  participants : List Bank
  logFile : List String
  cerr : List String
  deriving DecidableEq, Repr

/-- The text `host:port` used in the log lines. -/
def Bank.address (b : Bank) : String :=
  b.host ++ ":" ++ String.mk (natText b.port)

namespace Coordinator

/-- `Coordinator::processResponse`: the decision and the line it logs, if
any. -/
def processResponse (response : String) : Bool × List String :=
  match toProtocol response with
  | Protocol.VOTE_COMMIT => (true, [])
  | Protocol.VOTE_ABORT => (false, [])
  | _ => (false, ["Invalid response received: " ++ response])

/-- The local vector `messages` of `sendVoteRequest`. -/
def voteMessages (amount : Double) (accountFrom accountTo : String) :
    List String :=
  [toString Protocol.VOTE_REQUEST ++ " " ++ accountFrom ++ " " ++
      formatAmount (Double.neg amount),
   toString Protocol.VOTE_REQUEST ++ " " ++ accountTo ++ " " ++
      formatAmount amount]

/-- First loop of `sendVoteRequest` from index `i` on: log and send
`messages[i]` to the `i`-th participant. Returns the participants, the log and
the failure that stopped the loop, if any. -/
def sendVoteLoop (messages : List String) :
    Nat → List Bank → List String → List Bank × List String × Option Failure
  | _, [], log => ([], log, none)
  | i, b :: bs, log =>
    match messages[i]? with
    | none => (b :: bs, log, some Failure.outOfRange)
    | some m =>
      let log1 := log ++ ["Sending message '" ++ m ++ "' to " ++ b.address]
      match b.client.send_request m with
      | none => (b :: bs, log1, some Failure.transport)
      | some cl =>
        let r := sendVoteLoop messages (i + 1) bs log1
        ({ b with client := cl } :: r.1, r.2.1, r.2.2)

/-- Second loop of `sendVoteRequest`: read one response per participant and
record `COMMIT` or `ABORT`. -/
def collectVotes :
    List Bank → List String → List Bank × List String × Option Failure
  | [], log => ([], log, none)
  | b :: bs, log =>
    match b.client.get_response with
    | (none, cl) => ({ b with client := cl } :: bs, log, some Failure.transport)
    | (some response, cl) =>
      let pr := processResponse response
      let st := if pr.1 then ParticipantState.COMMIT else ParticipantState.ABORT
      let r := collectVotes bs (log ++ pr.2)
      ({ b with client := cl, state := st } :: r.1, r.2.1, r.2.2)

/-- Third loop of `sendVoteRequest`: `false` at the first participant recorded
as `ABORT`, `true` when there is none. -/
def decision : List Bank → Bool
  | [] => true
  | b :: bs => if b.state = ParticipantState.ABORT then false else decision bs

/-- `Coordinator::sendVoteRequest`. -/
def sendVoteRequest (c : Coordinator) (amount : Double)
    (accountFrom accountTo : String) : Coordinator × Except Failure Bool :=
  let messages := voteMessages amount accountFrom accountTo
  match sendVoteLoop messages 0 c.participants c.logFile with
  | (bs, log, some e) =>
    ({ c with participants := bs, logFile := log }, Except.error e)
  | (bs, log, none) =>
    match collectVotes bs log with
    | (bs2, log2, some e) =>
      ({ c with participants := bs2, logFile := log2 }, Except.error e)
    | (bs2, log2, none) =>
      ({ c with participants := bs2, logFile := log2 }, Except.ok (decision bs2))

/-- What connecting to `host:port` yields: the scripts of a fresh socket, or
`none` when the `TCPClient` constructor throws. -/
abbrev Network := String → Nat → Option (List Bool × List (Option String))

/-- `Coordinator::addParticipant`. -/
def addParticipant (net : Network) (c : Coordinator) (host : String)
    (port : Nat) : Coordinator × Except Failure Unit :=
  match net host port with
  | none => (c, Except.error Failure.transport)
  | some scripts =>
    let b : Bank :=
      { client := { outbox := [], sendScript := scripts.1, inbox := scripts.2 },
        host := host, port := port, state := ParticipantState.INIT }
    ({ c with
        participants := c.participants ++ [b],
        logFile := c.logFile ++ ["Connected to participant " ++ b.address] },
      Except.ok ())

/-- The loop of `callParticipants` over `banks`. -/
def addParticipants (net : Network) :
    Coordinator → List (String × Nat) → Coordinator × Except Failure Unit
  | c, [] => (c, Except.ok ())
  | c, bank :: banks =>
    match addParticipant net c bank.1 bank.2 with
    | (c1, Except.error e) => (c1, Except.error e)
    | (c1, Except.ok _) => addParticipants net c1 banks

/-- First loop of `sendGlobalCommit`: log and send `GLOBAL-COMMIT` to every
participant. -/
def commitSendLoop :
    List Bank → List String → List Bank × List String × Option Failure
  | [], log => ([], log, none)
  | b :: bs, log =>
    let log1 := log ++ ["Sending message '" ++ toString Protocol.GLOBAL_COMMIT ++
      "' to " ++ b.address]
    match b.client.send_request (toString Protocol.GLOBAL_COMMIT) with
    | none => (b :: bs, log1, some Failure.transport)
    | some cl =>
      let r := commitSendLoop bs log1
      ({ b with client := cl } :: r.1, r.2.1, r.2.2)

/-- The state threaded through the second loop of `sendGlobalCommit`. -/
structure AckState where
  banks : List Bank
  logFile : List String
  cerr : List String
  isCommitted : Bool
  failure : Option Failure
  deriving DecidableEq, Repr

/-- Second loop of `sendGlobalCommit`: read one response per participant; a
response other than `ACK` goes to `cerr` and clears `isCommitted`. -/
def commitAckLoop : List Bank → List String → List String → Bool → AckState
  | [], log, err, isCommitted =>
    { banks := [], logFile := log, cerr := err, isCommitted := isCommitted,
      failure := none }
  | b :: bs, log, err, isCommitted =>
    match b.client.get_response with
    | (none, cl) =>
      { banks := { b with client := cl } :: bs, logFile := log, cerr := err,
        isCommitted := isCommitted, failure := some Failure.transport }
    | (some response, cl) =>
      let r :=
        if response ≠ toString Protocol.ACK then
          commitAckLoop bs log
            (err ++ ["Failed to receive " ++ toString Protocol.ACK ++ " from " ++
              b.address]) false
        else
          commitAckLoop bs
            (log ++ ["'" ++ response ++ "' received from " ++ b.address]) err
            isCommitted
      { r with banks := { b with client := cl } :: r.banks }

/-- `Coordinator::sendGlobalCommit`. -/
def sendGlobalCommit (c : Coordinator) : Coordinator × Except Failure Unit :=
  match commitSendLoop c.participants c.logFile with
  | (bs, log, some e) =>
    ({ c with participants := bs, logFile := log }, Except.error e)
  | (bs, log, none) =>
    let r := commitAckLoop bs log c.cerr true
    match r.failure with
    | some e =>
      ({ participants := r.banks, logFile := r.logFile, cerr := r.cerr },
        Except.error e)
    | none =>
      ({ participants := r.banks,
         logFile := r.logFile ++
           [if r.isCommitted then "Transaction committed"
            else "Transaction aborted"],
         cerr := r.cerr },
        Except.ok ())

/-- The loop of `sendGlobalAbort`: a participant not recorded as `ABORT` is
sent `GLOBAL-ABORT` and its response is read at once. -/
def abortLoop : List Bank → List String → List String → AckState
  | [], log, err =>
    { banks := [], logFile := log, cerr := err, isCommitted := false,
      failure := none }
  | b :: bs, log, err =>
    if b.state ≠ ParticipantState.ABORT then
      let log1 := log ++ ["Sending message '" ++
        toString Protocol.GLOBAL_ABORT ++ "' to " ++ b.address]
      match b.client.send_request (toString Protocol.GLOBAL_ABORT) with
      | none =>
        { banks := b :: bs, logFile := log1, cerr := err, isCommitted := false,
          failure := some Failure.transport }
      | some cl =>
        match cl.get_response with
        | (none, cl2) =>
          { banks := { b with client := cl2 } :: bs, logFile := log1,
            cerr := err, isCommitted := false,
            failure := some Failure.transport }
        | (some response, cl2) =>
          let r :=
            if response ≠ toString Protocol.ACK then
              abortLoop bs log1
                (err ++ ["Failed to receive " ++ toString Protocol.ACK ++
                  "from " ++ b.address])
            else
              abortLoop bs
                (log1 ++ ["'" ++ response ++ "' received from " ++ b.address])
                err
          { r with banks := { b with client := cl2 } :: r.banks }
    else
      let r := abortLoop bs log err
      { r with banks := b :: r.banks }

/-- `Coordinator::sendGlobalAbort`. -/
def sendGlobalAbort (c : Coordinator) : Coordinator × Except Failure Unit :=
  let r := abortLoop c.participants c.logFile c.cerr
  match r.failure with
  | some e =>
    ({ participants := r.banks, logFile := r.logFile, cerr := r.cerr },
      Except.error e)
  | none =>
    ({ participants := r.banks,
       logFile := r.logFile ++ ["Transaction aborted"], cerr := r.cerr },
      Except.ok ())

/-- `Coordinator::callParticipants`. -/
def callParticipants (net : Network) (c : Coordinator)
    (accountFrom accountTo : String) (amount : Double)
    (banks : List (String × Nat)) : Coordinator × Except Failure Unit :=
  match addParticipants net c banks with
  | (c1, Except.error e) => (c1, Except.error e)
  | (c1, Except.ok _) =>
    match sendVoteRequest c1 amount accountFrom accountTo with
    | (c2, Except.error e) => (c2, Except.error e)
    | (c2, Except.ok twoPC) =>
      if twoPC then sendGlobalCommit c2 else sendGlobalAbort c2

end Coordinator

/-! ## Text input: the `istream` extractors used by the participant -/

/-- `isspace` in the C locale. -/
def isspace (c : Char) : Bool :=
  c = ' ' || c = '\t' || c = '\n' || c = Char.ofNat 11 || c = Char.ofNat 12 ||
    c = '\r'

/-- `isdigit`. -/
def isdigit (c : Char) : Bool := 48 ≤ c.toNat && c.toNat ≤ 57

/-- What the sentry of a formatted extraction does: skip leading whitespace. -/
def skipws (s : List Char) : List Char := s.dropWhile isspace

/-- The value of a run of decimal digits. -/
def digitsValue (ds : List Char) : Nat :=
  ds.foldl (fun acc c => acc * 10 + (c.toNat - 48)) 0

/-- An optional sign: whether it is `-`, and the text after it. -/
def takeSign : List Char → Bool × List Char
  | '-' :: t => (true, t)
  | '+' :: t => (false, t)
  | s => (false, s)

/-- The fractional part after the integer digits: the digits that follow a
decimal point, and the text after them. -/
def takeFraction : List Char → List Char × List Char
  | '.' :: t => (t.takeWhile isdigit, t.dropWhile isdigit)
  | s => ([], s)

/-- The exponent part `e[sign]digits`: `some 0` when there is none,
`none` when an `e` is not followed by digits (the conversion then fails). -/
def takeExponent : List Char → Option Int
  | c :: t =>
    if c = 'e' ∨ c = 'E' then
      let sg := takeSign t
      let ds := sg.2.takeWhile isdigit
      if ds = [] then none
      else some (if sg.1 then -(digitsValue ds : Int) else (digitsValue ds : Int))
    else some 0
  | [] => some 0

/-- The decimal number `num_get` collects for a `double` from text whose
leading whitespace has been skipped: sign, digits, optional fraction, optional
exponent; what follows the number is left unread. Gives whether the sign is
`-` and the exact magnitude; `none` when the text collected is no number. -/
def readDecimal (s : List Char) : Option (Bool × ℚ) :=
  let sg := takeSign s
  let ip := sg.2.takeWhile isdigit
  let fr := takeFraction (sg.2.dropWhile isdigit)
  if ip = [] ∧ fr.1 = [] then none
  else
    match takeExponent fr.2 with
    | none => none
    | some e =>
      let mant : ℚ :=
        (digitsValue ip : ℚ) + (digitsValue fr.1 : ℚ) / (10 : ℚ) ^ fr.1.length
      let scaled : ℚ :=
        if 0 ≤ e then mant * (10 : ℚ) ^ e.toNat else mant / (10 : ℚ) ^ (-e).toNat
      some (sg.1, scaled)

/-- `num_get` for a `double`: the decimal number collected is converted by
`strtod`, to the nearest `double`. `Except.ok v` is a conversion that
succeeds. `Except.error v` is one that sets `failbit`, with `v` the value it
stores: `0` when the text is no number, the largest finite value with the
sign of the number when the number is out of range. -/
def extractDouble (s : List Char) : Except Double Double :=
  match readDecimal s with
  | none => Except.error (Double.finite 0)
  | some (negative, magnitude) =>
    match Double.round negative magnitude with
    | Double.inf n =>
      Except.error
        (Double.finite (if n then -Double.maxFinite else Double.maxFinite))
    | v => Except.ok v

/-- `stream >> bal` on a fresh stream over `s`: `none` when the stream ends
up failed (nothing but whitespace, no number, or a number out of range). -/
def readDouble (s : List Char) : Option Double :=
  match skipws s with
  | [] => none
  | r =>
    match extractDouble r with
    | Except.ok v => some v
    | Except.error _ => none

/-- `stream >> word` for a `string`: skip whitespace, then take the characters
up to the next whitespace; gives the word and the unread text, or `none` when
only whitespace was left (the stream fails and the string is untouched). -/
def extractWord (s : List Char) : Option (List Char × List Char) :=
  match skipws s with
  | [] => none
  | r => some (r.takeWhile (fun c => !isspace c), r.dropWhile (fun c => !isspace c))

/-- An input file stream: the unread text and the two state bits. -/
structure IStream where
  rest : List Char
  eofbit : Bool
  failbit : Bool
  deriving DecidableEq, Repr

/-- `getline(stream, str, delim)`: when the stream is not good the string is
untouched and `failbit` is set; otherwise the string becomes the text before
the delimiter (which is consumed), or up to the end of the input, and
`failbit` is set when nothing at all was extracted. -/
def IStream.getline (s : IStream) (str : List Char) (delim : Char) :
    IStream × List Char :=
  if s.eofbit || s.failbit then ({ s with failbit := true }, str)
  else
    let line := s.rest.takeWhile (fun c => c ≠ delim)
    match s.rest.dropWhile (fun c => c ≠ delim) with
    | [] => ({ rest := [], eofbit := true, failbit := line.isEmpty }, line)
    | _ :: t => ({ rest := t, eofbit := false, failbit := false }, line)

/-! ## Text output: `ostream << double` -/

/-- `floor (log10 n)` for `n ≥ 1`. -/
def log10floor (n : Nat) : Nat := (natText n).length - 1

/-- The least `k` from `k` on with `1 ≤ x * 10 ^ k`, searched for `fuel`
steps. -/
def findScale (x : ℚ) : Nat → Nat → Nat
  | 0, k => k
  | fuel + 1, k => if 1 ≤ x * (10 : ℚ) ^ k then k else findScale x fuel (k + 1)

/-- The decimal exponent `e` of a positive rational:
`10 ^ e ≤ x < 10 ^ (e + 1)`. -/
def decimalExponent (x : ℚ) : Int :=
  if 1 ≤ x then (log10floor (Rat.floor x).toNat : Int)
  else -(findScale x (natText x.den).length 1 : Int)

/-- A digit string without its trailing zeros. -/
def stripZeros (ds : List Char) : List Char :=
  (ds.reverse.dropWhile (fun c => c = '0')).reverse

/-- A fractional part as printed by `%g`: nothing when it is empty. -/
def fractionText (ds : List Char) : List Char :=
  if ds = [] then [] else '.' :: ds

/-- The text of a finite value in the general notation `%g` with six
significant digits: trailing zeros removed, exponent form when the decimal
exponent is below `-4` or at least `6`. -/
def generalSix (x : ℚ) : String :=
  if x = 0 then "0"
  else
    let a := |x|
    let e0 := decimalExponent a
    let m0 :=
      roundHalfEven
        (if e0 ≤ 5 then a * (10 : ℚ) ^ (5 - e0).toNat
         else a / (10 : ℚ) ^ (e0 - 5).toNat)
    let m := if m0 = 1000000 then 100000 else m0
    let e := if m0 = 1000000 then e0 + 1 else e0
    let ds := natText m
    let sign := if x < 0 then ['-'] else []
    if e < -4 ∨ 6 ≤ e then
      let ex := natText e.natAbs
      String.mk (sign ++ ds.take 1 ++ fractionText (stripZeros (ds.drop 1)) ++
        ['e', if e < 0 then '-' else '+'] ++
        (if ex.length < 2 then '0' :: ex else ex))
    else if 0 ≤ e then
      String.mk (sign ++ ds.take (e.toNat + 1) ++
        fractionText (stripZeros (ds.drop (e.toNat + 1))))
    else
      String.mk (sign ++ ['0', '.'] ++ List.replicate ((-e).toNat - 1) '0' ++
        stripZeros ds)

/-- `ostream << x` for a `double` with the stream defaults (`%g`, six
significant digits). -/
def putDouble : Double → String
  | Double.finite q => generalSix q
  | Double.negZero => "-0"
  | Double.inf n => if n then "-inf" else "inf"
  | Double.nan n => if n then "-nan" else "nan"

/-! ## The account maps -/

/-- An `unordered_map<string, double>`: its entries in order of insertion. -/
abbrev Ledger := List (String × Double)

namespace Ledger

/-- `m.find(k)`: the mapped value, `none` for `end()`. -/
def find : Ledger → String → Option Double
  | [], _ => none
  | (k', v) :: t, k => if k' = k then some v else find t k

/-- `m[k] = v`. -/
def assign : Ledger → String → Double → Ledger
  | [], k, v => [(k, v)]
  | (k', v') :: t, k, v =>
    if k' = k then (k', v) :: t else (k', v') :: assign t k v

/-- `m[k] += v`, where `m[k]` first inserts `0.0` for a missing key. -/
def addTo (m : Ledger) (k : String) (v : Double) : Ledger :=
  m.assign k (Double.add ((m.find k).getD (Double.finite 0)) v)

/-- The keys, in order of insertion. -/
def keys (m : Ledger) : List String := m.map Prod.fst

/-- The entries in the order a range-`for` over the map visits them. The
standard leaves the order of an `unordered_map` unspecified; `rank` stands for
what the hash table gives at the time of the loop: the entries are visited by
increasing rank of their key, in order of insertion among equal ranks. -/
def iterate (rank : String → Nat) (m : Ledger) : Ledger :=
  m.insertionSort (fun a b => rank a.1 ≤ rank b.1)

/-- The keys of a map are pairwise distinct. -/
def WF (m : Ledger) : Prop := m.keys.Nodup

instance (m : Ledger) : Decidable m.WF := by
  unfold WF; exact inferInstance

/-- The sum of all balances. -/
def total (m : Ledger) : ℚ := (m.map (fun e => e.2.value)).sum

end Ledger

/-! ## 2PC_Participant.cpp -/

/-- The participant: the two maps, the text of the accounts file, the lines
appended to the log file (each is also printed on `cout`) and the responses
written to the client socket. The files and the socket are taken to be
writable. -/
structure Participant where
  accounts : Ledger
  holding : Ledger
  accountsFile : String
  logFile : List String
  sent : List String
  deriving DecidableEq, Repr

namespace Participant

/-- `Participant::log`. -/
def log (p : Participant) (message : String) : Participant :=
  { p with logFile := p.logFile ++ [message] }

/-- `TCPServer::respond`. -/
def respond (p : Participant) (response : String) : Participant :=
  { p with sent := p.sent ++ [response] }

/-- The `while` loop of `readAccounts`; `account` is the local variable that
survives from one iteration to the next. Each iteration that goes on consumes
at least one character, so `fuel` above the length of the unread text is never
used up. `Except.error` is the thrown "Invalid format of accounts file". -/
def readLoop : Nat → IStream → List Char → Ledger → Ledger × Except String Unit
  | 0, _, _, m => (m, Except.ok ())
  | fuel + 1, s, account, m =>
    let g1 := s.getline [] ' '
    if g1.1.failbit then (m, Except.ok ())
    else
      let g2 := g1.1.getline account '\n'
      match readDouble g1.2 with
      | none => (m, Except.error "Invalid format of accounts file")
      | some bal =>
        readLoop fuel g2.1 g2.2 (m.assign (String.mk g2.2) bal)

/-- `Participant::readAccounts`. -/
def readAccounts (p : Participant) : Participant × Except String Unit :=
  let r := readLoop (p.accountsFile.data.length + 1)
    { rest := p.accountsFile.data, eofbit := false, failbit := false } []
    p.accounts
  ({ p with accounts := r.1 }, r.2)

/-- The constructor `Participant::Participant`: empty maps, then
`readAccounts`. -/
def construct (accountsFile : String) (logFile : List String) :
    Participant × Except String Unit :=
  readAccounts
    { accounts := [], holding := [], accountsFile := accountsFile,
      logFile := logFile, sent := [] }

/-- `Participant::processVoteRequest`. -/
def processVoteRequest (p : Participant) (command account : String)
    (amount : Double) : Participant × Bool :=
  let formattedAmount := formatAmount amount
  if Double.lt amount (Double.finite 0) then
    if p.accounts.find account ≠ none ∧
        Double.ge ((p.accounts.find account).getD (Double.finite 0))
          (Double.neg amount) then
      let p1 := { p with holding := p.holding.assign account amount }
      let p2 := p1.log ("Holding " ++ formattedAmount ++ " from account " ++
        account)
      let p3 := p2.log ("Got " ++ command ++
        ", replying VOTE-COMMIT. State: READY")
      (p3.respond (toString Protocol.VOTE_COMMIT), true)
    else
      let p1 := p.log ("Got " ++ command ++
        ", replying VOTE-ABORT. State: ABORT")
      let p2 :=
        if p.accounts.find account ≠ none then
          p1.log ("Releasing hold from account " ++ account)
        else p1
      (p2.respond (toString Protocol.VOTE_ABORT), false)
  else
    if p.accounts.find account ≠ none then
      let p1 := { p with holding := p.holding.assign account amount }
      let p2 := p1.log ("Holding " ++ formattedAmount ++ " for account " ++
        account)
      let p3 := p2.log ("Got " ++ command ++
        ", replying VOTE-COMMIT. State: READY")
      (p3.respond (toString Protocol.VOTE_COMMIT), true)
    else
      let p1 := p.log ("Got " ++ command ++
        ", replying VOTE-ABORT. State: ABORT")
      (p1.respond (toString Protocol.VOTE_ABORT), false)

/-- The text of the accounts file as `updateAccountsFile` writes it. -/
def ledgerText : Ledger → List Char
  | [] => []
  | (account, balance) :: t =>
    (putDouble balance).data ++ [' '] ++ account.data ++ ['\n'] ++ ledgerText t

/-- `Participant::updateAccountsFile`: one line per account, in the order
the loop over `accounts` visits them. -/
def updateAccountsFile (p : Participant) (rank : String → Nat) : Participant :=
  { p with accountsFile := String.mk (ledgerText (p.accounts.iterate rank)) }

/-- The key a loop `for (val : visited) account = val.first` ends on: the last
one visited, the empty string when there is none. -/
def lastHeld : Ledger → String
  | [] => ""
  | [(k, _)] => k
  | _ :: t => lastHeld t

/-- What a call of `process` takes from outside the program text: the
indeterminate value `junk` of its uninitialised local `amount`, and the order
in which the two hash maps are visited at that moment (see
`Ledger.iterate`). -/
structure Env where
  junk : Double
  holdingRank : String → Nat
  accountsRank : String → Nat

/-- `Participant::processGlobalCommit`. -/
def processGlobalCommit (p : Participant) (env : Env) (command : String) :
    Participant :=
  let p1 := p.log ("Got " ++ command ++ ", replying ACK. State: COMMIT")
  let account := lastHeld (p1.holding.iterate env.holdingRank)
  let p2 :=
    match p1.holding.find account with
    | some held =>
      { p1 with accounts := p1.accounts.addTo account held }.log
        ("Committing " ++ formatAmount held ++ " for account " ++ account)
    | none => p1
  (updateAccountsFile p2 env.accountsRank).respond (toString Protocol.ACK)

/-- `Participant::rollback`. -/
def rollback (p : Participant) : Participant × Except String Unit :=
  match readAccounts { p with holding := [] } with
  | (p1, Except.error e) => (p1, Except.error e)
  | (p1, Except.ok _) => (p1.log "Rollback complete", Except.ok ())

/-- `Participant::processGlobalAbort`. -/
def processGlobalAbort (p : Participant) (command : String) :
    Participant × Except String Unit :=
  let p1 := p.log ("Got " ++ command ++ ", replying ACK. State: ABORT")
  let p2 := p1.log "Releasing hold from account"
  match rollback p2 with
  | (p3, Except.error e) => (p3, Except.error e)
  | (p3, Except.ok _) => (p3.respond "ACK", Except.ok ())

/-- `Participant::stop` (the listening socket is outside the model). -/
def stop (p : Participant) : Participant × Except String Unit :=
  rollback (p.log "Stopping server and rolling back changes")

/-- The line `stream >> command >> account >> amount` of `process`: `command`
and `account` start out empty, and `junk` is the indeterminate value the
uninitialised local `amount` keeps when the stream has already failed or ends
before the number. Whether the conversion of the number fails is never
looked at: `amount` is what the conversion stored. -/
def parseRequest (junk : Double) (request : String) :
    String × String × Double :=
  match extractWord request.data with
  | none => ("", "", junk)
  | some w1 =>
    match extractWord w1.2 with
    | none => (String.mk w1.1, "", junk)
    | some w2 =>
      match skipws w2.2 with
      | [] => (String.mk w1.1, String.mk w2.1, junk)
      | r =>
        (String.mk w1.1, String.mk w2.1,
          match extractDouble r with
          | Except.ok v => v
          | Except.error v => v)

/-- `Participant::process`. -/
def process (p : Participant) (env : Env) (request : String) :
    Participant × Except String Bool :=
  let parsed := parseRequest env.junk request
  let command := parsed.1
  let account := parsed.2.1
  let amount := parsed.2.2
  match toProtocol command with
  | Protocol.VOTE_REQUEST =>
    let r := processVoteRequest p command account amount
    (r.1, Except.ok r.2)
  | Protocol.GLOBAL_COMMIT =>
    (processGlobalCommit p env command, Except.ok false)
  | Protocol.GLOBAL_ABORT =>
    match processGlobalAbort p command with
    | (p1, Except.error e) => (p1, Except.error e)
    | (p1, Except.ok _) => (p1, Except.ok false)
  | _ =>
    let p1 := p.log ("Invalid command received: " ++ command)
    (p1.respond (toString Protocol.UNKNOWN_PROTOCOL), Except.ok false)

end Participant

/-! ## TCPServer.cpp -/

namespace Participant

/-- The loop of `TCPServer::serve` on one accepted connection. `received`
lists the texts the successive calls of `recv` deliver, each with what the
call of `process` on it takes from outside; when the list is used up the
client has closed the connection. The loop goes on while `process`
returns `true`; it ends when `process` returns `false` or throws. -/
def serveLoop : Participant → List (Env × String) → Participant
  | p, [] => p
  | p, (env, request) :: rest =>
    match p.process env request with
    | (p1, Except.ok true) => serveLoop p1 rest
    | (p1, _) => p1

/-- `Participant::start_client`. -/
def start_client (p : Participant) : Participant :=
  p.log "Accepted coordinator connection. State: INIT"

/-- `TCPServer::serve`, from the accepted connection on. -/
def serve (p : Participant) (received : List (Env × String)) : Participant :=
  serveLoop p.start_client received

end Participant

/-! ## coordinator.cpp and participant.cpp: `validateArguments` -/

/-- `string::npos`, the largest `size_t`. -/
def npos : Nat := 2 ^ 64 - 1

/-- The index of the last occurrence of `c` in `s`, if there is one. -/
def lastIndex : List Char → Char → Option Nat
  | [], _ => none
  | x :: t, c =>
    match lastIndex t c with
    | some i => some (i + 1)
    | none => if x = c then some 0 else none

/-- `s.find_last_of(c)`: the index of the last occurrence, `npos` when there is
none. -/
def find_last_of (s : String) (c : Char) : Nat := (lastIndex s.data c).getD npos

/-- `s.substr(pos)`: the text from index `pos` on; `none` is the `out_of_range`
thrown when `pos` is beyond the size. -/
def substr (s : String) (pos : Nat) : Option String :=
  if s.data.length < pos then none else some (String.mk (s.data.drop pos))

/-- The test `name.substr(name.find_last_of('.') + 1) != "txt"` both programs
apply to a file name, with the `size_t` addition wrapping around; `true` means
the name is rejected. -/
def notTxt (name : String) : Option Bool :=
  match substr name ((find_last_of name '.' + 1) % 2 ^ 64) with
  | none => none
  | some ext => some (decide (ext ≠ "txt"))

/-- The outcome of `std::stod` or `std::stoi`: a value or one of the two
exceptions they throw. -/
inductive Conv (α : Type) where
  | value (v : α)
  | invalid_argument
  | out_of_range
  deriving DecidableEq, Repr

/-- What `validateArguments` can throw: a `runtime_error` with its text, an
`out_of_range` that escapes from `stod`, `stoi` or `substr`, or the undefined
construction of a string from the null pointer `argv[argc]`. -/
inductive ArgError where
  | runtime_error (what : String)
  | out_of_range
  | undefined
  deriving DecidableEq, Repr

/-- The port check shared by both programs: `stoi`, the range test, and the
handler for `invalid_argument`; `shown` is the text appended to the message. -/
def validatePort (stoi : String → Conv Int) (arg : String)
    (shown : Option String) : Except ArgError Int :=
  match stoi arg with
  | Conv.value port =>
    if port < 1 ∨ port ≥ 2 ^ 16 then
      match shown with
      | some text => Except.error (ArgError.runtime_error ("Invalid port: " ++ text))
      | none => Except.error ArgError.undefined
    else Except.ok port
  | Conv.invalid_argument =>
    match shown with
    | some text =>
      Except.error (ArgError.runtime_error ("Invalid port format: " ++ text))
    | none => Except.error ArgError.undefined
  | Conv.out_of_range => Except.error ArgError.out_of_range

/-- The values `validateArguments` of the coordinator hands back. -/
structure CoordinatorArgs where
  logFilename : String
  amount : Double
  hostFrom : String
  portFrom : Int
  accountFrom : String
  hostTo : String
  portTo : Int
  accountTo : String
  deriving DecidableEq, Repr

/-- `validateArguments` of coordinator.cpp; `stod` and `stoi` are the library
conversions. -/
def Coordinator.validateArguments (stod : String → Conv Double)
    (stoi : String → Conv Int) (argv : List String) :
    Except ArgError CoordinatorArgs :=
  match argv with
  | _ :: a1 :: a2 :: a3 :: a4 :: a5 :: a6 :: a7 :: a8 :: _ =>
    match notTxt a1 with
    | none => Except.error ArgError.out_of_range
    | some true =>
      Except.error (ArgError.runtime_error
        ("Log file must have a .txt extension: " ++ a1))
    | some false =>
      match stod a2 with
      | Conv.out_of_range => Except.error ArgError.out_of_range
      | Conv.invalid_argument =>
        Except.error (ArgError.runtime_error ("Invalid amount format: " ++ a2))
      | Conv.value amount =>
        if Double.le amount (Double.finite 0) then
          Except.error (ArgError.runtime_error
            ("Amount must be greater than zero:" ++ a2))
        else
          match validatePort stoi a4 (some a4) with
          | Except.error e => Except.error e
          | Except.ok portFrom =>
            match validatePort stoi a7 (some a7) with
            | Except.error e => Except.error e
            | Except.ok portTo =>
              Except.ok
                { logFilename := a1, amount := amount, hostFrom := a3,
                  portFrom := portFrom, accountFrom := a5, hostTo := a6,
                  portTo := portTo, accountTo := a8 }
  | _ =>
    Except.error (ArgError.runtime_error
      ("Usage: coordinator log_filename amount hostFrom portFrom " ++
        "accountFrom hostTo portTo accountTo"))

/-- The values `validateArguments` of the participant hands back. -/
structure ParticipantArgs where
  serve_port : Int
  accounts_filename : String
  log_filename : String
  deriving DecidableEq, Repr

/-- `validateArguments` of participant.cpp; its port messages show `argv[4]`,
which is the null pointer when there are exactly four arguments. -/
def Participant.validateArguments (stoi : String → Conv Int)
    (argv : List String) : Except ArgError ParticipantArgs :=
  match argv with
  | _ :: a1 :: a2 :: a3 :: rest =>
    match validatePort stoi a1 rest.head? with
    | Except.error e => Except.error e
    | Except.ok port =>
      match notTxt a3 with
      | none => Except.error ArgError.out_of_range
      | some true =>
        Except.error (ArgError.runtime_error
          ("Log file must have a .txt extension: " ++ a3))
      | some false =>
        match notTxt a2 with
        | none => Except.error ArgError.out_of_range
        | some true =>
          Except.error (ArgError.runtime_error
            ("Accounts file must have a .txt extension: " ++ a2))
        | some false =>
          Except.ok
            { serve_port := port, accounts_filename := a2, log_filename := a3 }
  | _ =>
    Except.error (ArgError.runtime_error
      ("Usage: participant serve_port " ++ "accounts_filename log_filename"))

/-! ## Vocabulary of the statements -/

/-- What the bank's socket delivers at its next read. -/
def Bank.nextResponse (b : Bank) : Option String := b.client.get_response.1

/-- The next `send` on the bank's socket succeeds. -/
def Bank.canSend (b : Bank) : Prop := b.client.sendScript.head? ≠ some false

instance (b : Bank) : Decidable b.canSend := by
  unfold Bank.canSend; exact inferInstance

/-- What has been written to each socket between two states of the participant
vector, participant by participant. -/
def sentInRun (before after : List Bank) : List (List String) :=
  List.zipWith (fun b a => a.client.outbox.drop b.client.outbox.length)
    before after

/-- Between `b` and `a` the socket of a bank was only written to, and every
text written satisfies `P`. -/
def Sent (P : String → Prop) (b a : Bank) : Prop :=
  ∃ new, a.client.outbox = b.client.outbox ++ new ∧ ∀ m ∈ new, P m

/-- The log lines `sendGlobalAbort` writes for one participant: nothing for one
recorded as `ABORT`; otherwise the sending line, followed by the receipt line
when the response is `ACK`. -/
def abortLines (b : Bank) : List String :=
  if b.state ≠ ParticipantState.ABORT then
    ("Sending message 'GLOBAL-ABORT' to " ++ b.address) ::
      (if b.nextResponse = some "ACK" then
        ["'ACK' received from " ++ b.address]
      else [])
  else []

/-- What `sendGlobalAbort` writes to the socket of one participant. -/
def abortTexts (b : Bank) : List String :=
  if b.state ≠ ParticipantState.ABORT then ["GLOBAL-ABORT"] else []

/-- The map after the assignments `m[k] = v` for the pairs of `es`, in
order. -/
def Ledger.assignAll (es : List (String × Double)) (m : Ledger) : Ledger :=
  es.foldl (fun acc e => acc.assign e.1 e.2) m

/-- The assignments `accounts[account] = bal` the loop of `readAccounts`
performs, in order, and how the loop ends. -/
def Participant.readEntries :
    Nat → IStream → List Char → List (String × Double) × Except String Unit
  | 0, _, _ => ([], Except.ok ())
  | fuel + 1, s, account =>
    let g1 := s.getline [] ' '
    if g1.1.failbit then ([], Except.ok ())
    else
      let g2 := g1.1.getline account '\n'
      match readDouble g1.2 with
      | none => ([], Except.error "Invalid format of accounts file")
      | some bal =>
        let r := Participant.readEntries fuel g2.1 g2.2
        ((String.mk g2.2, bal) :: r.1, r.2)

/-- What `stream >> amount` leaves in `amount`, whether the conversion
succeeded or not. -/
def Double.stored : Except Double Double → Double
  | Except.ok v => v
  | Except.error v => v

/-- What `num_get` stores for the value `strtod` returns: the largest finite
value in place of an infinity. -/
def Double.clamp : Double → Double
  | Double.inf n =>
    Double.finite (if n then -Double.maxFinite else Double.maxFinite)
  | v => v

/-- The magnitude of a finite value rounded to two decimals, as `formatAmount`
prints it. -/
def centsOf (q : ℚ) : ℚ := (roundHalfEven (|q| * 100) : ℚ) / 100

/-- The amount a vote request carries for `amount`: what a participant reads
back from the text `formatAmount` prints for it. -/
def amountSent (amount : Double) : Double :=
  Double.stored (extractDouble (formatAmount amount).data)

/-- The number a finite value stands for; `none` for an infinity or a NaN. -/
def Double.number : Double → Option ℚ
  | Double.finite q => some q
  | Double.negZero => some 0
  | _ => none

/-- The sum of two values is exact: both are finite, and so is their sum,
which no rounding has changed. -/
def Double.ExactSum (a b : Double) : Prop :=
  match a.number, b.number with
  | some x, some y => (Double.add a b).number = some (x + y)
  | _, _ => False

instance (a b : Double) : Decidable (Double.ExactSum a b) := by
  unfold Double.ExactSum
  split <;> exact inferInstance

/-- An account name that survives the trip through a vote request: not empty
and free of whitespace. -/
def cleanToken (s : String) : Prop := s.data ≠ [] ∧ ∀ c ∈ s.data, isspace c = false

instance (s : String) : Decidable (cleanToken s) := by
  unfold cleanToken; exact inferInstance

/-- The first whitespace-delimited token of a text, the empty string when
there is none. -/
def firstToken (text : String) : String :=
  match extractWord text.data with
  | none => ""
  | some w => String.mk w.1

/-- A text contains no NUL character. -/
def nulFree (s : String) : Prop := ∀ c ∈ s.data, c ≠ Char.ofNat 0

instance (s : String) : Decidable (nulFree s) := by
  unfold nulFree; exact inferInstance

/-- A file name ends with the extension `.txt`. -/
def endsWithTxt (name : String) : Prop :=
  ∃ stem : List Char, name.data = stem ++ ['.', 't', 'x', 't']

/-- The hold table has one entry per account at most, and only for accounts
of the ledger. -/
def Participant.HoldsOk (p : Participant) : Prop :=
  p.holding.WF ∧ ∀ k ∈ p.holding.keys, k ∈ p.accounts.keys

/-- The account a received text names when its command is `VOTE-REQUEST`. -/
def voteAccount (m : Participant.Env × String) : Option String :=
  if firstToken m.2 = "VOTE-REQUEST" then
    some (Participant.parseRequest m.1.junk m.2).2.1
  else none

/-- The accounts named by the vote requests among the texts received, in
order of arrival. -/
def voteAccounts (received : List (Participant.Env × String)) : List String :=
  received.filterMap voteAccount

/-! ## Sample data -/

/-- A freshly connected bank whose socket will deliver `responses`. -/
def sampleBank (host : String) (port : Nat) (responses : List String) : Bank :=
  { client := { outbox := [], sendScript := [], inbox := responses.map some },
    host := host, port := port, state := ParticipantState.INIT }

/-- Two banks: the first answers the vote request with `VOTE-COMMIT`, the
second with `VOTE-ABORT`. -/
def sampleSplitVote : Coordinator :=
  { participants :=
      [sampleBank "alpha" 5001 ["VOTE-COMMIT", "ACK"],
       sampleBank "beta" 5002 ["VOTE-ABORT"]],
    logFile := [], cerr := [] }

/-- A coordinator as its constructor leaves it, on an empty log file. -/
def sampleCoordinator : Coordinator :=
  { participants := [], logFile := ["\nLog file opened successfully"],
    cerr := [] }

/-- The two endpoints of the sample runs. -/
def sampleEndpoints : List (String × Nat) := [("alpha", 5001), ("beta", 5002)]

/-- Both participants vote to commit and acknowledge. -/
def sampleNetCommit : Coordinator.Network := fun host _ =>
  if host = "alpha" ∨ host = "beta" then
    some ([], [some "VOTE-COMMIT", some "ACK"])
  else none

/-- Both participants vote to commit; the second then closes its connection
without acknowledging. -/
def sampleNetLostAck : Coordinator.Network := fun host _ =>
  if host = "alpha" then some ([], [some "VOTE-COMMIT", some "ACK"])
  else if host = "beta" then some ([], [some "VOTE-COMMIT"])
  else none

/-- Two banks after unanimous commit votes: the first will acknowledge, the
second has closed its connection. -/
def sampleAfterCommitVote : Coordinator :=
  { participants :=
      [{ sampleBank "alpha" 5001 ["ACK"] with state := ParticipantState.COMMIT },
       { sampleBank "beta" 5002 [] with state := ParticipantState.COMMIT }],
    logFile := [], cerr := [] }

/-- Two banks after phase 1: the first recorded as `COMMIT`, the second as
`ABORT`. -/
def sampleAfterSplitVote : Coordinator :=
  { participants :=
      [{ sampleBank "alpha" 5001 ["ACK"] with state := ParticipantState.COMMIT },
       { sampleBank "beta" 5002 [] with state := ParticipantState.ABORT }],
    logFile := [], cerr := [] }

/-- A participant that has loaded the accounts `A` (100) and `B` (50). -/
def sampleParticipant : Participant :=
  { accounts := [("A", Double.finite 100), ("B", Double.finite 50)],
    holding := [],
    accountsFile := "100 A\n50 B\n", logFile := [], sent := [] }

/-- The sample participant with a debit of 30 held on account `A`. -/
def sampleHolding : Participant :=
  { sampleParticipant with holding := [("A", Double.finite (-30))] }

/-- A participant holding account `A` with balance 100. -/
def sampleBankA : Participant :=
  { accounts := [("A", Double.finite 100)], holding := [],
    accountsFile := "100 A\n",
    logFile := [], sent := [] }

/-- A participant holding account `B` with balance 50. -/
def sampleBankB : Participant :=
  { accounts := [("B", Double.finite 50)], holding := [],
    accountsFile := "50 B\n",
    logFile := [], sent := [] }

/-- A participant holding the accounts `A` and `A B`, each with balance
100. -/
def sampleBankSpaced : Participant :=
  { accounts := [("A", Double.finite 100), ("A B", Double.finite 100)],
    holding := [],
    accountsFile := "100 A\n100 A B\n", logFile := [], sent := [] }

/-- A conversion for decimal port numbers: the digits of the argument, or
`invalid_argument` when it has a character that is not a digit. -/
def sampleStoi (s : String) : Conv Int :=
  if s.data ≠ [] ∧ s.data.all isdigit then Conv.value (digitsValue s.data)
  else Conv.invalid_argument

/-- A conversion for amounts written as plain decimal numbers: the nearest
`double`, `out_of_range` when that is an infinity, `invalid_argument` when
the text does not start with a number. -/
def sampleStod (s : String) : Conv Double :=
  match skipws s.data with
  | [] => Conv.invalid_argument
  | r =>
    match readDecimal r with
    | none => Conv.invalid_argument
    | some d =>
      match Double.round d.1 d.2 with
      | Double.inf _ => Conv.out_of_range
      | v => Conv.value v

/-- A participant that has loaded the file `12345.67 A`. -/
def sampleLargeBalance : Participant :=
  (Participant.construct "12345.67 A\n" []).1

/-- A participant that has loaded the file `1234567.89 A`. -/
def sampleHugeBalance : Participant :=
  (Participant.construct "1234567.89 A\n" []).1

/-- A participant that has loaded the file `0.3 A`. -/
def samplePointThree : Participant :=
  (Participant.construct "0.3 A\n" []).1

/-- A participant that has loaded the file `0.7 B`. -/
def samplePointSeven : Participant :=
  (Participant.construct "0.7 B\n" []).1

/-- An environment of `process`: the uninitialised amount happens to be zero
and both maps are visited in order of insertion. -/
def sampleEnv : Participant.Env :=
  { junk := Double.finite 0, holdingRank := fun _ => 0,
    accountsRank := fun _ => 0 }

/-- An environment of `process` in which an entry for `A` is visited after
one for `B`, whichever was inserted first: the order the hash table of
libstdc++ gives for these two keys when `A` was inserted first. -/
def sampleEnvLastA : Participant.Env :=
  { junk := Double.finite 0,
    holdingRank := fun k => if k = "A" then 1 else 0,
    accountsRank := fun k => if k = "A" then 1 else 0 }

/-- The sample coordinator after a first complete run with the two sample
endpoints. -/
def sampleAfterFirstRun : Coordinator :=
  (sampleCoordinator.callParticipants sampleNetCommit "A" "B"
    (Double.finite 30) sampleEndpoints).1

/-! ## Lemmas on the transport -/

theorem send_request_of_canSend (b : Bank) (m : String) (h : b.canSend) :
    ∃ cl, b.client.send_request m = some cl ∧ cl.inbox = b.client.inbox ∧
      cl.outbox = b.client.outbox ++ [cstr m] := by
  unfold Bank.canSend at h
  unfold TCPClient.send_request
  cases hs : b.client.sendScript with
  | nil => exact ⟨_, rfl, rfl, rfl⟩
  | cons x rest =>
    cases x with
    | false => simp [hs] at h
    | true => exact ⟨_, rfl, rfl, rfl⟩

theorem send_request_some (cl cl2 : TCPClient) (m : String)
    (h : cl.send_request m = some cl2) :
    cl2.inbox = cl.inbox ∧ cl2.outbox = cl.outbox ++ [cstr m] := by
  unfold TCPClient.send_request at h
  cases hs : cl.sendScript with
  | nil => rw [hs] at h; cases h; exact ⟨rfl, rfl⟩
  | cons x rest =>
    rw [hs] at h
    cases x with
    | false => cases h
    | true => cases h; exact ⟨rfl, rfl⟩

theorem nextResponse_congr (a b : Bank) (h : a.client.inbox = b.client.inbox) :
    a.nextResponse = b.nextResponse := by
  unfold Bank.nextResponse TCPClient.get_response
  rw [h]
  cases b.client.inbox with
  | nil => rfl
  | cons x rest => cases x <;> rfl

theorem get_response_outbox (cl : TCPClient) :
    cl.get_response.2.outbox = cl.outbox := by
  unfold TCPClient.get_response
  cases cl.inbox with
  | nil => rfl
  | cons x rest => cases x <;> rfl

namespace Coordinator

/-! ## Phase 1 -/

theorem processResponse_true_iff (r : String) :
    (processResponse r).1 = true ↔ r = "VOTE-COMMIT" := by
  unfold processResponse toProtocol
  constructor
  · intro h
    by_contra hne
    split_ifs at h
  · intro h
    subst h
    decide

theorem sendVoteLoop_ok (messages : List String) :
    ∀ (bs : List Bank) (i : Nat) (log : List String),
      i + bs.length ≤ messages.length → (∀ b ∈ bs, b.canSend) →
      (sendVoteLoop messages i bs log).2.2 = none ∧
      (sendVoteLoop messages i bs log).1.map Bank.nextResponse =
        bs.map Bank.nextResponse := by
  intro bs
  induction bs with
  | nil => intro i log _ _; simp [sendVoteLoop]
  | cons b bs ih =>
    intro i log hlen hsend
    have hi : i < messages.length := by
      simp only [List.length_cons] at hlen; omega
    obtain ⟨cl, hcl, hin, _⟩ :=
      send_request_of_canSend b messages[i] (hsend b (List.mem_cons_self _ _))
    have hrec := ih (i + 1)
      (log ++ ["Sending message '" ++ messages[i] ++ "' to " ++ b.address])
      (by simp only [List.length_cons] at hlen; omega)
      (fun x hx => hsend x (List.mem_cons_of_mem _ hx))
    simp only [sendVoteLoop, List.getElem?_eq_getElem hi, hcl, List.map_cons]
    refine ⟨hrec.1, ?_⟩
    rw [hrec.2]
    exact congrArg (· :: _) (nextResponse_congr _ _ hin)

theorem collectVotes_ok :
    ∀ (bs : List Bank) (responses : List String) (log : List String),
      bs.map Bank.nextResponse = responses.map some →
      (collectVotes bs log).2.2 = none ∧
      (decision (collectVotes bs log).1 = true ↔
        ∀ r ∈ responses, r = "VOTE-COMMIT") := by
  intro bs
  induction bs with
  | nil =>
    intro responses log h
    cases responses with
    | nil => simp [collectVotes, decision]
    | cons r rs => simp at h
  | cons b bs ih =>
    intro responses log h
    cases responses with
    | nil => simp at h
    | cons r rs =>
      simp only [List.map_cons, List.cons.injEq] at h
      obtain ⟨hb, hrest⟩ := h
      have hg : b.client.get_response = (some r, b.client.get_response.2) := by
        unfold Bank.nextResponse at hb
        rw [← hb]
      have hrec := ih rs (log ++ (processResponse r).2) hrest
      rw [collectVotes, hg]
      simp only [decision, List.mem_cons, forall_eq_or_imp]
      refine ⟨hrec.1, ?_⟩
      rw [← processResponse_true_iff r]
      cases hp : (processResponse r).1 with
      | true => simpa using hrec.2
      | false => simp

end Coordinator

/-- C1. Unanimity: with at most two registered participants whose sockets
accept the vote request and deliver the phase-1 responses `responses`,
`Coordinator::sendVoteRequest` returns, and it returns `true` if and only if
every response is exactly the text `VOTE-COMMIT`; `processResponse` is `true`
for `VOTE-COMMIT` only. -/
theorem sendVoteRequest_unanimity (c : Coordinator) (amount : Double)
    (accountFrom accountTo : String) (responses : List String)
    (hlen : c.participants.length ≤ 2)
    (hsend : ∀ b ∈ c.participants, b.canSend)
    (hresp : c.participants.map Bank.nextResponse = responses.map some) :
    (∃ twoPC,
      (c.sendVoteRequest amount accountFrom accountTo).2 = Except.ok twoPC ∧
      (twoPC = true ↔ ∀ r ∈ responses, r = "VOTE-COMMIT")) ∧
    ∀ r, (Coordinator.processResponse r).1 = true ↔ r = "VOTE-COMMIT" := by
  refine ⟨?_, Coordinator.processResponse_true_iff⟩
  have h1 := Coordinator.sendVoteLoop_ok
    (Coordinator.voteMessages amount accountFrom accountTo) c.participants 0
    c.logFile (by simpa [Coordinator.voteMessages] using hlen) hsend
  have h2 := Coordinator.collectVotes_ok
    (Coordinator.sendVoteLoop
      (Coordinator.voteMessages amount accountFrom accountTo) 0 c.participants
      c.logFile).1 responses
    (Coordinator.sendVoteLoop
      (Coordinator.voteMessages amount accountFrom accountTo) 0 c.participants
      c.logFile).2.1 (by rw [h1.2, hresp])
  rcases hr1 : Coordinator.sendVoteLoop
      (Coordinator.voteMessages amount accountFrom accountTo) 0 c.participants
      c.logFile with ⟨bs, log, f⟩
  rw [hr1] at h1 h2
  simp only at h1 h2
  obtain ⟨hf, -⟩ := h1
  subst hf
  rcases hr2 : Coordinator.collectVotes bs log with ⟨bs2, log2, f2⟩
  rw [hr2] at h2
  simp only at h2
  obtain ⟨hf2, hdec⟩ := h2
  subst hf2
  refine ⟨Coordinator.decision bs2, ?_, hdec⟩
  simp only [Coordinator.sendVoteRequest, hr1, hr2]

/-- Witness of C1: a commit vote and an abort vote. -/
theorem sendVoteRequest_unanimity_witness :
    sampleSplitVote.participants.length ≤ 2 ∧
    (∀ b ∈ sampleSplitVote.participants, b.canSend) ∧
    sampleSplitVote.participants.map Bank.nextResponse =
      ["VOTE-COMMIT", "VOTE-ABORT"].map some ∧
    ((∃ twoPC,
      (sampleSplitVote.sendVoteRequest (Double.finite 30) "A" "B").2 = Except.ok twoPC ∧
      (twoPC = true ↔ ∀ r ∈ ["VOTE-COMMIT", "VOTE-ABORT"], r = "VOTE-COMMIT")) ∧
    ∀ r, (Coordinator.processResponse r).1 = true ↔ r = "VOTE-COMMIT") :=
  ⟨by decide, by decide, by decide,
    sendVoteRequest_unanimity sampleSplitVote (Double.finite 30) "A" "B"
      ["VOTE-COMMIT", "VOTE-ABORT"] (by decide) (by decide) (by decide)⟩

/-! ## What the coordinator writes to the sockets -/

theorem Sent.refl (P : String → Prop) (b : Bank) : Sent P b b :=
  ⟨[], by simp, by simp⟩

theorem Sent.mono {P Q : String → Prop} (h : ∀ m, P m → Q m) {b a : Bank}
    (hs : Sent P b a) : Sent Q b a := by
  obtain ⟨new, h1, h2⟩ := hs
  exact ⟨new, h1, fun m hm => h m (h2 m hm)⟩

theorem Sent.trans {P : String → Prop} {a b c : Bank} (h1 : Sent P a b)
    (h2 : Sent P b c) : Sent P a c := by
  obtain ⟨n1, e1, p1⟩ := h1
  obtain ⟨n2, e2, p2⟩ := h2
  refine ⟨n1 ++ n2, by rw [e2, e1, List.append_assoc], ?_⟩
  intro m hm
  rcases List.mem_append.mp hm with h | h
  · exact p1 m h
  · exact p2 m h

theorem Sent.of_eq {P : String → Prop} {b a : Bank}
    (h : a.client.outbox = b.client.outbox) : Sent P b a :=
  ⟨[], by simp [h], by simp⟩

theorem Sent.one {P : String → Prop} {b a : Bank} {m : String}
    (h : a.client.outbox = b.client.outbox ++ [m]) (hm : P m) : Sent P b a :=
  ⟨[m], h, by simpa using hm⟩

theorem Sent.drop {P : String → Prop} {b a : Bank} (h : Sent P b a) :
    ∀ m ∈ a.client.outbox.drop b.client.outbox.length, P m := by
  obtain ⟨new, e, p⟩ := h
  rw [e, List.drop_left]
  exact p

theorem forall₂_sent_refl (P : String → Prop) :
    ∀ bs : List Bank, List.Forall₂ (Sent P) bs bs
  | [] => List.Forall₂.nil
  | b :: bs => List.Forall₂.cons (Sent.refl P b) (forall₂_sent_refl P bs)

theorem forall₂_sent_mono {P Q : String → Prop} (h : ∀ m, P m → Q m)
    {xs ys : List Bank} (hs : List.Forall₂ (Sent P) xs ys) :
    List.Forall₂ (Sent Q) xs ys := by
  induction hs with
  | nil => exact List.Forall₂.nil
  | cons h1 _ ih => exact List.Forall₂.cons (Sent.mono h h1) ih

theorem forall₂_sent_trans {P : String → Prop} {xs ys zs : List Bank}
    (h1 : List.Forall₂ (Sent P) xs ys) (h2 : List.Forall₂ (Sent P) ys zs) :
    List.Forall₂ (Sent P) xs zs := by
  induction h1 generalizing zs with
  | nil => cases h2; exact List.Forall₂.nil
  | cons ha _ ih =>
    cases h2 with
    | cons hb hbs => exact List.Forall₂.cons (Sent.trans ha hb) (ih hbs)

/-- Every text written between the two states satisfies `P`. -/
theorem sentInRun_of_forall₂ {P : String → Prop} {xs ys : List Bank}
    (h : List.Forall₂ (Sent P) xs ys) : ∀ s ∈ sentInRun xs ys, ∀ m ∈ s, P m := by
  induction h with
  | nil => intro s hs; simp [sentInRun] at hs
  | cons h1 _ ih =>
    intro s hs
    simp only [sentInRun, List.zipWith_cons_cons, List.mem_cons] at hs
    rcases hs with rfl | hs
    · exact Sent.drop h1
    · exact ih s hs

theorem cstr_global_commit :
    cstr (toString Protocol.GLOBAL_COMMIT) = "GLOBAL-COMMIT" := by decide

theorem cstr_global_abort :
    cstr (toString Protocol.GLOBAL_ABORT) = "GLOBAL-ABORT" := by decide

namespace Coordinator

theorem sendVoteLoop_sent (messages : List String) :
    ∀ (bs : List Bank) (i : Nat) (log : List String),
      List.Forall₂ (Sent (fun m => m ∈ messages.map cstr)) bs
        (sendVoteLoop messages i bs log).1 := by
  intro bs
  induction bs with
  | nil => intro i log; simp [sendVoteLoop]
  | cons b bs ih =>
    intro i log
    rw [sendVoteLoop]
    split
    · exact forall₂_sent_refl _ _
    · rename_i m hm
      split
      · exact forall₂_sent_refl _ _
      · rename_i cl hcl
        refine List.Forall₂.cons ?_ (ih _ _)
        refine Sent.one (send_request_some _ _ _ hcl).2 ?_
        exact List.mem_map_of_mem _ (List.mem_iff_getElem?.mpr ⟨_, hm⟩)

theorem sendVoteLoop_nextResponse (messages : List String) :
    ∀ (bs : List Bank) (i : Nat) (log : List String),
      (sendVoteLoop messages i bs log).1.map Bank.nextResponse =
        bs.map Bank.nextResponse := by
  intro bs
  induction bs with
  | nil => intro i log; simp [sendVoteLoop]
  | cons b bs ih =>
    intro i log
    rw [sendVoteLoop]
    split
    · rfl
    · split
      · rfl
      · rename_i cl hcl
        simp only [List.map_cons, ih]
        exact congrArg (· :: _)
          (nextResponse_congr _ _ (send_request_some _ _ _ hcl).1)

theorem collectVotes_sent :
    ∀ (bs : List Bank) (log : List String),
      List.Forall₂ (Sent (fun _ => False)) bs (collectVotes bs log).1 := by
  intro bs
  induction bs with
  | nil => intro log; simp [collectVotes]
  | cons b bs ih =>
    intro log
    rw [collectVotes]
    split
    · rename_i cl h
      refine List.Forall₂.cons (Sent.of_eq ?_) (forall₂_sent_refl _ _)
      have := get_response_outbox b.client
      rw [h] at this
      exact this
    · rename_i response cl h
      refine List.Forall₂.cons (Sent.of_eq ?_) (ih _)
      have := get_response_outbox b.client
      rw [h] at this
      exact this

/-- When the votes were all collected and the decision is to commit, every
response was `VOTE-COMMIT`. -/
theorem collectVotes_decision :
    ∀ (bs : List Bank) (log : List String),
      (collectVotes bs log).2.2 = none →
      decision (collectVotes bs log).1 = true →
      ∀ b ∈ bs, b.nextResponse = some "VOTE-COMMIT" := by
  intro bs
  induction bs with
  | nil => intro log _ _ b hb; cases hb
  | cons b bs ih =>
    intro log
    rw [collectVotes]
    split
    · intro h; cases h
    · rename_i response cl h
      intro hnone hdec x hx
      simp only [decision] at hdec
      have hpr : (processResponse response).1 = true := by
        by_contra hne
        simp [hne] at hdec
      rw [processResponse_true_iff] at hpr
      subst hpr
      rcases List.mem_cons.mp hx with rfl | hx
      · unfold Bank.nextResponse; rw [h]
      · simp only [processResponse_true_iff, if_true] at hdec
        exact ih _ hnone (by simpa using hdec) x hx

/-- A run of `sendVoteRequest` that returns `true` has seen `VOTE-COMMIT` from
every participant. -/
theorem sendVoteRequest_true (c : Coordinator) (amount : Double)
    (accountFrom accountTo : String)
    (h : (c.sendVoteRequest amount accountFrom accountTo).2 = Except.ok true) :
    ∀ b ∈ c.participants, b.nextResponse = some "VOTE-COMMIT" := by
  have hn := sendVoteLoop_nextResponse
    (voteMessages amount accountFrom accountTo) c.participants 0 c.logFile
  rcases hr1 : sendVoteLoop (voteMessages amount accountFrom accountTo) 0
    c.participants c.logFile with ⟨bs, log, f⟩
  rw [hr1] at hn
  rcases hr2 : collectVotes bs log with ⟨bs2, log2, f2⟩
  have hd := collectVotes_decision bs log
  rw [hr2] at hd
  simp only [sendVoteRequest, hr1] at h
  cases f with
  | some e => simp at h
  | none =>
    simp only [hr2] at h
    cases f2 with
    | some e => simp at h
    | none =>
      simp only [Except.ok.injEq] at h
      intro b hb
      have hall := hd rfl h
      have hmem : b.nextResponse ∈ c.participants.map Bank.nextResponse :=
        List.mem_map_of_mem _ hb
      rw [← hn] at hmem
      obtain ⟨x, hx, hxe⟩ := List.mem_map.mp hmem
      rw [← hxe]
      exact hall x hx

/-- Whatever its outcome, `sendVoteRequest` writes nothing but the (C-string
of the) two vote requests. -/
theorem sendVoteRequest_sent (c : Coordinator) (amount : Double)
    (accountFrom accountTo : String) :
    List.Forall₂
      (Sent (fun m => m ∈ (voteMessages amount accountFrom accountTo).map cstr))
      c.participants
      (c.sendVoteRequest amount accountFrom accountTo).1.participants := by
  have h1 := sendVoteLoop_sent
    (voteMessages amount accountFrom accountTo) c.participants 0 c.logFile
  rcases hr1 : sendVoteLoop (voteMessages amount accountFrom accountTo) 0
    c.participants c.logFile with ⟨bs, log, f⟩
  rw [hr1] at h1
  have h2 := collectVotes_sent bs log
  rcases hr2 : collectVotes bs log with ⟨bs2, log2, f2⟩
  rw [hr2] at h2
  have h12 := forall₂_sent_trans h1
    (forall₂_sent_mono (fun _ hm => False.elim hm) h2)
  simp only [sendVoteRequest, hr1]
  cases f with
  | some e => exact h1
  | none =>
    simp only [hr2]
    cases f2 with
    | some e => exact h12
    | none => exact h12

end Coordinator

/-- Two successive relations between participant vectors compose. -/
theorem forall₂_chain {R S T : Bank → Bank → Prop}
    (h : ∀ x y z, R x y → S y z → T x z) {xs ys zs : List Bank}
    (h1 : List.Forall₂ R xs ys) (h2 : List.Forall₂ S ys zs) :
    List.Forall₂ T xs zs := by
  induction h1 generalizing zs with
  | nil => cases h2; exact List.Forall₂.nil
  | cons ha _ ih =>
    cases h2 with
    | cons hb hbs => exact List.Forall₂.cons (h _ _ _ ha hb) (ih hbs)

theorem forall₂_nextResponse {R : Bank → Bank → Prop}
    (h : ∀ x y, R x y → y.nextResponse = x.nextResponse) {xs ys : List Bank}
    (hs : List.Forall₂ R xs ys) :
    ys.map Bank.nextResponse = xs.map Bank.nextResponse := by
  induction hs with
  | nil => rfl
  | cons hab _ ih => simp only [List.map_cons, h _ _ hab, ih]

theorem forall₂_outbox_refl :
    ∀ bs : List Bank,
      List.Forall₂ (fun b a : Bank => a.client.outbox = b.client.outbox) bs bs
  | [] => List.Forall₂.nil
  | _ :: bs => List.Forall₂.cons rfl (forall₂_outbox_refl bs)

namespace Coordinator

/-! ## Phase 2 -/

theorem commitSendLoop_sent :
    ∀ (bs : List Bank) (log : List String),
      List.Forall₂ (Sent (fun m => m = "GLOBAL-COMMIT")) bs
        (commitSendLoop bs log).1 := by
  intro bs
  induction bs with
  | nil => intro log; simp [commitSendLoop]
  | cons b bs ih =>
    intro log
    rw [commitSendLoop]
    split
    · exact forall₂_sent_refl _ _
    · rename_i cl hcl
      refine List.Forall₂.cons ?_ (ih _)
      exact Sent.one (send_request_some _ _ _ hcl).2 cstr_global_commit

/-- A first loop of `sendGlobalCommit` that ends without failure has written
`GLOBAL-COMMIT` to every socket and has left the pending responses alone. -/
theorem commitSendLoop_none :
    ∀ (bs : List Bank) (log : List String),
      (commitSendLoop bs log).2.2 = none →
      List.Forall₂
        (fun b a => a.client.outbox = b.client.outbox ++ ["GLOBAL-COMMIT"] ∧
          a.nextResponse = b.nextResponse)
        bs (commitSendLoop bs log).1 := by
  intro bs
  induction bs with
  | nil => intro log _; simp [commitSendLoop]
  | cons b bs ih =>
    intro log
    rw [commitSendLoop]
    split
    · intro h; cases h
    · rename_i cl hcl
      intro h
      refine List.Forall₂.cons ⟨?_, ?_⟩ (ih _ h)
      · rw [(send_request_some _ _ _ hcl).2, cstr_global_commit]
      · exact nextResponse_congr _ _ (send_request_some _ _ _ hcl).1

theorem commitSendLoop_ok :
    ∀ (bs : List Bank) (log : List String), (∀ b ∈ bs, b.canSend) →
      (commitSendLoop bs log).2.2 = none := by
  intro bs
  induction bs with
  | nil => intro log _; simp [commitSendLoop]
  | cons b bs ih =>
    intro log hsend
    obtain ⟨cl, hcl, -, -⟩ := send_request_of_canSend b
      (toString Protocol.GLOBAL_COMMIT) (hsend b (List.mem_cons_self _ _))
    rw [commitSendLoop]
    simp only [hcl]
    exact ih _ (fun x hx => hsend x (List.mem_cons_of_mem _ hx))

theorem commitAckLoop_outbox :
    ∀ (bs : List Bank) (log err : List String) (ic : Bool),
      List.Forall₂ (fun b a => a.client.outbox = b.client.outbox) bs
        (commitAckLoop bs log err ic).banks := by
  intro bs
  induction bs with
  | nil => intro log err ic; simp [commitAckLoop]
  | cons b bs ih =>
    intro log err ic
    have hout := get_response_outbox b.client
    rw [commitAckLoop]
    split
    · rename_i cl h
      rw [h] at hout
      exact List.Forall₂.cons hout (forall₂_outbox_refl _)
    · rename_i response cl h
      rw [h] at hout
      split
      · exact List.Forall₂.cons hout (ih _ _ _)
      · exact List.Forall₂.cons hout (ih _ _ _)

/-- Without a failed read, the second loop of `sendGlobalCommit` ends with
`isCommitted` set exactly when it was set before and every response is
`ACK`. -/
theorem commitAckLoop_ok :
    ∀ (bs : List Bank) (responses : List String) (log err : List String)
      (ic : Bool),
      bs.map Bank.nextResponse = responses.map some →
      (commitAckLoop bs log err ic).failure = none ∧
      ((commitAckLoop bs log err ic).isCommitted = true ↔
        ic = true ∧ ∀ r ∈ responses, r = "ACK") := by
  intro bs
  induction bs with
  | nil =>
    intro responses log err ic h
    cases responses with
    | nil => simp [commitAckLoop]
    | cons r rs => simp at h
  | cons b bs ih =>
    intro responses log err ic h
    cases responses with
    | nil => simp at h
    | cons r rs =>
      simp only [List.map_cons, List.cons.injEq] at h
      obtain ⟨hb, hrest⟩ := h
      have hg : b.client.get_response = (some r, b.client.get_response.2) := by
        unfold Bank.nextResponse at hb
        rw [← hb]
      rw [commitAckLoop, hg]
      simp only [List.mem_cons, forall_eq_or_imp]
      by_cases hr : r = "ACK"
      · have hr2 : ¬ (r ≠ toString Protocol.ACK) := by simpa [toString] using hr
        rw [if_neg hr2]
        have hrec := ih rs (log ++ ["'" ++ r ++ "' received from " ++ b.address])
          err ic hrest
        exact ⟨hrec.1, by rw [hrec.2]; simp [hr]⟩
      · have hr2 : r ≠ toString Protocol.ACK := by simpa [toString] using hr
        rw [if_pos hr2]
        have hrec := ih rs log
          (err ++ ["Failed to receive " ++ toString Protocol.ACK ++ " from " ++
            b.address]) false hrest
        exact ⟨hrec.1, by rw [hrec.2]; simp [hr]⟩

theorem sendGlobalCommit_sent (c : Coordinator) :
    List.Forall₂ (Sent (fun m => m = "GLOBAL-COMMIT")) c.participants
      c.sendGlobalCommit.1.participants := by
  have h1 := commitSendLoop_sent c.participants c.logFile
  rcases hr1 : commitSendLoop c.participants c.logFile with ⟨bs, log, f⟩
  rw [hr1] at h1
  have h2 : List.Forall₂ (Sent (fun m => m = "GLOBAL-COMMIT")) bs
      (commitAckLoop bs log c.cerr true).banks :=
    (commitAckLoop_outbox bs log c.cerr true).imp (fun _ _ h => Sent.of_eq h)
  simp only [sendGlobalCommit, hr1]
  cases f with
  | some e => exact h1
  | none =>
    simp only
    split
    · exact forall₂_sent_trans h1 h2
    · exact forall₂_sent_trans h1 h2

/-- A run of `sendGlobalCommit` that returns has written `GLOBAL-COMMIT` to
every socket. -/
theorem sendGlobalCommit_ok_outbox (c : Coordinator)
    (h : c.sendGlobalCommit.2 = Except.ok ()) :
    List.Forall₂
      (fun b a => a.client.outbox = b.client.outbox ++ ["GLOBAL-COMMIT"])
      c.participants c.sendGlobalCommit.1.participants := by
  have h1 := commitSendLoop_none c.participants c.logFile
  rcases hr1 : commitSendLoop c.participants c.logFile with ⟨bs, log, f⟩
  rw [hr1] at h1
  have h2 := commitAckLoop_outbox bs log c.cerr true
  simp only [sendGlobalCommit, hr1] at h ⊢
  cases f with
  | some e => simp at h
  | none =>
    simp only at h ⊢
    have h1 := h1 rfl
    have h12 : List.Forall₂
        (fun b a => a.client.outbox = b.client.outbox ++ ["GLOBAL-COMMIT"])
        c.participants (commitAckLoop bs log c.cerr true).banks :=
      forall₂_chain (fun x y z hxy hyz => by rw [hyz, hxy.1]) h1 h2
    split
    · exact h12
    · exact h12

theorem abortLoop_sent :
    ∀ (bs : List Bank) (log err : List String),
      List.Forall₂ (Sent (fun m => m = "GLOBAL-ABORT")) bs
        (abortLoop bs log err).banks := by
  intro bs
  induction bs with
  | nil => intro log err; simp [abortLoop]
  | cons b bs ih =>
    intro log err
    rw [abortLoop]
    split
    · split
      · exact forall₂_sent_refl _ _
      · rename_i cl hcl
        have hs := (send_request_some _ _ _ hcl).2
        rw [cstr_global_abort] at hs
        have hout := get_response_outbox cl
        split
        · rename_i cl2 h
          rw [h] at hout
          exact List.Forall₂.cons (Sent.one (hout.trans hs) rfl)
            (forall₂_sent_refl _ _)
        · rename_i response cl2 h
          rw [h] at hout
          split
          · exact List.Forall₂.cons (Sent.one (hout.trans hs) rfl) (ih _ _)
          · exact List.Forall₂.cons (Sent.one (hout.trans hs) rfl) (ih _ _)
    · exact List.Forall₂.cons (Sent.refl _ _) (ih _ _)

theorem sendGlobalAbort_sent (c : Coordinator) :
    List.Forall₂ (Sent (fun m => m = "GLOBAL-ABORT")) c.participants
      c.sendGlobalAbort.1.participants := by
  have h := abortLoop_sent c.participants c.logFile c.cerr
  simp only [sendGlobalAbort]
  split
  · exact h
  · exact h

end Coordinator

/-! ## The whole run -/

/-- The C-string of a vote request starts with the letter `V`. -/
theorem cstr_vote_head (account amount : String) :
    (cstr (toString Protocol.VOTE_REQUEST ++ " " ++ account ++ " " ++
      amount)).data.head? = some 'V' := by
  simp only [cstr, toString, String.data_append, List.cons_append]
  rw [List.takeWhile_cons_of_pos (by decide)]
  rfl

theorem cstr_vote_ne (amount : Double) (accountFrom accountTo : String) :
    ∀ m ∈ (Coordinator.voteMessages amount accountFrom accountTo).map cstr,
      m ≠ "GLOBAL-COMMIT" ∧ m ≠ "GLOBAL-ABORT" := by
  intro m hm
  simp only [Coordinator.voteMessages, List.map_cons, List.map_nil,
    List.mem_cons, List.mem_singleton, List.not_mem_nil, or_false] at hm
  have key : ∀ account amt : String,
      cstr (toString Protocol.VOTE_REQUEST ++ " " ++ account ++ " " ++ amt) ≠
        "GLOBAL-COMMIT" ∧
      cstr (toString Protocol.VOTE_REQUEST ++ " " ++ account ++ " " ++ amt) ≠
        "GLOBAL-ABORT" := by
    intro account amt
    have ht := cstr_vote_head account amt
    constructor
    · intro h
      rw [h] at ht
      exact absurd ht (by decide)
    · intro h
      rw [h] at ht
      exact absurd ht (by decide)
  rcases hm with rfl | rfl
  · exact key _ _
  · exact key _ _

namespace Coordinator

/-- A run of `sendVoteRequest` that returns has decided to commit exactly when
every response was `VOTE-COMMIT`. -/
theorem sendVoteRequest_ok_iff (c : Coordinator) (amount : Double)
    (accountFrom accountTo : String) (twoPC : Bool)
    (h : (c.sendVoteRequest amount accountFrom accountTo).2 = Except.ok twoPC) :
    twoPC = true ↔ ∀ b ∈ c.participants, b.nextResponse = some "VOTE-COMMIT" := by
  constructor
  · intro ht
    subst ht
    exact sendVoteRequest_true c amount accountFrom accountTo h
  · intro hall
    have hn := sendVoteLoop_nextResponse
      (voteMessages amount accountFrom accountTo) c.participants 0 c.logFile
    rcases hr1 : sendVoteLoop (voteMessages amount accountFrom accountTo) 0
      c.participants c.logFile with ⟨bs, log, f⟩
    rw [hr1] at hn
    simp only at hn
    have hmap : bs.map Bank.nextResponse =
        (c.participants.map (fun _ => "VOTE-COMMIT")).map some := by
      rw [hn, List.map_map]
      apply List.map_congr_left
      intro b hb
      exact hall b hb
    have h2 := collectVotes_ok bs _ log hmap
    rcases hr2 : collectVotes bs log with ⟨bs2, log2, f2⟩
    rw [hr2] at h2
    simp only [sendVoteRequest, hr1] at h
    cases f with
    | some e => simp at h
    | none =>
      simp only [hr2] at h
      cases f2 with
      | some e => simp at h
      | none =>
        simp only [Except.ok.injEq] at h
        rw [← h]
        exact h2.2.mpr (by simp)

/-- Whatever its outcome, a run of `callParticipants` that does not take the
commit branch writes nothing but vote requests and `GLOBAL-ABORT`. -/
theorem callParticipants_sent_abort (net : Network) (c : Coordinator)
    (accountFrom accountTo : String) (amount : Double) (banks : List (String × Nat))
    (h : ((addParticipants net c banks).1.sendVoteRequest amount accountFrom
      accountTo).2 ≠ Except.ok true) :
    List.Forall₂
      (Sent (fun m => m ∈ (voteMessages amount accountFrom accountTo).map cstr ∨
        m = "GLOBAL-ABORT"))
      (addParticipants net c banks).1.participants
      (callParticipants net c accountFrom accountTo amount banks).1.participants := by
  have hv := sendVoteRequest_sent (addParticipants net c banks).1 amount
    accountFrom accountTo
  rcases hr0 : addParticipants net c banks with ⟨c1, r0⟩
  rw [hr0] at h hv
  simp only at h hv
  rcases hr1 : c1.sendVoteRequest amount accountFrom accountTo with ⟨c2, r1⟩
  rw [hr1] at h hv
  simp only at h hv
  have hv2 := forall₂_sent_mono
    (Q := fun m => m ∈ (voteMessages amount accountFrom accountTo).map cstr ∨
      m = "GLOBAL-ABORT") (fun _ hm => Or.inl hm) hv
  simp only [callParticipants, hr0]
  cases r0 with
  | error e => exact forall₂_sent_refl _ _
  | ok u =>
    simp only [hr1]
    cases r1 with
    | error e => exact hv2
    | ok twoPC =>
      cases twoPC with
      | true => exact absurd rfl h
      | false =>
        simp only [Bool.false_eq_true, if_false]
        exact forall₂_sent_trans hv2
          (forall₂_sent_mono (fun _ hm => Or.inr hm) (sendGlobalAbort_sent c2))

/-- Whatever its outcome, a run of `callParticipants` that takes the commit
branch writes nothing but vote requests and `GLOBAL-COMMIT`. -/
theorem callParticipants_sent_commit (net : Network) (c : Coordinator)
    (accountFrom accountTo : String) (amount : Double) (banks : List (String × Nat))
    (h : ((addParticipants net c banks).1.sendVoteRequest amount accountFrom
      accountTo).2 = Except.ok true) :
    List.Forall₂
      (Sent (fun m => m ∈ (voteMessages amount accountFrom accountTo).map cstr ∨
        m = "GLOBAL-COMMIT"))
      (addParticipants net c banks).1.participants
      (callParticipants net c accountFrom accountTo amount banks).1.participants := by
  have hv := sendVoteRequest_sent (addParticipants net c banks).1 amount
    accountFrom accountTo
  rcases hr0 : addParticipants net c banks with ⟨c1, r0⟩
  rw [hr0] at h hv
  simp only at h hv
  rcases hr1 : c1.sendVoteRequest amount accountFrom accountTo with ⟨c2, r1⟩
  rw [hr1] at h hv
  simp only at h hv
  subst h
  have hv2 := forall₂_sent_mono
    (Q := fun m => m ∈ (voteMessages amount accountFrom accountTo).map cstr ∨
      m = "GLOBAL-COMMIT") (fun _ hm => Or.inl hm) hv
  simp only [callParticipants, hr0]
  cases r0 with
  | error e => exact forall₂_sent_refl _ _
  | ok u =>
    simp only [hr1, if_true]
    exact forall₂_sent_trans hv2
      (forall₂_sent_mono (fun _ hm => Or.inr hm) (sendGlobalCommit_sent c2))

/-- A run of `callParticipants` that returns after unanimous `VOTE-COMMIT`
responses has ended every socket's output with `GLOBAL-COMMIT`. -/
theorem callParticipants_commit_all (net : Network) (c : Coordinator)
    (accountFrom accountTo : String) (amount : Double) (banks : List (String × Nat))
    (hrun : (callParticipants net c accountFrom accountTo amount banks).2 =
      Except.ok ())
    (hall : ∀ b ∈ (addParticipants net c banks).1.participants,
      b.nextResponse = some "VOTE-COMMIT") :
    List.Forall₂
      (fun b a => ∃ pre, a.client.outbox =
        b.client.outbox ++ (pre ++ ["GLOBAL-COMMIT"]))
      (addParticipants net c banks).1.participants
      (callParticipants net c accountFrom accountTo amount banks).1.participants := by
  have hv := sendVoteRequest_sent (addParticipants net c banks).1 amount
    accountFrom accountTo
  have hiff := sendVoteRequest_ok_iff (addParticipants net c banks).1 amount
    accountFrom accountTo
  rcases hr0 : addParticipants net c banks with ⟨c1, r0⟩
  rw [hr0] at hall hv hiff
  simp only at hall hv hiff
  rcases hr1 : c1.sendVoteRequest amount accountFrom accountTo with ⟨c2, r1⟩
  rw [hr1] at hv hiff
  simp only at hv hiff
  simp only [callParticipants, hr0] at hrun ⊢
  cases r0 with
  | error e => simp at hrun
  | ok u =>
    simp only [hr1] at hrun ⊢
    cases r1 with
    | error e => simp at hrun
    | ok twoPC =>
      have ht : twoPC = true := (hiff twoPC rfl).mpr hall
      subst ht
      simp only [if_true] at hrun ⊢
      refine forall₂_chain ?_ hv (sendGlobalCommit_ok_outbox c2 hrun)
      intro x y z hxy hyz
      obtain ⟨new, hnew, -⟩ := hxy
      exact ⟨new, by rw [hyz, hnew, List.append_assoc]⟩

end Coordinator

/-- C2. All-or-nothing decision broadcast. For the participants registered for
a run of `Coordinator::callParticipants` and what the run writes to their
sockets: when the run ends without a failure and every phase-1 response was
`VOTE-COMMIT`, `GLOBAL-COMMIT` is written to every one of them; when some
phase-1 response was not `VOTE-COMMIT`, `GLOBAL-COMMIT` is written to none; and
no run writes both `GLOBAL-COMMIT` and `GLOBAL-ABORT`. -/
theorem callParticipants_all_or_nothing (net : Coordinator.Network)
    (c : Coordinator) (accountFrom accountTo : String) (amount : Double)
    (banks : List (String × Nat)) :
    (((c.callParticipants net accountFrom accountTo amount banks).2 =
        Except.ok () ∧
      (∀ b ∈ (Coordinator.addParticipants net c banks).1.participants,
        b.nextResponse = some "VOTE-COMMIT")) →
      (sentInRun (Coordinator.addParticipants net c banks).1.participants
          (c.callParticipants net accountFrom accountTo amount
            banks).1.participants).length =
        (Coordinator.addParticipants net c banks).1.participants.length ∧
      ∀ s ∈ sentInRun (Coordinator.addParticipants net c banks).1.participants
          (c.callParticipants net accountFrom accountTo amount
            banks).1.participants,
        "GLOBAL-COMMIT" ∈ s) ∧
    ((∃ b ∈ (Coordinator.addParticipants net c banks).1.participants,
        b.nextResponse ≠ some "VOTE-COMMIT") →
      ∀ s ∈ sentInRun (Coordinator.addParticipants net c banks).1.participants
          (c.callParticipants net accountFrom accountTo amount
            banks).1.participants,
        "GLOBAL-COMMIT" ∉ s) ∧
    ¬ ((∃ s ∈ sentInRun (Coordinator.addParticipants net c banks).1.participants
          (c.callParticipants net accountFrom accountTo amount
            banks).1.participants,
        "GLOBAL-COMMIT" ∈ s) ∧
      (∃ s ∈ sentInRun (Coordinator.addParticipants net c banks).1.participants
          (c.callParticipants net accountFrom accountTo amount
            banks).1.participants,
        "GLOBAL-ABORT" ∈ s)) := by
  have hne := cstr_vote_ne amount accountFrom accountTo
  refine ⟨?_, ?_, ?_⟩
  · rintro ⟨hrun, hall⟩
    have h := Coordinator.callParticipants_commit_all net c accountFrom
      accountTo amount banks hrun hall
    constructor
    · simp [sentInRun, h.length_eq]
    · intro s hs
      revert h hs
      generalize (Coordinator.addParticipants net c banks).1.participants = xs
      generalize (c.callParticipants net accountFrom accountTo amount
        banks).1.participants = zs
      intro h
      induction h with
      | nil => intro hs; simp [sentInRun] at hs
      | cons h1 _ ih =>
        intro hs
        simp only [sentInRun, List.zipWith_cons_cons, List.mem_cons] at hs
        rcases hs with rfl | hs
        · obtain ⟨pre, hpre⟩ := h1
          rw [hpre, List.drop_left]
          simp
        · exact ih hs
  · rintro ⟨b, hb, hbne⟩ s hs hmem
    have hnot : ((Coordinator.addParticipants net c banks).1.sendVoteRequest
        amount accountFrom accountTo).2 ≠ Except.ok true := by
      intro h
      exact hbne (Coordinator.sendVoteRequest_true _ _ _ _ h b hb)
    have h := sentInRun_of_forall₂
      (Coordinator.callParticipants_sent_abort net c accountFrom accountTo
        amount banks hnot) s hs _ hmem
    rcases h with h | h
    · exact (hne _ h).1 rfl
    · exact absurd h (by decide)
  · rintro ⟨⟨s, hs, hsm⟩, ⟨t, ht, htm⟩⟩
    by_cases hd : ((Coordinator.addParticipants net c banks).1.sendVoteRequest
        amount accountFrom accountTo).2 = Except.ok true
    · have h := sentInRun_of_forall₂
        (Coordinator.callParticipants_sent_commit net c accountFrom accountTo
          amount banks hd) t ht _ htm
      rcases h with h | h
      · exact (hne _ h).2 rfl
      · exact absurd h (by decide)
    · have h := sentInRun_of_forall₂
        (Coordinator.callParticipants_sent_abort net c accountFrom accountTo
          amount banks hd) s hs _ hsm
      rcases h with h | h
      · exact (hne _ h).1 rfl
      · exact absurd h (by decide)

/-- Witness of C2: two participants that vote to commit and acknowledge. -/
theorem callParticipants_all_or_nothing_witness :
    ((sampleCoordinator.callParticipants sampleNetCommit "A" "B"
      (Double.finite 30)
        sampleEndpoints).2 = Except.ok () ∧
      (∀ b ∈ (Coordinator.addParticipants sampleNetCommit sampleCoordinator
          sampleEndpoints).1.participants,
        b.nextResponse = some "VOTE-COMMIT")) ∧
    ((sentInRun
        (Coordinator.addParticipants sampleNetCommit sampleCoordinator
          sampleEndpoints).1.participants
        (sampleCoordinator.callParticipants sampleNetCommit "A" "B"
      (Double.finite 30)
          sampleEndpoints).1.participants).length =
      (Coordinator.addParticipants sampleNetCommit sampleCoordinator
          sampleEndpoints).1.participants.length ∧
    ∀ s ∈ sentInRun
        (Coordinator.addParticipants sampleNetCommit sampleCoordinator
          sampleEndpoints).1.participants
        (sampleCoordinator.callParticipants sampleNetCommit "A" "B"
      (Double.finite 30)
          sampleEndpoints).1.participants,
      "GLOBAL-COMMIT" ∈ s) :=
  ⟨by decide!,
    (callParticipants_all_or_nothing sampleNetCommit sampleCoordinator "A" "B"
      (Double.finite 30)
      sampleEndpoints).1 (by decide!)⟩

namespace Coordinator

theorem sending_abort_line (b : Bank) :
    "Sending message '" ++ toString Protocol.GLOBAL_ABORT ++ "' to " ++ b.address =
      "Sending message 'GLOBAL-ABORT' to " ++ b.address := by
  have : "Sending message '" ++ toString Protocol.GLOBAL_ABORT ++ "' to " =
      "Sending message 'GLOBAL-ABORT' to " := by decide
  rw [this]

theorem ack_received_line (b : Bank) :
    "'" ++ "ACK" ++ "' received from " ++ b.address =
      "'ACK' received from " ++ b.address := by
  have : "'" ++ "ACK" ++ "' received from " = "'ACK' received from " := by decide
  rw [this]

/-- The loop of `sendGlobalAbort` when no send and no read fails. -/
theorem abortLoop_ok :
    ∀ (bs : List Bank) (log err : List String),
      (∀ b ∈ bs, b.state ≠ ParticipantState.ABORT →
        b.canSend ∧ b.nextResponse ≠ none) →
      (abortLoop bs log err).failure = none ∧
      List.Forall₂
        (fun b a => a.client.outbox = b.client.outbox ++ abortTexts b)
        bs (abortLoop bs log err).banks ∧
      (abortLoop bs log err).logFile =
        log ++ bs.foldr (fun b acc => abortLines b ++ acc) [] := by
  intro bs
  induction bs with
  | nil => intro log err _; simp [abortLoop]
  | cons b bs ih =>
    intro log err hyp
    have hbs : ∀ x ∈ bs, x.state ≠ ParticipantState.ABORT →
        x.canSend ∧ x.nextResponse ≠ none :=
      fun x hx => hyp x (List.mem_cons_of_mem _ hx)
    rw [abortLoop]
    by_cases hst : b.state ≠ ParticipantState.ABORT
    · obtain ⟨hcan, hresp⟩ := hyp b (List.mem_cons_self _ _) hst
      obtain ⟨cl, hcl, hin, hout⟩ :=
        send_request_of_canSend b (toString Protocol.GLOBAL_ABORT) hcan
      rw [cstr_global_abort] at hout
      have hnext : (cl.get_response).1 = b.nextResponse :=
        nextResponse_congr { b with client := cl } b hin
      have hout2 := get_response_outbox cl
      rw [if_pos hst]
      simp only [hcl]
      rcases hg : cl.get_response with ⟨resp, cl2⟩
      rw [hg] at hnext hout2
      simp only at hnext hout2
      have helem : cl2.outbox = b.client.outbox ++ abortTexts b := by
        rw [hout2, hout]; simp [abortTexts, hst]
      cases resp with
      | none => exact absurd hnext.symm hresp
      | some response =>
        simp only [List.foldr_cons]
        by_cases hr : response = "ACK"
        · subst hr
          have hr2 : ¬ ("ACK" ≠ toString Protocol.ACK) := by decide
          have hl : abortLines b =
              ["Sending message 'GLOBAL-ABORT' to " ++ b.address,
               "'ACK' received from " ++ b.address] := by
            simp [abortLines, hst, ← hnext]
          rw [if_neg hr2, hl]
          refine ⟨(ih _ _ hbs).1, List.Forall₂.cons helem (ih _ _ hbs).2.1, ?_⟩
          rw [(ih _ _ hbs).2.2, sending_abort_line, ack_received_line]
          simp only [List.append_assoc, List.singleton_append, List.cons_append,
            List.nil_append]
        · have hr2 : response ≠ toString Protocol.ACK := by
            simpa [toString] using hr
          have hl : abortLines b =
              ["Sending message 'GLOBAL-ABORT' to " ++ b.address] := by
            simp [abortLines, hst, ← hnext, hr]
          rw [if_pos hr2, hl]
          refine ⟨(ih _ _ hbs).1, List.Forall₂.cons helem (ih _ _ hbs).2.1, ?_⟩
          rw [(ih _ _ hbs).2.2, sending_abort_line]
          simp only [List.append_assoc, List.singleton_append, List.cons_append,
            List.nil_append]
    · rw [if_neg hst]
      have hrec := ih log err hbs
      refine ⟨hrec.1, List.Forall₂.cons (by simp [abortTexts, hst]) hrec.2.1, ?_⟩
      have hl : abortLines b = [] := by simp [abortLines, hst]
      simp only [hrec.2.2, List.foldr_cons, hl, List.nil_append]

/-- A relation that looks at the pending response only can be moved along
participant vectors with the same pending responses. -/
theorem forall₂_of_nextResponse {P : Option String → Bank → Prop}
    {xs ys zs : List Bank}
    (hn : ys.map Bank.nextResponse = xs.map Bank.nextResponse)
    (hs : List.Forall₂ (fun y z => P y.nextResponse z) ys zs) :
    List.Forall₂ (fun x z => P x.nextResponse z) xs zs := by
  induction hs generalizing xs with
  | nil =>
    cases xs with
    | nil => exact List.Forall₂.nil
    | cons x xs => simp at hn
  | cons hab _ ih =>
    cases xs with
    | nil => simp at hn
    | cons x xs =>
      simp only [List.map_cons, List.cons.injEq] at hn
      exact List.Forall₂.cons (by rw [← hn.1]; exact hab) (ih hn.2)

/-- The state the second loop of `sendVoteRequest` records for a bank:
`COMMIT` for the response `VOTE-COMMIT`, `ABORT` for any other. -/
theorem collectVotes_state :
    ∀ (bs : List Bank) (log : List String),
      (collectVotes bs log).2.2 = none →
      List.Forall₂
        (fun b a => a.state =
          if b.nextResponse = some "VOTE-COMMIT" then ParticipantState.COMMIT
          else ParticipantState.ABORT)
        bs (collectVotes bs log).1 := by
  intro bs
  induction bs with
  | nil => intro log _; simp [collectVotes]
  | cons b bs ih =>
    intro log
    rw [collectVotes]
    split
    · intro h; cases h
    · rename_i response cl h
      intro hnone
      refine List.Forall₂.cons ?_ (ih _ hnone)
      have hn : b.nextResponse = some response := by
        unfold Bank.nextResponse; rw [h]
      simp only [hn, Option.some.injEq]
      by_cases hr : response = "VOTE-COMMIT"
      · simp [hr, (processResponse_true_iff "VOTE-COMMIT").mpr rfl]
      · have : (processResponse response).1 = false := by
          cases hp : (processResponse response).1 with
          | false => rfl
          | true => exact absurd ((processResponse_true_iff response).mp hp) hr
        simp [hr, this]

/-- After a run of `sendVoteRequest` that returns, a bank is recorded as
`COMMIT` when its response was `VOTE-COMMIT` and as `ABORT` otherwise. -/
theorem sendVoteRequest_state (c : Coordinator) (amount : Double)
    (accountFrom accountTo : String) (twoPC : Bool)
    (h : (c.sendVoteRequest amount accountFrom accountTo).2 = Except.ok twoPC) :
    List.Forall₂
      (fun b a => a.state =
        if b.nextResponse = some "VOTE-COMMIT" then ParticipantState.COMMIT
        else ParticipantState.ABORT)
      c.participants
      (c.sendVoteRequest amount accountFrom accountTo).1.participants := by
  have hn := sendVoteLoop_nextResponse
    (voteMessages amount accountFrom accountTo) c.participants 0 c.logFile
  rcases hr1 : sendVoteLoop (voteMessages amount accountFrom accountTo) 0
    c.participants c.logFile with ⟨bs, log, f⟩
  rw [hr1] at hn
  simp only at hn
  have hs := collectVotes_state bs log
  rcases hr2 : collectVotes bs log with ⟨bs2, log2, f2⟩
  rw [hr2] at hs
  simp only [sendVoteRequest, hr1] at h ⊢
  cases f with
  | some e => simp at h
  | none =>
    simp only [hr2] at h ⊢
    cases f2 with
    | some e => simp at h
    | none =>
      exact forall₂_of_nextResponse
        (P := fun r a => a.state =
          if r = some "VOTE-COMMIT" then ParticipantState.COMMIT
          else ParticipantState.ABORT) hn (hs rfl)

end Coordinator

/-- C10. Selective global abort: when no send and no read fails,
`Coordinator::sendGlobalAbort` returns; it has written `GLOBAL-ABORT` to the
socket of exactly those participants whose recorded state is not `ABORT`
and nothing to the others; its log lines follow the registration order of the
participants; and the last line it logs is `Transaction aborted`, whatever the
responses are. The participants not recorded as `ABORT` after a returning
`sendVoteRequest` are those whose phase-1 response was `VOTE-COMMIT`. -/
theorem sendGlobalAbort_selective (c : Coordinator)
    (hok : ∀ b ∈ c.participants, b.state ≠ ParticipantState.ABORT →
      b.canSend ∧ b.nextResponse ≠ none) :
    c.sendGlobalAbort.2 = Except.ok () ∧
    List.Forall₂
      (fun b a => a.client.outbox = b.client.outbox ++
        (if b.state ≠ ParticipantState.ABORT then ["GLOBAL-ABORT"] else []))
      c.participants c.sendGlobalAbort.1.participants ∧
    c.sendGlobalAbort.1.logFile =
      c.logFile ++ c.participants.foldr (fun b acc => abortLines b ++ acc) [] ++
        ["Transaction aborted"] ∧
    ∀ (c0 : Coordinator) (amount : Double) (accountFrom accountTo : String)
      (twoPC : Bool),
      (c0.sendVoteRequest amount accountFrom accountTo).2 = Except.ok twoPC →
      List.Forall₂
        (fun b a => a.state ≠ ParticipantState.ABORT ↔
          b.nextResponse = some "VOTE-COMMIT")
        c0.participants
        (c0.sendVoteRequest amount accountFrom accountTo).1.participants := by
  obtain ⟨h1, h2, h3⟩ :=
    Coordinator.abortLoop_ok c.participants c.logFile c.cerr hok
  simp only [Coordinator.sendGlobalAbort, h1]
  refine ⟨trivial, h2.imp (fun _ _ h => by simpa [abortTexts] using h),
    by rw [h3], ?_⟩
  intro c0 amount accountFrom accountTo twoPC hrun
  refine (Coordinator.sendVoteRequest_state c0 amount accountFrom accountTo twoPC
    hrun).imp ?_
  intro b a hst
  rw [hst]
  by_cases hv : b.nextResponse = some "VOTE-COMMIT"
  · simp [hv]
  · simp [hv]

/-- Witness of C10: one participant recorded as `COMMIT`, one as `ABORT`. -/
theorem sendGlobalAbort_selective_witness :
    (∀ b ∈ sampleAfterSplitVote.participants,
      b.state ≠ ParticipantState.ABORT → b.canSend ∧ b.nextResponse ≠ none) ∧
    (sampleAfterSplitVote.sendGlobalAbort.2 = Except.ok () ∧
    List.Forall₂
      (fun b a => a.client.outbox = b.client.outbox ++
        (if b.state ≠ ParticipantState.ABORT then ["GLOBAL-ABORT"] else []))
      sampleAfterSplitVote.participants
      sampleAfterSplitVote.sendGlobalAbort.1.participants ∧
    sampleAfterSplitVote.sendGlobalAbort.1.logFile =
      sampleAfterSplitVote.logFile ++
        sampleAfterSplitVote.participants.foldr
          (fun b acc => abortLines b ++ acc) [] ++
        ["Transaction aborted"]) :=
  ⟨by decide,
    (sendGlobalAbort_selective sampleAfterSplitVote (by decide)).1,
    (sendGlobalAbort_selective sampleAfterSplitVote (by decide)).2.1,
    (sendGlobalAbort_selective sampleAfterSplitVote (by decide)).2.2.1⟩

/-- C9, as stated, fails: both participants vote `VOTE-COMMIT`, the run sends
`GLOBAL-COMMIT` to both, the second never acknowledges, and the outcome the
coordinator logs is `Transaction aborted`, not `Transaction committed`. -/
theorem sendGlobalCommit_lost_ack_logs_aborted :
    (∀ b ∈ (Coordinator.addParticipants sampleNetLostAck sampleCoordinator
        sampleEndpoints).1.participants,
      b.nextResponse = some "VOTE-COMMIT") ∧
    (sampleCoordinator.callParticipants sampleNetLostAck "A" "B"
      (Double.finite 30)
      sampleEndpoints).2 = Except.ok () ∧
    (∀ s ∈ sentInRun
        (Coordinator.addParticipants sampleNetLostAck sampleCoordinator
          sampleEndpoints).1.participants
        (sampleCoordinator.callParticipants sampleNetLostAck "A" "B"
      (Double.finite 30)
          sampleEndpoints).1.participants,
      "GLOBAL-COMMIT" ∈ s) ∧
    (sampleCoordinator.callParticipants sampleNetLostAck "A" "B"
      (Double.finite 30)
      sampleEndpoints).1.logFile.getLast? = some "Transaction aborted" ∧
    "Transaction committed" ∉
      (sampleCoordinator.callParticipants sampleNetLostAck "A" "B"
      (Double.finite 30)
        sampleEndpoints).1.logFile := by
  decide!

/-- C9, amended. When no send and no read fails, `Coordinator::sendGlobalCommit`
returns after writing `GLOBAL-COMMIT` to every socket, and the outcome it logs
last is `Transaction committed` when every phase-2 response is exactly `ACK`
and `Transaction aborted` otherwise. -/
theorem sendGlobalCommit_outcome (c : Coordinator) (responses : List String)
    (hsend : ∀ b ∈ c.participants, b.canSend)
    (hresp : c.participants.map Bank.nextResponse = responses.map some) :
    c.sendGlobalCommit.2 = Except.ok () ∧
    List.Forall₂
      (fun b a => a.client.outbox = b.client.outbox ++ ["GLOBAL-COMMIT"])
      c.participants c.sendGlobalCommit.1.participants ∧
    c.sendGlobalCommit.1.logFile.getLast? =
      some (if ∀ r ∈ responses, r = "ACK" then "Transaction committed"
        else "Transaction aborted") := by
  have h0 := Coordinator.commitSendLoop_ok c.participants c.logFile hsend
  have h1 := Coordinator.commitSendLoop_none c.participants c.logFile h0
  have hres : c.sendGlobalCommit.2 = Except.ok () ∧
      c.sendGlobalCommit.1.logFile.getLast? =
        some (if ∀ r ∈ responses, r = "ACK" then "Transaction committed"
          else "Transaction aborted") := by
    rcases hr1 : Coordinator.commitSendLoop c.participants c.logFile with
      ⟨bs, log, f⟩
    rw [hr1] at h0 h1
    simp only at h0 h1
    subst h0
    have hmap : bs.map Bank.nextResponse = responses.map some := by
      rw [← hresp]
      exact forall₂_nextResponse (fun _ _ hxy => hxy.2) h1
    obtain ⟨hf, hic⟩ := Coordinator.commitAckLoop_ok bs responses log c.cerr
      true hmap
    simp only [Coordinator.sendGlobalCommit, hr1, hf]
    refine ⟨trivial, ?_⟩
    rw [List.getLast?_append, List.getLast?_singleton]
    by_cases hall : ∀ r ∈ responses, r = "ACK"
    · have : (Coordinator.commitAckLoop bs log c.cerr true).isCommitted = true :=
        hic.mpr ⟨rfl, hall⟩
      rw [this, if_pos hall]
      rfl
    · have : (Coordinator.commitAckLoop bs log c.cerr true).isCommitted = false := by
        cases hc : (Coordinator.commitAckLoop bs log c.cerr true).isCommitted with
        | false => rfl
        | true => exact absurd (hic.mp hc).2 hall
      rw [this, if_neg hall]
      rfl
  exact ⟨hres.1, Coordinator.sendGlobalCommit_ok_outbox c hres.1, hres.2⟩

/-- Witness of the amended C9: of two participants that voted to commit, the
second closes its connection instead of answering `ACK`. -/
theorem sendGlobalCommit_outcome_witness :
    (∀ b ∈ sampleAfterCommitVote.participants, b.canSend) ∧
    sampleAfterCommitVote.participants.map Bank.nextResponse =
      ["ACK", ""].map some ∧
    (sampleAfterCommitVote.sendGlobalCommit.2 = Except.ok () ∧
    List.Forall₂
      (fun b a => a.client.outbox = b.client.outbox ++ ["GLOBAL-COMMIT"])
      sampleAfterCommitVote.participants
      sampleAfterCommitVote.sendGlobalCommit.1.participants ∧
    sampleAfterCommitVote.sendGlobalCommit.1.logFile.getLast? =
      some (if ∀ r ∈ ["ACK", ""], r = "ACK" then
        "Transaction committed" else "Transaction aborted")) :=
  ⟨by decide, by decide,
    sendGlobalCommit_outcome sampleAfterCommitVote ["ACK", ""]
      (by decide) (by decide)⟩

/-! ## The account maps -/

namespace Ledger

theorem find_assign (m : Ledger) (k : String) (v : Double) (k' : String) :
    (m.assign k v).find k' = if k' = k then some v else m.find k' := by
  induction m with
  | nil =>
    simp only [assign, find]
    by_cases h : k' = k
    · simp [h]
    · have h2 : ¬ k = k' := fun e => h e.symm
      simp [h, h2]
  | cons e t ih =>
    obtain ⟨k0, v0⟩ := e
    simp only [assign]
    by_cases h0 : k0 = k
    · simp only [h0, if_true, find]
      by_cases h : k' = k
      · simp [h]
      · have h2 : ¬ k = k' := fun e => h e.symm
        simp [h, h2]
    · simp only [h0, if_false, find, ih]
      by_cases h : k' = k
      · subst h
        simp [h0]
      · simp [h]

theorem find_assign_self (m : Ledger) (k : String) (v : Double) :
    (m.assign k v).find k = some v := by
  rw [find_assign]; simp

theorem find_assign_ne (m : Ledger) (k : String) (v : Double) (k' : String)
    (h : k' ≠ k) : (m.assign k v).find k' = m.find k' := by
  rw [find_assign]; simp [h]

theorem find_ne_none_iff (m : Ledger) (k : String) :
    m.find k ≠ none ↔ k ∈ m.keys := by
  induction m with
  | nil => simp [find, keys]
  | cons e t ih =>
    obtain ⟨k0, v0⟩ := e
    simp only [find, keys, List.map_cons, List.mem_cons]
    by_cases h0 : k0 = k
    · simp [h0]
    · have h2 : ¬ k = k0 := fun e => h0 e.symm
      simp only [h0, if_false, h2, false_or]
      exact ih

theorem keys_assign_of_mem (m : Ledger) (k : String) (v : Double) (h : k ∈ m.keys) :
    (m.assign k v).keys = m.keys := by
  induction m with
  | nil => simp [keys] at h
  | cons e t ih =>
    obtain ⟨k0, v0⟩ := e
    simp only [assign]
    by_cases h0 : k0 = k
    · simp [h0, keys]
    · simp only [h0, if_false, keys, List.map_cons, List.cons.injEq, true_and]
      simp only [keys, List.map_cons, List.mem_cons] at h
      rcases h with h | h
      · exact absurd h.symm h0
      · exact ih h

theorem keys_assign_of_not_mem (m : Ledger) (k : String) (v : Double)
    (h : k ∉ m.keys) : (m.assign k v).keys = m.keys ++ [k] := by
  induction m with
  | nil => simp [assign, keys]
  | cons e t ih =>
    obtain ⟨k0, v0⟩ := e
    simp only [keys, List.map_cons, List.mem_cons, not_or] at h
    have h0 : ¬ k0 = k := fun e => h.1 e.symm
    simp only [assign, h0, if_false, keys, List.map_cons, List.cons_append,
      List.cons.injEq, true_and]
    exact ih h.2

theorem wf_assign (m : Ledger) (k : String) (v : Double) (h : m.WF) :
    (m.assign k v).WF := by
  unfold WF at *
  by_cases hk : k ∈ m.keys
  · rw [keys_assign_of_mem m k v hk]; exact h
  · rw [keys_assign_of_not_mem m k v hk]
    exact List.Nodup.append h (List.nodup_singleton k) (by simpa using hk)

/-- Two maps with the same keys in the same order and the same lookups are
equal. -/
theorem ext_of_keys (m1 m2 : Ledger) (hwf : m1.WF) (hk : m1.keys = m2.keys)
    (hf : ∀ k, m1.find k = m2.find k) : m1 = m2 := by
  induction m1 generalizing m2 with
  | nil =>
    cases m2 with
    | nil => rfl
    | cons e t => simp [keys] at hk
  | cons e1 t1 ih =>
    cases m2 with
    | nil => simp [keys] at hk
    | cons e2 t2 =>
      obtain ⟨k1, v1⟩ := e1
      obtain ⟨k2, v2⟩ := e2
      simp only [keys, List.map_cons, List.cons.injEq] at hk
      obtain ⟨hk12, hkt⟩ := hk
      subst hk12
      have hv : v1 = v2 := by
        have := hf k1
        simpa [find] using this
      subst hv
      simp only [WF, keys, List.map_cons, List.nodup_cons] at hwf
      congr 1
      refine ih t2 hwf.2 hkt ?_
      intro k
      have := hf k
      simp only [find] at this
      by_cases h : k1 = k
      · subst h
        have h1 : find t1 k1 = none := by
          by_contra hne
          exact hwf.1 ((find_ne_none_iff t1 k1).mp hne)
        have h2 : find t2 k1 = none := by
          by_contra hne
          have := (find_ne_none_iff t2 k1).mp hne
          rw [keys] at this
          rw [← hkt] at this
          exact hwf.1 this
        rw [h1, h2]
      · simpa [h] using this

/-- Changing the value of a present key changes the sum of the balances by the
difference. -/
theorem total_assign (m : Ledger) (k : String) (v old : Double)
    (h : m.find k = some old) :
    (m.assign k v).total = m.total - old.value + v.value := by
  induction m with
  | nil => simp [find] at h
  | cons e t ih =>
    obtain ⟨k0, v0⟩ := e
    simp only [find] at h
    by_cases h0 : k0 = k
    · simp only [h0, if_true, Option.some.injEq] at h
      subst h
      simp only [assign, h0, if_true, total, List.map_cons, List.sum_cons]
      ring
    · simp only [h0, if_false] at h
      have := ih h
      simp only [total] at this
      simp only [assign, h0, if_false, total, List.map_cons, List.sum_cons, this]
      ring

end Ledger

/-! ## Comparisons and iteration -/

namespace Double

theorem lt_finite (p q : ℚ) : lt (finite p) (finite q) = decide (p < q) := by
  simp [lt, key]

theorem le_finite (p q : ℚ) : le (finite p) (finite q) = decide (p ≤ q) := by
  simp [le, key]

theorem ge_neg_finite (b q : ℚ) :
    ge (finite b) (neg (finite q)) = decide (-q ≤ b) := by
  by_cases hq : q = 0
  · subst hq
    simp [ge, le, neg, key]
  · simp [ge, le, neg, key, hq]

/-- A value above zero is not below zero. -/
theorem lt_zero_of_pos (a : Double) (h : lt (finite 0) a = true) :
    lt a (finite 0) = false := by
  cases a with
  | finite q =>
    rw [lt_finite] at h ⊢
    simp only [decide_eq_true_eq, decide_eq_false_iff_not, not_lt] at h ⊢
    exact h.le
  | negZero => simp [lt, key]
  | inf n => cases n <;> simp [lt, key] at h ⊢
  | nan n => simp [lt, key]

end Double

namespace Ledger

theorem iterate_perm (rank : String → Nat) (m : Ledger) :
    (m.iterate rank).Perm m :=
  List.perm_insertionSort _ m

theorem iterate_nil (rank : String → Nat) : iterate rank [] = [] := rfl

theorem iterate_single (rank : String → Nat) (e : String × Double) :
    iterate rank [e] = [e] := rfl

end Ledger

/-! ## The participant: votes and commit -/

namespace Participant

theorem parseRequest_global_commit (junk : Double) :
    parseRequest junk "GLOBAL-COMMIT" = ("GLOBAL-COMMIT", "", junk) := rfl

theorem parseRequest_global_abort (junk : Double) :
    parseRequest junk "GLOBAL-ABORT" = ("GLOBAL-ABORT", "", junk) := rfl

/-- The vote of `processVoteRequest` as a condition on the ledger. -/
theorem processVoteRequest_approves (p : Participant) (command account : String)
    (amount : Double) :
    (p.processVoteRequest command account amount).2 = true ↔
      ∃ bal, p.accounts.find account = some bal ∧
        (Double.lt amount (Double.finite 0) = true →
          Double.ge bal (Double.neg amount) = true) := by
  unfold processVoteRequest
  cases hf : p.accounts.find account with
  | none => by_cases ha : Double.lt amount (Double.finite 0) = true <;> simp [ha]
  | some bal =>
    by_cases ha : Double.lt amount (Double.finite 0) = true
    · by_cases hb : Double.ge bal (Double.neg amount) = true
      · simp [ha, hb]
      · simp [ha, hb]
    · simp [ha]

/-- What `processVoteRequest` leaves of the state, by its vote. -/
theorem processVoteRequest_state (p : Participant) (command account : String)
    (amount : Double) :
    (p.processVoteRequest command account amount).1.accounts = p.accounts ∧
    (p.processVoteRequest command account amount).1.accountsFile =
      p.accountsFile ∧
    (p.processVoteRequest command account amount).1.holding =
      (if (p.processVoteRequest command account amount).2 then
        p.holding.assign account amount else p.holding) ∧
    (p.processVoteRequest command account amount).1.sent =
      p.sent ++ [if (p.processVoteRequest command account amount).2 then
        "VOTE-COMMIT" else "VOTE-ABORT"] := by
  by_cases ha : Double.lt amount (Double.finite 0) = true
  · by_cases hc : p.accounts.find account ≠ none ∧
        Double.ge ((p.accounts.find account).getD (Double.finite 0))
          (Double.neg amount) = true
    · simp only [processVoteRequest, if_pos ha, if_pos hc]
      exact ⟨rfl, rfl, rfl, rfl⟩
    · by_cases hn : p.accounts.find account ≠ none
      · simp only [processVoteRequest, if_pos ha, if_neg hc, if_pos hn]
        exact ⟨rfl, rfl, rfl, rfl⟩
      · simp only [processVoteRequest, if_pos ha, if_neg hc, if_neg hn]
        exact ⟨rfl, rfl, rfl, rfl⟩
  · by_cases hc : p.accounts.find account ≠ none
    · simp only [processVoteRequest, if_neg ha, if_pos hc]
      exact ⟨rfl, rfl, rfl, rfl⟩
    · simp only [processVoteRequest, if_neg ha, if_neg hc]
      exact ⟨rfl, rfl, rfl, rfl⟩

end Participant

/-- C5. Vote evaluation rule: `Participant::processVoteRequest` returns `true`
and responds `VOTE-COMMIT` if and only if the account exists in the ledger
and, when the amount is negative, its balance is at least the debit magnitude
(an equal balance is approved); otherwise it returns `false` and responds
`VOTE-ABORT`. For a positive amount existence is the only condition. The
comparisons are those of `double`; for a finite amount `q` and a finite
balance `b` the condition reads `q < 0 → -q ≤ b`. -/
theorem processVoteRequest_rule (p : Participant) (command account : String)
    (amount : Double) :
    ((p.processVoteRequest command account amount).2 = true ↔
      ∃ bal, p.accounts.find account = some bal ∧
        (Double.lt amount (Double.finite 0) = true →
          Double.ge bal (Double.neg amount) = true)) ∧
    (p.processVoteRequest command account amount).1.sent =
      p.sent ++ [if (p.processVoteRequest command account amount).2 then
        "VOTE-COMMIT" else "VOTE-ABORT"] ∧
    (Double.lt (Double.finite 0) amount = true →
      ((p.processVoteRequest command account amount).2 = true ↔
        p.accounts.find account ≠ none)) ∧
    (∀ q b : ℚ, amount = Double.finite q →
      p.accounts.find account = some (Double.finite b) →
      ((p.processVoteRequest command account amount).2 = true ↔
        (q < 0 → -q ≤ b))) := by
  refine ⟨Participant.processVoteRequest_approves p command account amount,
    (Participant.processVoteRequest_state p command account amount).2.2.2, ?_, ?_⟩
  · intro hpos
    rw [Participant.processVoteRequest_approves]
    constructor
    · rintro ⟨bal, hb, -⟩
      simp [hb]
    · intro h
      cases hf : p.accounts.find account with
      | none => exact absurd hf h
      | some bal =>
        refine ⟨bal, rfl, fun hneg => ?_⟩
        rw [Double.lt_zero_of_pos amount hpos] at hneg
        exact absurd hneg (by simp)
  · intro q b hq hb
    subst hq
    rw [Participant.processVoteRequest_approves, hb]
    simp only [Option.some.injEq, exists_eq_left', Double.lt_finite,
      Double.ge_neg_finite, decide_eq_true_eq]

/-- C6. A vote never touches the ledger: `Participant::processVoteRequest`
leaves the in-memory ledger as it is; when it approves, the hold table
afterwards maps the account to the signed amount and every other key as
before; when it rejects, the hold table is unchanged. -/
theorem processVoteRequest_frame (p : Participant) (command account : String)
    (amount : Double) :
    (p.processVoteRequest command account amount).1.accounts = p.accounts ∧
    ((p.processVoteRequest command account amount).2 = true →
      ∀ k, (p.processVoteRequest command account amount).1.holding.find k =
        if k = account then some amount else p.holding.find k) ∧
    ((p.processVoteRequest command account amount).2 = false →
      (p.processVoteRequest command account amount).1.holding = p.holding) := by
  obtain ⟨h1, -, h3, -⟩ :=
    Participant.processVoteRequest_state p command account amount
  refine ⟨h1, ?_, ?_⟩
  · intro ht k
    rw [h3, ht, if_pos rfl, Ledger.find_assign]
  · intro hf
    rw [h3, hf]
    rfl

namespace Participant

/-- The accounts file holds one line `<balance> <account>` per entry
visited. -/
theorem ledgerText_eq (m : Ledger) :
    ledgerText m =
      (m.map (fun e => (putDouble e.2).data ++ [' '] ++ e.1.data ++ ['\n'])).flatten := by
  induction m with
  | nil => rfl
  | cons e t ih =>
    obtain ⟨k, v⟩ := e
    simp only [ledgerText, ih, List.map_cons, List.flatten_cons]

theorem process_global_commit (p : Participant) (env : Env) :
    p.process env "GLOBAL-COMMIT" =
      (p.processGlobalCommit env "GLOBAL-COMMIT", Except.ok false) := by
  simp only [process, parseRequest_global_commit]
  rfl

/-- `processGlobalCommit` with a single hold on an account of the ledger. -/
theorem processGlobalCommit_single (p : Participant) (env : Env)
    (command a : String) (h bal : Double) (hhold : p.holding = [(a, h)])
    (hbal : p.accounts.find a = some bal) :
    (p.processGlobalCommit env command).accounts =
      p.accounts.assign a (Double.add bal h) ∧
    (p.processGlobalCommit env command).holding = p.holding ∧
    (p.processGlobalCommit env command).accountsFile =
      String.mk (ledgerText
        ((p.accounts.assign a (Double.add bal h)).iterate env.accountsRank)) ∧
    (p.processGlobalCommit env command).sent = p.sent ++ ["ACK"] := by
  have hfind : Ledger.find [(a, h)] a = some h := by simp [Ledger.find]
  simp only [processGlobalCommit, log, hhold, Ledger.iterate_single, lastHeld,
    hfind, Ledger.addTo, hbal, Option.getD_some, updateAccountsFile, respond,
    toString]
  refine ⟨?_, ?_, ?_, ?_⟩ <;> trivial

end Participant

/-- C7. Commit application: with exactly one hold `(a, h)` on an account
present in the ledger, `Participant::process` on `GLOBAL-COMMIT` returns
`false`, sets the balance of `a` to the old balance plus `h` (the sum of two
`double`s), leaves every other balance and the set of accounts as they were,
rewrites the accounts file as one line `<balance> <account>` per account of
the ledger (in the order the loop over the map visits them), and responds
`ACK`. -/
theorem process_global_commit_applies (p : Participant) (env : Participant.Env)
    (a : String) (h bal : Double) (hhold : p.holding = [(a, h)])
    (hbal : p.accounts.find a = some bal) :
    (p.process env "GLOBAL-COMMIT").2 = Except.ok false ∧
    (p.process env "GLOBAL-COMMIT").1.accounts.find a =
      some (Double.add bal h) ∧
    (∀ k, k ≠ a →
      (p.process env "GLOBAL-COMMIT").1.accounts.find k = p.accounts.find k) ∧
    (p.process env "GLOBAL-COMMIT").1.accounts.keys = p.accounts.keys ∧
    (p.process env "GLOBAL-COMMIT").1.accountsFile.data =
      (((p.process env "GLOBAL-COMMIT").1.accounts.iterate env.accountsRank).map
        (fun e => (putDouble e.2).data ++ [' '] ++ e.1.data ++ ['\n'])).flatten ∧
    ((p.process env "GLOBAL-COMMIT").1.accounts.iterate env.accountsRank).Perm
      (p.process env "GLOBAL-COMMIT").1.accounts ∧
    (p.process env "GLOBAL-COMMIT").1.sent = p.sent ++ ["ACK"] := by
  obtain ⟨h1, -, h3, h4⟩ :=
    Participant.processGlobalCommit_single p env "GLOBAL-COMMIT" a h bal hhold
      hbal
  rw [Participant.process_global_commit]
  simp only
  rw [h1, h3, h4]
  refine ⟨trivial, Ledger.find_assign_self _ _ _,
    fun k hk => Ledger.find_assign_ne _ _ _ _ hk, ?_,
    Participant.ledgerText_eq _, Ledger.iterate_perm _ _, rfl⟩
  exact Ledger.keys_assign_of_mem _ _ _
    ((Ledger.find_ne_none_iff _ _).mp (by simp [hbal]))

/-- Witness of C7: a debit of 30 held on an account with balance 100 leaves
70, and the file lists both accounts. -/
theorem process_global_commit_applies_witness :
    sampleHolding.holding = [("A", Double.finite (-30))] ∧
    sampleHolding.accounts.find "A" = some (Double.finite 100) ∧
    Double.add (Double.finite 100) (Double.finite (-30)) = Double.finite 70 ∧
    (sampleHolding.process sampleEnvLastA "GLOBAL-COMMIT").1.accountsFile =
      "50 B\n70 A\n" ∧
    ((sampleHolding.process sampleEnvLastA "GLOBAL-COMMIT").2 =
      Except.ok false ∧
    (sampleHolding.process sampleEnvLastA "GLOBAL-COMMIT").1.accounts.find "A" =
      some (Double.add (Double.finite 100) (Double.finite (-30))) ∧
    (∀ k, k ≠ "A" →
      (sampleHolding.process sampleEnvLastA "GLOBAL-COMMIT").1.accounts.find k =
        sampleHolding.accounts.find k) ∧
    (sampleHolding.process sampleEnvLastA "GLOBAL-COMMIT").1.accounts.keys =
      sampleHolding.accounts.keys ∧
    (sampleHolding.process sampleEnvLastA "GLOBAL-COMMIT").1.accountsFile.data =
      (((sampleHolding.process sampleEnvLastA "GLOBAL-COMMIT").1.accounts.iterate
          sampleEnvLastA.accountsRank).map
        (fun e => (putDouble e.2).data ++ [' '] ++ e.1.data ++ ['\n'])).flatten ∧
    ((sampleHolding.process sampleEnvLastA "GLOBAL-COMMIT").1.accounts.iterate
        sampleEnvLastA.accountsRank).Perm
      (sampleHolding.process sampleEnvLastA "GLOBAL-COMMIT").1.accounts ∧
    (sampleHolding.process sampleEnvLastA "GLOBAL-COMMIT").1.sent =
      sampleHolding.sent ++ ["ACK"]) :=
  ⟨rfl, by decide!, by decide!, by decide!,
    process_global_commit_applies sampleHolding sampleEnvLastA "A"
      (Double.finite (-30)) (Double.finite 100) rfl (by decide!)⟩
/-! ## Reloading the accounts file -/

namespace Ledger

theorem assignAll_cons (e : String × Double) (es : List (String × Double)) (m : Ledger) :
    assignAll (e :: es) m = assignAll es (m.assign e.1 e.2) := rfl

theorem wf_assignAll (es : List (String × Double)) :
    ∀ m : Ledger, m.WF → (assignAll es m).WF := by
  induction es with
  | nil => intro m h; exact h
  | cons e es ih => intro m h; exact ih _ (wf_assign m e.1 e.2 h)

theorem keys_assignAll_of_subset (es : List (String × Double)) :
    ∀ m : Ledger, (∀ e ∈ es, e.1 ∈ m.keys) → (assignAll es m).keys = m.keys := by
  induction es with
  | nil => intro m _; rfl
  | cons e es ih =>
    intro m h
    have he : e.1 ∈ m.keys := h e (List.mem_cons_self _ _)
    have hk := keys_assign_of_mem m e.1 e.2 he
    rw [assignAll_cons, ih, hk]
    intro x hx
    rw [hk]
    exact h x (List.mem_cons_of_mem _ hx)

theorem mem_keys_assignAll (es : List (String × Double)) :
    ∀ (m : Ledger) (k : String), k ∈ m.keys → k ∈ (assignAll es m).keys := by
  induction es with
  | nil => intro m k h; exact h
  | cons e es ih =>
    intro m k h
    rw [assignAll_cons]
    apply ih
    rw [← find_ne_none_iff] at h ⊢
    rw [find_assign]
    split
    · simp
    · exact h

theorem key_mem_assignAll (es : List (String × Double)) :
    ∀ (m : Ledger), ∀ e ∈ es, e.1 ∈ (assignAll es m).keys := by
  induction es with
  | nil => intro m e he; cases he
  | cons e0 es ih =>
    intro m e he
    rw [assignAll_cons]
    rcases List.mem_cons.mp he with rfl | he
    · apply mem_keys_assignAll
      rw [← find_ne_none_iff, find_assign_self]
      simp
    · exact ih _ e he

/-- A lookup after a run of assignments: the value the run gives the key when
it assigns it at all, the old value otherwise. -/
theorem find_assignAll (es : List (String × Double)) :
    ∀ (m : Ledger) (k : String),
      (∀ v, find (assignAll es []) k = some v → find (assignAll es m) k = some v) ∧
      (find (assignAll es []) k = none → find (assignAll es m) k = find m k) := by
  induction es with
  | nil =>
    intro m k
    constructor
    · intro v h; simp [assignAll, find] at h
    · intro _; rfl
  | cons e es ih =>
    intro m k
    have hnil : assignAll (e :: es) [] = assignAll es [(e.1, e.2)] := rfl
    rw [hnil, assignAll_cons]
    have hone : find [(e.1, e.2)] k = if k = e.1 then some e.2 else none := by
      have := find_assign [] e.1 e.2 k
      simpa [assign, find] using this
    cases hx : find (assignAll es []) k with
    | some x =>
      have h1 := (ih [(e.1, e.2)] k).1 x hx
      have h2 := (ih (m.assign e.1 e.2) k).1 x hx
      rw [h1, h2]
      exact ⟨fun v hv => hv, fun hv => by cases hv⟩
    | none =>
      have h1 := (ih [(e.1, e.2)] k).2 hx
      have h2 := (ih (m.assign e.1 e.2) k).2 hx
      rw [h1, h2, hone, find_assign]
      by_cases hk : k = e.1
      · simp [hk]
      · simp [hk]

/-- Repeating a run of assignments on its own result changes nothing. -/
theorem assignAll_idem (es : List (String × Double)) :
    assignAll es (assignAll es []) = assignAll es [] := by
  have hwf0 : WF ([] : Ledger) := by simp [WF, keys]
  have hkeys : (assignAll es (assignAll es [])).keys = (assignAll es []).keys :=
    keys_assignAll_of_subset es _ (key_mem_assignAll es [])
  refine ext_of_keys _ _ (wf_assignAll es _ (wf_assignAll es _ hwf0)) hkeys ?_
  intro k
  cases hx : find (assignAll es []) k with
  | some x => exact (find_assignAll es (assignAll es []) k).1 x hx
  | none => rw [(find_assignAll es (assignAll es []) k).2 hx, hx]

end Ledger

namespace Participant

theorem readLoop_eq (fuel : Nat) :
    ∀ (s : IStream) (account : List Char) (m : Ledger),
      readLoop fuel s account m =
        (Ledger.assignAll (readEntries fuel s account).1 m,
          (readEntries fuel s account).2) := by
  induction fuel with
  | zero => intro s account m; rfl
  | succ n ih =>
    intro s account m
    rw [readLoop, readEntries]
    by_cases hf : (s.getline [] ' ').1.failbit = true
    · simp only [hf, if_true]; rfl
    · simp only [hf, if_false]
      cases hd : readDouble (s.getline [] ' ').2 with
      | none => rfl
      | some bal => simp only [ih]; rfl

/-- A participant whose ledger is what the accounts file loads to reloads to
the same ledger. -/
theorem readAccounts_reload (file : String) (log : List String)
    (p0 p : Participant)
    (hload : construct file log = (p0, Except.ok ()))
    (hacc : p.accounts = p0.accounts) (hfile : p.accountsFile = file) :
    p.readAccounts = (p, Except.ok ()) := by
  subst hfile
  simp only [construct, readAccounts, readLoop_eq, Prod.mk.injEq] at hload
  obtain ⟨h0, hok⟩ := hload
  have hL : p0.accounts =
      Ledger.assignAll (readEntries (p.accountsFile.data.length + 1)
        { rest := p.accountsFile.data, eofbit := false, failbit := false } []).1
        [] := by
    rw [← h0]
  simp only [readAccounts, readLoop_eq, hok, hacc, hL, Ledger.assignAll_idem]
  rw [← hL, ← hacc]

/-- `process` keeps the connection open only after an approved vote request. -/
theorem process_true (p p1 : Participant) (env : Env) (request : String)
    (h : p.process env request = (p1, Except.ok true)) :
    ∃ command account amount,
      p.processVoteRequest command account amount = (p1, true) := by
  unfold process at h
  simp only at h
  split at h
  · simp only [Prod.mk.injEq, Except.ok.injEq] at h
    exact ⟨_, _, _, Prod.ext h.1 h.2⟩
  · simp at h
  · split at h <;> simp at h
  · simp at h

end Participant

namespace Participant

theorem construct_file (file : String) (log : List String) :
    (construct file log).1.accountsFile = file ∧
    (construct file log).1.holding = [] := ⟨rfl, rfl⟩

/-- After an approved vote on a freshly loaded participant, `rollback` empties
the hold table and leaves the ledger as it was loaded. -/
theorem rollback_after_vote (file : String) (log : List String)
    (p0 p1 : Participant) (command account : String) (amount : Double)
    (extra : List String)
    (hload : construct file log = (p0, Except.ok ()))
    (hvote : p0.processVoteRequest command account amount = (p1, true)) :
    rollback { p1 with logFile := p1.logFile ++ extra } =
      ({ p1 with holding := [],
                 logFile := p1.logFile ++ extra ++ ["Rollback complete"] },
        Except.ok ()) ∧
    p1.accounts = p0.accounts := by
  have hst := processVoteRequest_state p0 command account amount
  rw [hvote] at hst
  obtain ⟨hacc, hfile, -, -⟩ := hst
  simp only at hacc hfile
  have hf0 : p0.accountsFile = file := by
    have := (construct_file file log).1
    rw [hload] at this
    exact this
  have hre := readAccounts_reload file log p0
    { p1 with holding := [], logFile := p1.logFile ++ extra } hload hacc
    (hfile.trans hf0)
  refine ⟨?_, hacc⟩
  simp only [rollback, hre, Participant.log]

end Participant

theorem getline_rest_le (s : IStream) (str : List Char) (delim : Char) :
    (s.getline str delim).1.rest.length ≤ s.rest.length := by
  unfold IStream.getline
  split
  · exact le_rfl
  · split
    · simp
    · rename_i x t h
      have := List.dropWhile_suffix (fun c => decide (c ≠ delim)) (l := s.rest)
      rw [h] at this
      have := this.length_le
      simp only [List.length_cons] at this
      show t.length ≤ s.rest.length
      omega

theorem getline_rest_lt (s : IStream) (str : List Char) (delim : Char)
    (h : (s.getline str delim).1.failbit = false) :
    (s.getline str delim).1.rest.length < s.rest.length := by
  unfold IStream.getline at h ⊢
  split
  · rename_i hbad
    simp only [hbad, if_true] at h
    cases h
  · rename_i hgood
    simp only [hgood, if_false] at h
    split
    · rename_i hd
      simp only [hd] at h
      cases hr : s.rest with
      | nil => simp [hr] at h
      | cons c t => simp
    · rename_i x t hd
      have := List.dropWhile_suffix (fun c => decide (c ≠ delim)) (l := s.rest)
      rw [hd] at this
      have := this.length_le
      simp only [List.length_cons] at this
      show t.length < s.rest.length
      omega

namespace Participant

/-- Fuel above the length of the unread text is never used up: more fuel gives
the same result. -/
theorem readLoop_fuel (n : Nat) :
    ∀ (k : Nat) (s : IStream) (account : List Char) (m : Ledger),
      s.rest.length < n → readLoop (n + k) s account m = readLoop n s account m := by
  induction n with
  | zero => intro k s account m h; omega
  | succ n ih =>
    intro k s account m h
    have hk : n + 1 + k = (n + k) + 1 := by omega
    rw [hk, readLoop, readLoop]
    by_cases hf : (s.getline [] ' ').1.failbit = true
    · simp only [hf, if_true]
    · simp only [hf, if_false]
      cases hd : readDouble (s.getline [] ' ').2 with
      | none => rfl
      | some bal =>
        simp only
        apply ih
        have h1 := getline_rest_lt s [] ' ' (by simpa using hf)
        have h2 := getline_rest_le (s.getline [] ' ').1 account '\n'
        omega

end Participant

/-! ## The accounts file under abort -/

namespace Participant

theorem rollback_file (p : Participant) :
    p.rollback.1.accountsFile = p.accountsFile := by
  unfold rollback
  split
  · rename_i p1 e h
    have : (readAccounts { p with holding := [] }).1.accountsFile =
        p.accountsFile := rfl
    rw [h] at this
    exact this
  · rename_i p1 u h
    have : (readAccounts { p with holding := [] }).1.accountsFile =
        p.accountsFile := rfl
    rw [h] at this
    exact this

theorem processGlobalAbort_file (p : Participant) (command : String) :
    (p.processGlobalAbort command).1.accountsFile = p.accountsFile := by
  unfold processGlobalAbort
  have h := rollback_file
    ((p.log ("Got " ++ command ++ ", replying ACK. State: ABORT")).log
      "Releasing hold from account")
  simp only
  split
  · rename_i p3 e hr
    rw [hr] at h
    exact h
  · rename_i p3 u hr
    rw [hr] at h
    exact h

/-- Only a request whose command is `GLOBAL-COMMIT` makes `process` write the
accounts file. -/
theorem process_file (p : Participant) (env : Env) (request : String)
    (h : toProtocol (parseRequest env.junk request).1 ≠ Protocol.GLOBAL_COMMIT) :
    (p.process env request).1.accountsFile = p.accountsFile := by
  unfold process
  simp only
  split
  · exact (processVoteRequest_state p _ _ _).2.1
  · rename_i hc
    exact absurd hc h
  · have := processGlobalAbort_file p (parseRequest env.junk request).1
    split
    · rename_i p1 e hr
      rw [hr] at this
      exact this
    · rename_i p1 u hr
      rw [hr] at this
      exact this
  · rfl

theorem toProtocol_global_commit (s : String)
    (h : toProtocol s = Protocol.GLOBAL_COMMIT) : s = "GLOBAL-COMMIT" := by
  unfold toProtocol at h
  split_ifs at h
  assumption

/-- The command read from a request that starts with the letter `V` starts
with `V`. -/
theorem parseRequest_head (junk : Double) (request : String)
    (h : request.data.head? = some 'V') :
    (parseRequest junk request).1.data.head? = some 'V' := by
  obtain ⟨data⟩ := request
  cases data with
  | nil => simp at h
  | cons c t =>
    simp only [List.head?_cons, Option.some.injEq] at h
    subst h
    have hw : extractWord ('V' :: t) =
        some ('V' :: t.takeWhile (fun c => !isspace c),
          t.dropWhile (fun c => !isspace c)) := by
      have h1 : skipws ('V' :: t) = 'V' :: t := by
        unfold skipws
        rw [List.dropWhile_cons_of_neg (by decide)]
      unfold extractWord
      rw [h1]
      simp only
      rw [List.takeWhile_cons_of_pos (by decide),
        List.dropWhile_cons_of_pos (by decide)]
    unfold parseRequest
    simp only [hw]
    split
    · rfl
    · split <;> rfl

/-- A participant that handles a text the coordinator writes in a run without
commit keeps its accounts file. -/
theorem process_file_of_abort_run (p : Participant) (env : Env) (amount : Double)
    (accountFrom accountTo m : String)
    (h : m ∈ (Coordinator.voteMessages amount accountFrom accountTo).map cstr ∨
      m = "GLOBAL-ABORT") :
    (p.process env m).1.accountsFile = p.accountsFile := by
  apply process_file
  intro hc
  have hcmd := toProtocol_global_commit _ hc
  rcases h with h | h
  · simp only [Coordinator.voteMessages, List.map_cons, List.map_nil,
      List.mem_cons, List.mem_singleton, List.not_mem_nil, or_false] at h
    have hv : m.data.head? = some 'V' := by
      rcases h with rfl | rfl <;> exact cstr_vote_head _ _
    have := parseRequest_head env.junk m hv
    rw [hcmd] at this
    exact absurd this (by decide)
  · subst h
    rw [parseRequest_global_abort] at hcmd
    simp only at hcmd
    exact absurd hcmd (by decide)

end Participant

theorem digitChar_spec (d : Nat) (h : d < 10) :
    isdigit (digitChar d) = true ∧ (digitChar d).toNat - 48 = d ∧
      isspace (digitChar d) = false ∧ digitChar d ≠ '-' ∧ digitChar d ≠ '+' := by
  interval_cases d <;> decide

theorem digitsValue_append (l : List Char) (c : Char) :
    digitsValue (l ++ [c]) = digitsValue l * 10 + (c.toNat - 48) := by
  simp [digitsValue, List.foldl_append]

theorem decimalDigits_isdigit (fuel : Nat) :
    ∀ n, ∀ c ∈ decimalDigits fuel n, isdigit c = true := by
  induction fuel with
  | zero => intro n c hc; simp [decimalDigits] at hc
  | succ k ih =>
    intro n c hc
    rw [decimalDigits] at hc
    split at hc
    · rename_i hn
      simp only [List.mem_singleton] at hc
      subst hc
      exact (digitChar_spec n hn).1
    · rcases List.mem_append.mp hc with h | h
      · exact ih _ c h
      · simp only [List.mem_singleton] at h
        subst h
        exact (digitChar_spec _ (Nat.mod_lt _ (by decide))).1

theorem decimalDigits_value (fuel : Nat) :
    ∀ n, n < fuel → digitsValue (decimalDigits fuel n) = n := by
  induction fuel with
  | zero => intro n h; omega
  | succ k ih =>
    intro n h
    rw [decimalDigits]
    split
    · rename_i hn
      have := (digitChar_spec n hn).2.1
      simp [digitsValue, this]
    · rename_i hn
      rw [digitsValue_append, ih (n / 10) (by omega),
        (digitChar_spec _ (Nat.mod_lt _ (by decide))).2.1]
      omega

theorem decimalDigits_ne_nil (fuel n : Nat) : decimalDigits (fuel + 1) n ≠ [] := by
  rw [decimalDigits]
  split <;> simp

theorem natText_isdigit (n : Nat) : ∀ c ∈ natText n, isdigit c = true :=
  decimalDigits_isdigit _ n

theorem natText_value (n : Nat) : digitsValue (natText n) = n :=
  decimalDigits_value _ n (Nat.lt_succ_self n)

theorem natText_ne_nil (n : Nat) : natText n ≠ [] := decimalDigits_ne_nil n n

theorem takeWhile_append_stop {p : Char → Bool} (w rest : List Char) (c : Char)
    (hw : ∀ x ∈ w, p x = true) (hc : p c = false) :
    (w ++ c :: rest).takeWhile p = w ∧ (w ++ c :: rest).dropWhile p = c :: rest := by
  induction w with
  | nil => simp [List.takeWhile, List.dropWhile, hc]
  | cons x xs ih =>
    have hx : p x = true := hw x (List.mem_cons_self _ _)
    have := ih (fun y hy => hw y (List.mem_cons_of_mem _ hy))
    simp [List.takeWhile, List.dropWhile, hx, this]

theorem takeWhile_all {p : Char → Bool} (w : List Char)
    (hw : ∀ x ∈ w, p x = true) :
    w.takeWhile p = w ∧ w.dropWhile p = [] := by
  induction w with
  | nil => simp
  | cons x xs ih =>
    have hx : p x = true := hw x (List.mem_cons_self _ _)
    have := ih (fun y hy => hw y (List.mem_cons_of_mem _ hy))
    simp [List.takeWhile, List.dropWhile, hx, this]

/-- The text `digits.dd` reads back as the number it denotes. -/
theorem readDecimal_fixed (k d1 d2 : Nat) (h1 : d1 < 10) (h2 : d2 < 10) :
    readDecimal (natText k ++ ['.', digitChar d1, digitChar d2]) =
      some (false, (k : ℚ) + ((d1 * 10 + d2 : Nat) : ℚ) / 100) ∧
    readDecimal ('-' :: (natText k ++ ['.', digitChar d1, digitChar d2])) =
      some (true, (k : ℚ) + ((d1 * 10 + d2 : Nat) : ℚ) / 100) := by
  have hdot : isdigit '.' = false := by decide
  have hsplit := takeWhile_append_stop (p := isdigit) (natText k)
    [digitChar d1, digitChar d2] '.' (natText_isdigit k) hdot
  have hfr := takeWhile_all (p := isdigit) [digitChar d1, digitChar d2] (by
    intro x hx
    simp only [List.mem_cons, List.mem_singleton, List.not_mem_nil, or_false] at hx
    rcases hx with rfl | rfl
    · exact (digitChar_spec d1 h1).1
    · exact (digitChar_spec d2 h2).1)
  have hval : digitsValue [digitChar d1, digitChar d2] = d1 * 10 + d2 := by
    simp [digitsValue, (digitChar_spec d1 h1).2.1, (digitChar_spec d2 h2).2.1]
  have hne : natText k ≠ [] := natText_ne_nil k
  have hsign : takeSign (natText k ++ ['.', digitChar d1, digitChar d2]) =
      (false, natText k ++ ['.', digitChar d1, digitChar d2]) := by
    cases hk : natText k with
    | nil => exact absurd hk hne
    | cons c t =>
      have hc : isdigit c = true := natText_isdigit k c (by rw [hk]; simp)
      have hm : c ≠ '-' := by rintro rfl; exact absurd hc (by decide)
      have hp : c ≠ '+' := by rintro rfl; exact absurd hc (by decide)
      simp only [List.cons_append]
      unfold takeSign
      split
      · rename_i heq; simp only [List.cons.injEq] at heq; exact absurd heq.1 hm
      · rename_i heq; simp only [List.cons.injEq] at heq; exact absurd heq.1 hp
      · rfl
  have hcore : ∀ (neg : Bool),
      (let ip := (natText k ++ ['.', digitChar d1, digitChar d2]).takeWhile isdigit
       let fr := takeFraction
         ((natText k ++ ['.', digitChar d1, digitChar d2]).dropWhile isdigit)
       if ip = [] ∧ fr.1 = [] then (none : Option (Bool × ℚ))
       else
         match takeExponent fr.2 with
         | none => none
         | some e =>
           let mant : ℚ :=
             (digitsValue ip : ℚ) + (digitsValue fr.1 : ℚ) / (10 : ℚ) ^ fr.1.length
           let scaled : ℚ :=
             if 0 ≤ e then mant * (10 : ℚ) ^ e.toNat
             else mant / (10 : ℚ) ^ (-e).toNat
           some (neg, scaled)) =
      some (neg, (k : ℚ) + ((d1 * 10 + d2 : Nat) : ℚ) / 100) := by
    intro neg
    simp only [hsplit.1, hsplit.2, takeFraction, hfr.1, hfr.2, hne, false_and,
      if_false, takeExponent, hval, natText_value, List.length_cons,
      List.length_nil, le_refl, if_true, Int.toNat_zero, pow_zero, mul_one]
    norm_num
  constructor
  · unfold readDecimal
    rw [hsign]
    exact hcore false
  · unfold readDecimal
    have : takeSign ('-' :: (natText k ++ ['.', digitChar d1, digitChar d2])) =
        (true, natText k ++ ['.', digitChar d1, digitChar d2]) := rfl
    rw [this]
    exact hcore true

/-- The text of a finite value in fixed notation reads back as the sign of
the value and its magnitude rounded to two decimals. -/
theorem readDecimal_fixedTwo (q : ℚ) :
    readDecimal (fixedTwo q).data = some (decide (q < 0), centsOf q) := by
  have hd1 : roundHalfEven (|q| * 100) % 100 / 10 < 10 := by omega
  have hd2 : roundHalfEven (|q| * 100) % 10 < 10 := by omega
  have hx := readDecimal_fixed (roundHalfEven (|q| * 100) / 100)
    (roundHalfEven (|q| * 100) % 100 / 10) (roundHalfEven (|q| * 100) % 10)
    hd1 hd2
  have hnum : ((roundHalfEven (|q| * 100) / 100 : Nat) : ℚ) +
      ((roundHalfEven (|q| * 100) % 100 / 10 * 10 +
        roundHalfEven (|q| * 100) % 10 : Nat) : ℚ) / 100 = centsOf q := by
    unfold centsOf
    generalize roundHalfEven (|q| * 100) = n
    have h1 : n % 100 / 10 * 10 + n % 10 = n % 100 := by omega
    have h2 : n / 100 * 100 + n % 100 = n := by omega
    rw [h1]
    have h3 : ((n / 100 * 100 + n % 100 : Nat) : ℚ) = (n : ℚ) := by rw [h2]
    push_cast at h3
    rw [← h3]
    ring
  rw [hnum] at hx
  by_cases hq : q < 0
  · simp only [fixedTwo, hq, if_true, List.singleton_append, List.cons_append,
      List.nil_append, List.append_assoc, decide_True]
    exact hx.2
  · simp only [fixedTwo, hq, if_false, List.nil_append, decide_False]
    exact hx.1

/-- The text of a finite value is not empty and does not start with
whitespace. -/
theorem fixedTwo_head (q : ℚ) :
    ∃ c t, (fixedTwo q).data = c :: t ∧ isspace c = false := by
  by_cases hq : q < 0
  · refine ⟨'-', natText (roundHalfEven (|q| * 100) / 100) ++
      ['.', digitChar (roundHalfEven (|q| * 100) % 100 / 10),
        digitChar (roundHalfEven (|q| * 100) % 10)], ?_, by decide⟩
    simp only [fixedTwo, hq, if_true, List.singleton_append, List.cons_append,
      List.append_assoc, List.nil_append]
  · cases hk : natText (roundHalfEven (|q| * 100) / 100) with
    | nil => exact absurd hk (natText_ne_nil _)
    | cons c t =>
      refine ⟨c, t ++ ['.', digitChar (roundHalfEven (|q| * 100) % 100 / 10),
        digitChar (roundHalfEven (|q| * 100) % 10)], ?_, ?_⟩
      · simp only [fixedTwo, hq, if_false, List.nil_append, hk,
          List.cons_append]
      · have hc : isdigit c = true := natText_isdigit _ c (by rw [hk]; simp)
        revert hc
        unfold isdigit isspace
        intro hc
        simp only [Bool.and_eq_true, decide_eq_true_eq] at hc
        have : ∀ x : Char, (x = ' ' ∨ x = '\t' ∨ x = '\n' ∨ x = Char.ofNat 11 ∨
            x = Char.ofNat 12 ∨ x = '\r') → x.toNat < 48 := by
          rintro x (rfl | rfl | rfl | rfl | rfl | rfl) <;> decide
        by_contra hsp
        simp only [Bool.not_eq_false, Bool.or_eq_true, decide_eq_true_eq,
          or_assoc] at hsp
        have := this c hsp
        omega

/-- A formatted amount is not empty and does not start with whitespace. -/
theorem formatAmount_head (a : Double) :
    ∃ c t, (formatAmount a).data = c :: t ∧ isspace c = false := by
  cases a with
  | finite q => exact fixedTwo_head q
  | negZero => exact ⟨'-', _, rfl, by decide⟩
  | inf n => cases n <;> exact ⟨_, _, rfl, by decide⟩
  | nan n => cases n <;> exact ⟨_, _, rfl, by decide⟩

/-- What `stream >> amount` stores, from the decimal number collected. -/
theorem stored_extractDouble (s : List Char) :
    Double.stored (extractDouble s) =
      match readDecimal s with
      | none => Double.finite 0
      | some d => Double.clamp (Double.round d.1 d.2) := by
  unfold extractDouble
  cases readDecimal s with
  | none => rfl
  | some d =>
    obtain ⟨n, m⟩ := d
    simp only
    cases Double.round n m <;> rfl

/-- What a participant reads back from the text of a finite value: the
`double` nearest to the value rounded to two decimals, with the sign of the
value; the largest finite `double` when that is out of range. -/
theorem amountSent_finite (q : ℚ) :
    amountSent (Double.finite q) =
      Double.clamp (Double.round (decide (q < 0)) (centsOf q)) := by
  simp only [amountSent, formatAmount, stored_extractDouble,
    readDecimal_fixedTwo]

theorem amountSent_negZero : amountSent Double.negZero = Double.negZero := by
  decide!

theorem amountSent_inf (n : Bool) :
    amountSent (Double.inf n) = Double.finite 0 := by
  cases n <;> decide!

theorem amountSent_nan (n : Bool) :
    amountSent (Double.nan n) = Double.finite 0 := by
  cases n <;> decide!

namespace Participant

/-- Reading a word that is followed by a blank. -/
theorem extractWord_token (w rest : List Char) (hw : w ≠ [])
    (hns : ∀ c ∈ w, isspace c = false) :
    extractWord (w ++ ' ' :: rest) = some (w, ' ' :: rest) ∧
    extractWord (' ' :: (w ++ ' ' :: rest)) = some (w, ' ' :: rest) := by
  have hsplit := takeWhile_append_stop (p := fun c => !isspace c) w rest ' '
    (by intro x hx; simp [hns x hx]) (by decide)
  have hskip : skipws (w ++ ' ' :: rest) = w ++ ' ' :: rest := by
    cases w with
    | nil => exact absurd rfl hw
    | cons c t =>
      have hc := hns c (List.mem_cons_self _ _)
      simp only [skipws, List.cons_append]
      rw [List.dropWhile_cons_of_neg (by simp [hc])]
  have hskip2 : skipws (' ' :: (w ++ ' ' :: rest)) = w ++ ' ' :: rest := by
    have : skipws (' ' :: (w ++ ' ' :: rest)) = skipws (w ++ ' ' :: rest) := by
      simp only [skipws]
      rw [List.dropWhile_cons_of_pos (by decide)]
    rw [this, hskip]
  have hne : w ++ ' ' :: rest ≠ [] := by simp
  constructor
  · unfold extractWord
    rw [hskip]
    split
    · rename_i h; exact absurd h hne
    · rw [hsplit.1, hsplit.2]
  · unfold extractWord
    rw [hskip2]
    split
    · rename_i h; exact absurd h hne
    · rw [hsplit.1, hsplit.2]

/-- What the participant reads from the vote request the coordinator builds
for a clean account name. -/
theorem parseRequest_vote (junk a : Double) (account : String)
    (hacc : cleanToken account) :
    parseRequest junk (toString Protocol.VOTE_REQUEST ++ " " ++ account ++ " " ++
        formatAmount a) =
      ("VOTE-REQUEST", account, amountSent a) := by
  obtain ⟨c, t, hct, hc⟩ := formatAmount_head a
  have hdata : (toString Protocol.VOTE_REQUEST ++ " " ++ account ++ " " ++
      formatAmount a).data =
      "VOTE-REQUEST".data ++ ' ' :: (account.data ++ ' ' :: (formatAmount a).data) := by
    simp only [toString, String.data_append, List.append_assoc]
    rfl
  have h1 := (extractWord_token "VOTE-REQUEST".data
    (account.data ++ ' ' :: (formatAmount a).data) (by decide) (by decide)).1
  have h2 := (extractWord_token account.data (formatAmount a).data hacc.1
    hacc.2).2
  have h3 : skipws (' ' :: (formatAmount a).data) = (formatAmount a).data := by
    simp only [skipws]
    rw [List.dropWhile_cons_of_pos (by decide), hct,
      List.dropWhile_cons_of_neg (by simp [hc])]
  unfold parseRequest
  rw [hdata, h1]
  simp only [h2, h3]
  rw [hct]
  simp only
  rw [← hct]
  unfold amountSent Double.stored
  rfl

end Participant

/-! ## Whole numbers are exact -/

theorem roundHalfEven_natCast (n : Nat) : roundHalfEven (n : ℚ) = n := by
  have hf : Rat.floor (n : ℚ) = (n : Int) := by
    have : Rat.floor (n : ℚ) = ⌊(n : ℚ)⌋ := rfl
    rw [this, Int.floor_natCast]
  unfold roundHalfEven
  simp only [hf, Int.toNat_natCast, sub_self]
  norm_num

theorem bitLength_le (fuel : Nat) :
    ∀ n k : Nat, n < 2 ^ k → bitLength fuel n ≤ k := by
  induction fuel with
  | zero => intro n k _; simp [bitLength]
  | succ f ih =>
    intro n k h
    rw [bitLength]
    split
    · exact Nat.zero_le _
    · rename_i hn
      cases k with
      | zero => simp at h; exact absurd h hn
      | succ j =>
        have : n / 2 < 2 ^ j := by
          rw [pow_succ] at h
          omega
        have := ih (n / 2) j this
        omega

theorem bitLength_one : bitLength 1 1 = 1 := rfl

theorem pow2_of_nonpos (k : Int) (h : k ≤ 0) :
    pow2 k = 1 / (2 : ℚ) ^ (-k).toNat := by
  unfold pow2
  by_cases h0 : 0 ≤ k
  · have : k = 0 := le_antisymm h h0
    subst this
    simp
  · simp [h0]

theorem log2floor_natCast_le (n : Nat) (h : n < 2 ^ 53) :
    log2floor (n : ℚ) ≤ 52 := by
  have hb := bitLength_le n n 53 h
  unfold log2floor
  simp only [Rat.num_natCast, Int.toNat_natCast, Rat.den_natCast, bitLength_one]
  split <;> omega

/-- A whole number below `2 ^ 53` is a `double`: rounding leaves it as it
is. -/
theorem roundMagnitude_natCast (n : Nat) (h : n < 2 ^ 53) :
    roundMagnitude (n : ℚ) = n := by
  unfold roundMagnitude
  by_cases h0 : (n : ℚ) = 0
  · simp [h0]
  · rw [if_neg h0]
    simp only
    have he : max (log2floor (n : ℚ)) (-1022) - 52 ≤ 0 := by
      have := log2floor_natCast_le n h
      omega
    rw [pow2_of_nonpos _ he]
    generalize (-(max (log2floor (n : ℚ)) (-1022) - 52)).toNat = m
    have hcast : (n : ℚ) / (1 / (2 : ℚ) ^ m) = ((n * 2 ^ m : Nat) : ℚ) := by
      push_cast
      field_simp
    rw [hcast, roundHalfEven_natCast]
    push_cast
    field_simp

theorem pow2_1024_gt (n : Nat) (h : n < 2 ^ 53) : ¬ pow2 1024 ≤ (n : ℚ) := by
  have ht : (1024 : Int).toNat = 1024 := by decide
  have h1 : pow2 1024 = (2 : ℚ) ^ 1024 := by
    unfold pow2
    rw [if_pos (by decide), ht]
  have h2 : (n : ℚ) < ((2 ^ 53 : Nat) : ℚ) := Nat.cast_lt.mpr h
  rw [Nat.cast_pow, Nat.cast_ofNat] at h2
  have h3 : (2 : ℚ) ^ 53 ≤ (2 : ℚ) ^ 1024 :=
    pow_le_pow_right₀ (by norm_num) (by norm_num)
  rw [h1, not_le]
  exact lt_of_lt_of_le h2 h3

theorem Double.round_natCast (negative : Bool) (n : Nat) (h0 : 0 < n)
    (h : n < 2 ^ 53) :
    Double.round negative (n : ℚ) =
      Double.finite (if negative then -(n : ℚ) else n) := by
  have hne : (n : ℚ) ≠ 0 := by exact_mod_cast h0.ne'
  unfold Double.round
  simp only [roundMagnitude_natCast n h, if_neg (pow2_1024_gt n h), if_neg hne]

theorem centsOf_natCast (n : Nat) :
    centsOf (n : ℚ) = n ∧ centsOf (-(n : ℚ)) = n := by
  have h1 : |(n : ℚ)| * 100 = ((n * 100 : Nat) : ℚ) := by
    rw [abs_of_nonneg (by positivity)]
    push_cast
    ring
  unfold centsOf
  rw [abs_neg, h1, roundHalfEven_natCast]
  push_cast
  constructor <;> field_simp

/-- A whole amount below `2 ^ 53` travels unchanged through a vote request,
with either sign. -/
theorem amountSent_natCast (n : Nat) (h0 : 0 < n) (h : n < 2 ^ 53) :
    amountSent (Double.finite n) = Double.finite n ∧
    amountSent (Double.neg (Double.finite n)) = Double.finite (-(n : ℚ)) := by
  have hne : (n : ℚ) ≠ 0 := by exact_mod_cast h0.ne'
  have hpos : ¬ (n : ℚ) < 0 := by
    have : (0 : ℚ) ≤ n := by positivity
    linarith
  have hneg : -(n : ℚ) < 0 := by
    have : (0 : ℚ) < n := by exact_mod_cast h0
    linarith
  constructor
  · rw [amountSent_finite, (centsOf_natCast n).1]
    simp only [hpos, decide_False, Double.round_natCast false n h0 h]
    rfl
  · simp only [Double.neg, if_neg hne]
    rw [amountSent_finite, (centsOf_natCast n).2]
    simp only [hneg, decide_True, Double.round_natCast true n h0 h]
    rfl

/-- Whole numbers below `2 ^ 53` are added without rounding. -/
theorem Double.add_natCast (x y : Nat) (h : x + y < 2 ^ 53) :
    Double.add (Double.finite x) (Double.finite y) =
      Double.finite ((x : ℚ) + y) := by
  simp only [Double.add]
  by_cases h0 : (x : ℚ) + y = 0
  · simp [h0]
  · rw [if_neg h0]
    have hc : (x : ℚ) + y = ((x + y : Nat) : ℚ) := by push_cast; rfl
    have hpos : 0 < x + y := by
      rcases Nat.eq_zero_or_pos (x + y) with hz | hz
      · rw [hc, hz] at h0; simp at h0
      · exact hz
    have hnn : ¬ ((x + y : Nat) : ℚ) < 0 := by
      have : (0 : ℚ) ≤ ((x + y : Nat) : ℚ) := by positivity
      linarith
    rw [hc]
    unfold Double.ofRat
    rw [abs_of_nonneg (by positivity)]
    simp only [hnn, decide_False, Double.round_natCast false (x + y) hpos h]
    rfl

/-- A whole number is taken from a larger one below `2 ^ 53` without
rounding. -/
theorem Double.sub_natCast (x a : Nat) (ha : a ≤ x) (h : x < 2 ^ 53) :
    Double.add (Double.finite x) (Double.finite (-(a : ℚ))) =
      Double.finite ((x : ℚ) - a) := by
  simp only [Double.add]
  have hc : (x : ℚ) + -(a : ℚ) = ((x - a : Nat) : ℚ) := by
    push_cast [Nat.cast_sub ha]
    ring
  have hc2 : (x : ℚ) - a = ((x - a : Nat) : ℚ) := by
    push_cast [Nat.cast_sub ha]
    ring
  rw [hc, hc2]
  by_cases h0 : ((x - a : Nat) : ℚ) = 0
  · simp [h0]
  · rw [if_neg h0]
    have hpos : 0 < x - a := by
      rcases Nat.eq_zero_or_pos (x - a) with hz | hz
      · rw [hz] at h0; simp at h0
      · exact hz
    have hnn : ¬ ((x - a : Nat) : ℚ) < 0 := by
      have : (0 : ℚ) ≤ ((x - a : Nat) : ℚ) := by positivity
      linarith
    unfold Double.ofRat
    rw [abs_of_nonneg (by positivity)]
    simp only [hnn, decide_False,
      Double.round_natCast false (x - a) hpos (by omega)]
    rfl

/-! ## A committed transfer -/

theorem Double.value_of_number (a : Double) (x : ℚ) (h : a.number = some x) :
    a.value = x := by
  cases a with
  | finite q => simpa [Double.number, Double.value] using h
  | negZero => simpa [Double.number, Double.value] using h
  | inf n => simp [Double.number] at h
  | nan n => simp [Double.number] at h

theorem Double.exactSum_iff (a b : Double) :
    Double.ExactSum a b ↔
      ∃ x y, a.number = some x ∧ b.number = some y ∧
        (Double.add a b).number = some (x + y) := by
  unfold Double.ExactSum
  cases ha : a.number with
  | none => simp
  | some x =>
    cases hb : b.number with
    | none => simp
    | some y => simp

/-- The number stored for a magnitude changes sign with the sign read. -/
theorem Double.clamp_round_value (negative : Bool) (m : ℚ) :
    (Double.clamp (Double.round (!negative) m)).value =
      -(Double.clamp (Double.round negative m)).value := by
  unfold Double.round
  simp only
  generalize roundMagnitude m = r
  by_cases h1 : pow2 1024 ≤ r
  · cases negative <;> simp [h1, Double.clamp, Double.value]
  · by_cases h2 : r = 0
    · subst h2
      cases negative <;> simp [h1, Double.clamp, Double.value]
    · cases negative <;> simp [h1, h2, Double.clamp, Double.value]

/-- The two vote requests of a transfer carry opposite numbers. -/
theorem amountSent_neg_value (a : Double) :
    (amountSent (Double.neg a)).value = -(amountSent a).value := by
  cases a with
  | finite q =>
    by_cases hq : q = 0
    · subst hq
      have h1 : Double.neg (Double.finite 0) = Double.negZero := by
        simp [Double.neg]
      have h2 : amountSent (Double.finite 0) = Double.finite 0 := by decide!
      rw [h1, amountSent_negZero, h2]
      simp [Double.value]
    · have h1 : Double.neg (Double.finite q) = Double.finite (-q) := by
        simp [Double.neg, hq]
      have h2 : centsOf (-q) = centsOf q := by
        unfold centsOf
        rw [abs_neg]
      have h3 : decide (-q < 0) = !decide (q < 0) := by
        rcases lt_or_gt_of_ne hq with h | h
        · have : ¬ -q < 0 := by linarith
          simp [h, this]
        · have h4 : -q < 0 := by linarith
          have h5 : ¬ q < 0 := by linarith
          simp [h4, h5]
      rw [h1, amountSent_finite, amountSent_finite, h2, h3]
      exact Double.clamp_round_value _ _
  | negZero =>
    have h1 : Double.neg Double.negZero = Double.finite 0 := rfl
    have h2 : amountSent (Double.finite 0) = Double.finite 0 := by decide!
    rw [h1, amountSent_negZero, h2]
    simp [Double.value]
  | inf n =>
    simp only [Double.neg, amountSent_inf, Double.value, neg_zero]
  | nan n =>
    simp only [Double.neg, amountSent_nan, Double.value, neg_zero]

namespace Participant

/-- Handling the vote request the coordinator builds for a clean account
name is `processVoteRequest` on that account and the amount read back. -/
theorem process_vote (p : Participant) (env : Env) (a : Double)
    (account : String) (hacc : cleanToken account) :
    p.process env (toString Protocol.VOTE_REQUEST ++ " " ++ account ++ " " ++
        formatAmount a) =
      ((p.processVoteRequest "VOTE-REQUEST" account (amountSent a)).1,
        Except.ok (p.processVoteRequest "VOTE-REQUEST" account
          (amountSent a)).2) := by
  have h1 : toProtocol "VOTE-REQUEST" = Protocol.VOTE_REQUEST := by decide
  simp only [process, parseRequest_vote env.junk a account hacc, h1]

/-- An approved vote followed by `GLOBAL-COMMIT`, on a participant without
holds: the balance of the account becomes the sum of the old balance and the
amount, the other accounts stay, and the sum of the balances moves by the
change of that balance. -/
theorem vote_then_commit (p : Participant) (account : String) (v bal : Double)
    (env : Env) (hh : p.holding = [])
    (hb : p.accounts.find account = some bal)
    (hv : (p.processVoteRequest "VOTE-REQUEST" account v).2 = true) :
    (((p.processVoteRequest "VOTE-REQUEST" account v).1.process env
        "GLOBAL-COMMIT").1.accounts.find account = some (Double.add bal v)) ∧
    (∀ k, k ≠ account →
      ((p.processVoteRequest "VOTE-REQUEST" account v).1.process env
        "GLOBAL-COMMIT").1.accounts.find k = p.accounts.find k) ∧
    ((p.processVoteRequest "VOTE-REQUEST" account v).1.process env
        "GLOBAL-COMMIT").1.accounts.total =
      p.accounts.total - bal.value + (Double.add bal v).value := by
  obtain ⟨hacc, -, hhold, -⟩ :=
    processVoteRequest_state p "VOTE-REQUEST" account v
  rw [hv, if_pos rfl, hh] at hhold
  have hhold2 : (p.processVoteRequest "VOTE-REQUEST" account v).1.holding =
      [(account, v)] := hhold
  have hb2 : (p.processVoteRequest "VOTE-REQUEST" account v).1.accounts.find
      account = some bal := by rw [hacc, hb]
  obtain ⟨h1, -, -, -⟩ := processGlobalCommit_single
    (p.processVoteRequest "VOTE-REQUEST" account v).1 env "GLOBAL-COMMIT" account
    v bal hhold2 hb2
  rw [process_global_commit]
  simp only
  rw [h1, hacc]
  exact ⟨Ledger.find_assign_self _ _ _,
    fun k hk => Ledger.find_assign_ne _ _ _ _ hk,
    Ledger.total_assign _ _ _ _ hb⟩

end Participant

/-- C11. Codec round trip: `toProtocol (toString t) = t` for each of the seven
tags, `UNKNOWN_PROTOCOL` included; consequently `toString` is injective. -/
theorem toProtocol_toString :
    (∀ t : Protocol, toProtocol (toString t) = t) ∧
    Function.Injective toString := by
  have h : ∀ t : Protocol, toProtocol (toString t) = t := by
    intro t
    cases t <;> decide
  refine ⟨h, ?_⟩
  intro a b hab
  rw [← h a, ← h b, hab]

/-- C12. Decode is total and exact-match: `toProtocol` yields a tag for every
text, and the tag is `UNKNOWN_PROTOCOL` if and only if the text is not exactly
one of the six wire texts; the empty text, `ack` and `ACK` followed by a
blank decode to `UNKNOWN_PROTOCOL`. -/
theorem toProtocol_unknown_iff (s : String) :
    (∃ t, toProtocol s = t) ∧
    (toProtocol s = Protocol.UNKNOWN_PROTOCOL ↔
      ¬ (s = "VOTE-REQUEST" ∨ s = "VOTE-COMMIT" ∨ s = "VOTE-ABORT" ∨
        s = "GLOBAL-COMMIT" ∨ s = "GLOBAL-ABORT" ∨ s = "ACK")) ∧
    toProtocol "" = Protocol.UNKNOWN_PROTOCOL ∧
    toProtocol "ack" = Protocol.UNKNOWN_PROTOCOL ∧
    toProtocol "ACK " = Protocol.UNKNOWN_PROTOCOL := by
  refine ⟨⟨_, rfl⟩, ?_, by decide, by decide, by decide⟩
  unfold toProtocol
  constructor
  · intro h
    split_ifs at h
    rintro (h1 | h1 | h1 | h1 | h1 | h1) <;> contradiction
  · intro h
    simp only [not_or] at h
    obtain ⟨h1, h2, h3, h4, h5, h6⟩ := h
    simp only [h1, h2, h3, h4, h5, h6, if_false]

/-! ## The participant: other requests -/

namespace Participant

theorem parseRequest_command (junk : Double) (request : String) :
    (parseRequest junk request).1 = firstToken request := by
  unfold parseRequest firstToken
  cases extractWord request.data with
  | none => rfl
  | some w1 =>
    simp only
    cases extractWord w1.2 with
    | none => rfl
    | some w2 =>
      simp only
      split <;> rfl

theorem toProtocol_vote_request (s : String)
    (h : toProtocol s = Protocol.VOTE_REQUEST) : s = "VOTE-REQUEST" := by
  unfold toProtocol at h
  split_ifs at h
  assumption

theorem toProtocol_global_abort (s : String)
    (h : toProtocol s = Protocol.GLOBAL_ABORT) : s = "GLOBAL-ABORT" := by
  unfold toProtocol at h
  split_ifs at h
  assumption

/-- `process` on a request whose command is none of the three the
participant handles. -/
theorem process_other (p : Participant) (env : Env) (request : String)
    (h1 : firstToken request ≠ "VOTE-REQUEST")
    (h2 : firstToken request ≠ "GLOBAL-COMMIT")
    (h3 : firstToken request ≠ "GLOBAL-ABORT") :
    p.process env request =
      ({ p with
          logFile := p.logFile ++
            ["Invalid command received: " ++ firstToken request],
          sent := p.sent ++ ["UNKNOWN-PROTOCOL"] }, Except.ok false) := by
  unfold process
  simp only [parseRequest_command]
  split
  · rename_i hc; exact absurd (toProtocol_vote_request _ hc) h1
  · rename_i hc; exact absurd (toProtocol_global_commit _ hc) h2
  · rename_i hc; exact absurd (toProtocol_global_abort _ hc) h3
  · rfl

/-- `processGlobalCommit` never touches the hold table. -/
theorem processGlobalCommit_holding (p : Participant) (env : Env)
    (command : String) :
    (p.processGlobalCommit env command).holding = p.holding := by
  unfold processGlobalCommit
  simp only [log, updateAccountsFile, respond]
  split <;> rfl

/-- `processGlobalCommit` on an empty hold table. -/
theorem processGlobalCommit_empty (p : Participant) (env : Env)
    (command : String) (h : p.holding = []) :
    (p.processGlobalCommit env command).accounts = p.accounts ∧
    (p.processGlobalCommit env command).sent = p.sent ++ ["ACK"] := by
  have hf : Ledger.find [] (lastHeld (Ledger.iterate env.holdingRank [])) =
      none := rfl
  simp only [processGlobalCommit, log, h, hf, updateAccountsFile, respond,
    toString]
  exact ⟨trivial, trivial⟩

end Participant

/-- C20. `GLOBAL-COMMIT` without a prior vote is harmless: with an empty hold
table `Participant::process` on `GLOBAL-COMMIT` leaves the in-memory ledger
as it is, responds `ACK` and returns `false`. -/
theorem process_global_commit_without_vote (p : Participant)
    (env : Participant.Env)
    (h : p.holding = []) :
    (p.process env "GLOBAL-COMMIT").1.accounts = p.accounts ∧
    (p.process env "GLOBAL-COMMIT").1.sent = p.sent ++ ["ACK"] ∧
    (p.process env "GLOBAL-COMMIT").2 = Except.ok false := by
  rw [Participant.process_global_commit]
  exact ⟨(Participant.processGlobalCommit_empty p env _ h).1,
    (Participant.processGlobalCommit_empty p env _ h).2, rfl⟩

/-- Witness of C20: the sample participant as loaded. -/
theorem process_global_commit_without_vote_witness :
    sampleParticipant.holding = [] ∧
    (sampleParticipant.process sampleEnv "GLOBAL-COMMIT").1.accounts =
      sampleParticipant.accounts ∧
    (sampleParticipant.process sampleEnv "GLOBAL-COMMIT").1.sent =
      sampleParticipant.sent ++ ["ACK"] ∧
    (sampleParticipant.process sampleEnv "GLOBAL-COMMIT").2 = Except.ok false :=
  ⟨rfl, process_global_commit_without_vote sampleParticipant sampleEnv rfl⟩

/-! ## Where the participant departs from its description -/

namespace Participant

theorem process_global_commit_holding (p : Participant) (env : Env) :
    (p.process env "GLOBAL-COMMIT").1.holding = p.holding := by
  rw [process_global_commit]
  exact processGlobalCommit_holding p env _

/-- A request whose command is `VOTE-REQUEST` is always voted on. -/
theorem process_vote_request (p : Participant) (env : Env) (request : String)
    (h : firstToken request = "VOTE-REQUEST") :
    p.process env request =
      ((p.processVoteRequest "VOTE-REQUEST" (parseRequest env.junk request).2.1
          (parseRequest env.junk request).2.2).1,
        Except.ok (p.processVoteRequest "VOTE-REQUEST"
          (parseRequest env.junk request).2.1 (parseRequest env.junk request).2.2).2) := by
  have h1 : toProtocol "VOTE-REQUEST" = Protocol.VOTE_REQUEST := by decide
  unfold process
  simp only [parseRequest_command, h, h1]

theorem process_vote_request_sent (p : Participant) (env : Env)
    (request : String)
    (h : firstToken request = "VOTE-REQUEST") :
    (p.process env request).1.sent = p.sent ++ ["VOTE-COMMIT"] ∨
    (p.process env request).1.sent = p.sent ++ ["VOTE-ABORT"] := by
  rw [process_vote_request p env request h]
  have hs := (processVoteRequest_state p "VOTE-REQUEST"
    (parseRequest env.junk request).2.1 (parseRequest env.junk request).2.2).2.2.2
  simp only
  rw [hs]
  split
  · exact Or.inl rfl
  · exact Or.inr rfl

end Participant

/-- C15 does not hold of the code: `Participant::process` on `GLOBAL-COMMIT`
leaves the hold table exactly as it was. With a debit of 30 held on account
`A` (balance 100) the hold is still there after the commit, so the same
message handled once more debits the account a second time, whereas
`GLOBAL-ABORT` does empty the table. -/
theorem global_commit_keeps_holds :
    (∀ (p : Participant) (env : Participant.Env),
      (p.process env "GLOBAL-COMMIT").1.holding = p.holding) ∧
    sampleHolding.accounts.find "A" = some (Double.finite 100) ∧
    (sampleHolding.process sampleEnv "GLOBAL-COMMIT").1.holding =
      [("A", Double.finite (-30))] ∧
    (sampleHolding.process sampleEnv "GLOBAL-COMMIT").1.accounts.find "A" =
      some (Double.finite 70) ∧
    ((sampleHolding.process sampleEnv "GLOBAL-COMMIT").1.process sampleEnv
      "GLOBAL-COMMIT").1.accounts.find "A" = some (Double.finite 40) ∧
    (sampleHolding.process sampleEnv "GLOBAL-ABORT").1.holding = [] :=
  ⟨Participant.process_global_commit_holding, by decide!, by decide!,
    by decide!, by decide!, by decide!⟩

/-- C17 does not hold of the code: a text that begins with the token
`VOTE-REQUEST` is never answered `UNKNOWN-PROTOCOL`, it is always voted on.
`VOTE-REQUEST A xyz` is handled as a credit of 0 to `A`: it is answered
`VOTE-COMMIT`, the connection stays open and the hold `(A, 0)` is recorded.
`VOTE-REQUEST A` is voted on with whatever value the uninitialised amount
has, and approved with a hold of that value when it is not below zero.
`VOTE-REQUEST` alone is answered `VOTE-ABORT`. -/
theorem malformed_vote_request_is_voted_on :
    (∀ (p : Participant) (env : Participant.Env) (request : String),
      firstToken request = "VOTE-REQUEST" →
      (p.process env request).1.sent = p.sent ++ ["VOTE-COMMIT"] ∨
      (p.process env request).1.sent = p.sent ++ ["VOTE-ABORT"]) ∧
    firstToken "VOTE-REQUEST A xyz" = "VOTE-REQUEST" ∧
    sampleParticipant.accounts.find "A" = some (Double.finite 100) ∧
    (sampleParticipant.process sampleEnv "VOTE-REQUEST A xyz").2 =
      Except.ok true ∧
    (sampleParticipant.process sampleEnv "VOTE-REQUEST A xyz").1.sent =
      ["VOTE-COMMIT"] ∧
    (sampleParticipant.process sampleEnv "VOTE-REQUEST A xyz").1.holding =
      [("A", Double.finite 0)] ∧
    (∀ env : Participant.Env, Double.lt env.junk (Double.finite 0) = false →
      (sampleParticipant.process env "VOTE-REQUEST A").2 = Except.ok true ∧
      (sampleParticipant.process env "VOTE-REQUEST A").1.sent =
        ["VOTE-COMMIT"] ∧
      (sampleParticipant.process env "VOTE-REQUEST A").1.holding =
        [("A", env.junk)]) ∧
    (sampleParticipant.process sampleEnv "VOTE-REQUEST").2 = Except.ok false ∧
    (sampleParticipant.process sampleEnv "VOTE-REQUEST").1.sent =
      ["VOTE-ABORT"] := by
  refine ⟨Participant.process_vote_request_sent, by decide, by decide!,
    by decide!, by decide!, by decide!, ?_, by decide!, by decide!⟩
  intro env hj
  have hp : Participant.parseRequest env.junk "VOTE-REQUEST A" =
      ("VOTE-REQUEST", "A", env.junk) := rfl
  have h1 : toProtocol "VOTE-REQUEST" = Protocol.VOTE_REQUEST := by decide
  have hneg : ¬ Double.lt env.junk (Double.finite 0) = true := by simp [hj]
  have hfind : sampleParticipant.accounts.find "A" ≠ none := by decide!
  simp only [Participant.process, hp, h1, Participant.processVoteRequest,
    if_neg hneg, if_pos hfind]
  refine ⟨?_, ?_, ?_⟩ <;> trivial
/-! ## The vote requests on the wire -/

theorem cstr_of_nulFree (s : String) (h : nulFree s) : cstr s = s := by
  unfold cstr
  have := (takeWhile_all (p := fun c => decide (c ≠ Char.ofNat 0)) s.data
    (by intro x hx; simpa using h x hx)).1
  rw [this]

theorem isdigit_ne_nul (c : Char) (h : isdigit c = true) : c ≠ Char.ofNat 0 := by
  rintro rfl
  exact absurd h (by decide)

theorem fixedTwo_nulFree (q : ℚ) : nulFree (fixedTwo q) := by
  intro c hc
  have hd : ∀ d, d < 10 → digitChar d ≠ Char.ofNat 0 := fun d hd =>
    isdigit_ne_nul _ (digitChar_spec d hd).1
  simp only [fixedTwo, List.mem_append, List.mem_cons, List.mem_singleton,
    List.not_mem_nil, or_false] at hc
  rcases hc with (hc | hc) | hc | hc | hc
  · split at hc
    · simp only [List.mem_singleton] at hc
      subst hc
      decide
    · simp at hc
  · exact isdigit_ne_nul c (natText_isdigit _ c hc)
  · subst hc; decide
  · subst hc; exact hd _ (by omega)
  · subst hc; exact hd _ (by omega)

theorem formatAmount_nulFree (a : Double) : nulFree (formatAmount a) := by
  cases a with
  | finite q => exact fixedTwo_nulFree q
  | negZero => decide
  | inf n => cases n <;> decide
  | nan n => cases n <;> decide

/-- A vote request for a name without NUL has no NUL. -/
theorem voteMessage_nulFree (account : String) (q : Double)
    (h : nulFree account) :
    nulFree ("VOTE-REQUEST " ++ account ++ " " ++ formatAmount q) := by
  intro c hc
  simp only [String.data_append, List.mem_append] at hc
  rcases hc with ((hc | hc) | hc) | hc
  · revert c
    decide
  · exact h c hc
  · revert c
    decide
  · exact formatAmount_nulFree q c hc

theorem voteMessages_eq (amount : Double) (accountFrom accountTo : String) :
    Coordinator.voteMessages amount accountFrom accountTo =
      ["VOTE-REQUEST " ++ accountFrom ++ " " ++ formatAmount (Double.neg amount),
       "VOTE-REQUEST " ++ accountTo ++ " " ++ formatAmount amount] := rfl

namespace Coordinator

theorem collectVotes_log :
    ∀ (bs : List Bank) (log : List String),
      ∃ extra, (collectVotes bs log).2.1 = log ++ extra := by
  intro bs
  induction bs with
  | nil => intro log; exact ⟨[], by simp [collectVotes]⟩
  | cons b bs ih =>
    intro log
    rw [collectVotes]
    split
    · exact ⟨[], by simp⟩
    · rename_i response cl h
      obtain ⟨extra, he⟩ := ih (log ++ (processResponse response).2)
      exact ⟨(processResponse response).2 ++ extra, by
        simp only [he, List.append_assoc]⟩

theorem collectVotes_outbox (bs : List Bank) (log : List String) :
    (collectVotes bs log).1.map (fun b => b.client.outbox) =
      bs.map (fun b => b.client.outbox) := by
  have h := collectVotes_sent bs log
  generalize (collectVotes bs log).1 = ys at h
  induction h with
  | nil => rfl
  | cons hab _ ih =>
    obtain ⟨new, hnew, hall⟩ := hab
    cases new with
    | nil => simp only [List.map_cons, ih, hnew, List.append_nil]
    | cons m t => exact absurd (hall m (List.mem_cons_self _ _)) id

/-- Once its first loop has ended without failure, `sendVoteRequest` leaves
the participants and the log as its second loop leaves them. -/
theorem sendVoteRequest_after_send (c : Coordinator) (amount : Double)
    (accountFrom accountTo : String) (bs : List Bank) (log : List String)
    (h : sendVoteLoop (voteMessages amount accountFrom accountTo) 0
      c.participants c.logFile = (bs, log, none)) :
    (c.sendVoteRequest amount accountFrom accountTo).1.participants =
      (collectVotes bs log).1 ∧
    (c.sendVoteRequest amount accountFrom accountTo).1.logFile =
      (collectVotes bs log).2.1 := by
  simp only [sendVoteRequest, h]
  rcases collectVotes bs log with ⟨bs2, log2, f2⟩
  cases f2 <;> exact ⟨rfl, rfl⟩

end Coordinator

/-- The texts of a finite amount and of its negation show the same
magnitude, the amount rounded to two decimals, with opposite signs. -/
theorem readDecimal_formatAmount (q : ℚ) :
    readDecimal (formatAmount (Double.finite q)).data =
      some (decide (q < 0), centsOf q) ∧
    readDecimal (formatAmount (Double.neg (Double.finite q))).data =
      some (!decide (q < 0), centsOf q) := by
  refine ⟨readDecimal_fixedTwo q, ?_⟩
  by_cases hq : q = 0
  · subst hq
    decide!
  · have h1 : Double.neg (Double.finite q) = Double.finite (-q) := by
      simp [Double.neg, hq]
    have h2 : centsOf (-q) = centsOf q := by
      unfold centsOf
      rw [abs_neg]
    have h3 : decide (-q < 0) = !decide (q < 0) := by
      rcases lt_or_gt_of_ne hq with h | h
      · have : ¬ -q < 0 := by linarith
        simp [h, this]
      · have h4 : -q < 0 := by linarith
        have h5 : ¬ q < 0 := by linarith
        simp [h4, h5]
    rw [h1]
    simp only [formatAmount]
    rw [readDecimal_fixedTwo, h2, h3]

/-- C14. Phase-1 message assignment: with two registered participants whose
sockets accept a send, `Coordinator::sendVoteRequest` logs and hands to the
first `VOTE-REQUEST accountFrom formatAmount(-amount)` and to the second
`VOTE-REQUEST accountTo formatAmount(amount)`; each socket writes the
C-string of its message, which is the message itself for an account name
without a NUL character; and the two amounts read back as opposite numbers:
for a finite amount the two texts show the same magnitude, the amount rounded
to two decimals, with opposite signs. -/
theorem sendVoteRequest_messages (c : Coordinator) (b1 b2 : Bank) (amount : Double)
    (accountFrom accountTo : String)
    (hp : c.participants = [b1, b2]) (h1 : b1.canSend) (h2 : b2.canSend) :
    (c.sendVoteRequest amount accountFrom accountTo).1.participants.map
        (fun b => b.client.outbox) =
      [b1.client.outbox ++
          [cstr ("VOTE-REQUEST " ++ accountFrom ++ " " ++ formatAmount (Double.neg amount))],
       b2.client.outbox ++
          [cstr ("VOTE-REQUEST " ++ accountTo ++ " " ++ formatAmount amount)]] ∧
    (∃ rest, (c.sendVoteRequest amount accountFrom accountTo).1.logFile =
      c.logFile ++
        ["Sending message '" ++
          ("VOTE-REQUEST " ++ accountFrom ++ " " ++ formatAmount (Double.neg amount)) ++
          "' to " ++ b1.address,
         "Sending message '" ++
          ("VOTE-REQUEST " ++ accountTo ++ " " ++ formatAmount amount) ++
          "' to " ++ b2.address] ++ rest) ∧
    (nulFree accountFrom →
      cstr ("VOTE-REQUEST " ++ accountFrom ++ " " ++ formatAmount (Double.neg amount)) =
        "VOTE-REQUEST " ++ accountFrom ++ " " ++ formatAmount (Double.neg amount)) ∧
    (nulFree accountTo →
      cstr ("VOTE-REQUEST " ++ accountTo ++ " " ++ formatAmount amount) =
        "VOTE-REQUEST " ++ accountTo ++ " " ++ formatAmount amount) ∧
    (amountSent (Double.neg amount)).value = -(amountSent amount).value ∧
    (∀ q, amount = Double.finite q →
      readDecimal (formatAmount amount).data =
        some (decide (q < 0), centsOf q) ∧
      readDecimal (formatAmount (Double.neg amount)).data =
        some (!decide (q < 0), centsOf q)) := by
  refine ⟨?_, ?_, fun h => cstr_of_nulFree _ (voteMessage_nulFree _ _ h),
    fun h => cstr_of_nulFree _ (voteMessage_nulFree _ _ h),
    amountSent_neg_value amount, ?_⟩
  · obtain ⟨cl1, hcl1, -, ho1⟩ := send_request_of_canSend b1
      ("VOTE-REQUEST " ++ accountFrom ++ " " ++ formatAmount (Double.neg amount)) h1
    obtain ⟨cl2, hcl2, -, ho2⟩ := send_request_of_canSend b2
      ("VOTE-REQUEST " ++ accountTo ++ " " ++ formatAmount amount) h2
    have hloop := Coordinator.sendVoteRequest_after_send c amount accountFrom
      accountTo [{ b1 with client := cl1 }, { b2 with client := cl2 }]
      (c.logFile ++
        ["Sending message '" ++
          ("VOTE-REQUEST " ++ accountFrom ++ " " ++ formatAmount (Double.neg amount)) ++
          "' to " ++ b1.address] ++
        ["Sending message '" ++
          ("VOTE-REQUEST " ++ accountTo ++ " " ++ formatAmount amount) ++
          "' to " ++ b2.address])
      (by
        simp only [voteMessages_eq, hp, Coordinator.sendVoteLoop,
          List.getElem?_cons_zero, List.getElem?_cons_succ, hcl1, hcl2])
    rw [hloop.1, Coordinator.collectVotes_outbox]
    simp only [List.map_cons, List.map_nil, ho1, ho2]
  · obtain ⟨cl1, hcl1, -, ho1⟩ := send_request_of_canSend b1
      ("VOTE-REQUEST " ++ accountFrom ++ " " ++ formatAmount (Double.neg amount)) h1
    obtain ⟨cl2, hcl2, -, ho2⟩ := send_request_of_canSend b2
      ("VOTE-REQUEST " ++ accountTo ++ " " ++ formatAmount amount) h2
    have hloop := Coordinator.sendVoteRequest_after_send c amount accountFrom
      accountTo [{ b1 with client := cl1 }, { b2 with client := cl2 }]
      (c.logFile ++
        ["Sending message '" ++
          ("VOTE-REQUEST " ++ accountFrom ++ " " ++ formatAmount (Double.neg amount)) ++
          "' to " ++ b1.address] ++
        ["Sending message '" ++
          ("VOTE-REQUEST " ++ accountTo ++ " " ++ formatAmount amount) ++
          "' to " ++ b2.address])
      (by
        simp only [voteMessages_eq, hp, Coordinator.sendVoteLoop,
          List.getElem?_cons_zero, List.getElem?_cons_succ, hcl1, hcl2])
    obtain ⟨extra, he⟩ := Coordinator.collectVotes_log
      [{ b1 with client := cl1 }, { b2 with client := cl2 }]
      (c.logFile ++
        ["Sending message '" ++
          ("VOTE-REQUEST " ++ accountFrom ++ " " ++ formatAmount (Double.neg amount)) ++
          "' to " ++ b1.address] ++
        ["Sending message '" ++
          ("VOTE-REQUEST " ++ accountTo ++ " " ++ formatAmount amount) ++
          "' to " ++ b2.address])
    refine ⟨extra, ?_⟩
    rw [hloop.2, he]
    simp only [List.append_assoc, List.singleton_append, List.cons_append,
      List.nil_append]
  · intro q hq
    subst hq
    exact readDecimal_formatAmount q

/-- Witness of C14: 30 from `A` to `B` with the two sample banks. -/
theorem sendVoteRequest_messages_witness :
    (sampleSplitVote.sendVoteRequest (Double.finite 30) "A" "B").1.participants.map
        (fun b => b.client.outbox) =
      [["VOTE-REQUEST A -30.00"], ["VOTE-REQUEST B 30.00"]] ∧
    amountSent (Double.finite 30) = Double.finite 30 ∧
    amountSent (Double.neg (Double.finite 30)) = Double.finite (-30) ∧
    ((sampleSplitVote.sendVoteRequest (Double.finite 30) "A" "B").1.participants.map
        (fun b => b.client.outbox) =
      [(sampleBank "alpha" 5001 ["VOTE-COMMIT", "ACK"]).client.outbox ++
          [cstr ("VOTE-REQUEST " ++ "A" ++ " " ++
            formatAmount (Double.neg (Double.finite 30)))],
       (sampleBank "beta" 5002 ["VOTE-ABORT"]).client.outbox ++
          [cstr ("VOTE-REQUEST " ++ "B" ++ " " ++
            formatAmount (Double.finite 30))]] ∧
    (∃ rest,
      (sampleSplitVote.sendVoteRequest (Double.finite 30) "A" "B").1.logFile =
      sampleSplitVote.logFile ++
        ["Sending message '" ++
          ("VOTE-REQUEST " ++ "A" ++ " " ++
            formatAmount (Double.neg (Double.finite 30))) ++
          "' to " ++ (sampleBank "alpha" 5001 ["VOTE-COMMIT", "ACK"]).address,
         "Sending message '" ++
          ("VOTE-REQUEST " ++ "B" ++ " " ++ formatAmount (Double.finite 30)) ++
          "' to " ++ (sampleBank "beta" 5002 ["VOTE-ABORT"]).address] ++ rest) ∧
    (nulFree "A" →
      cstr ("VOTE-REQUEST " ++ "A" ++ " " ++
          formatAmount (Double.neg (Double.finite 30))) =
        "VOTE-REQUEST " ++ "A" ++ " " ++
          formatAmount (Double.neg (Double.finite 30))) ∧
    (nulFree "B" →
      cstr ("VOTE-REQUEST " ++ "B" ++ " " ++ formatAmount (Double.finite 30)) =
        "VOTE-REQUEST " ++ "B" ++ " " ++ formatAmount (Double.finite 30)) ∧
    (amountSent (Double.neg (Double.finite 30))).value =
      -(amountSent (Double.finite 30)).value ∧
    (∀ q, Double.finite 30 = Double.finite q →
      readDecimal (formatAmount (Double.finite 30)).data =
        some (decide (q < 0), centsOf q) ∧
      readDecimal (formatAmount (Double.neg (Double.finite 30))).data =
        some (!decide (q < 0), centsOf q))) :=
  ⟨by decide!, by decide!, by decide!,
    sendVoteRequest_messages sampleSplitVote
      (sampleBank "alpha" 5001 ["VOTE-COMMIT", "ACK"])
      (sampleBank "beta" 5002 ["VOTE-ABORT"]) (Double.finite 30) "A" "B" rfl
      (by decide) (by decide)⟩
/-! ## File names -/

theorem lastIndex_none (s : List Char) (c : Char) :
    lastIndex s c = none ↔ c ∉ s := by
  induction s with
  | nil => simp [lastIndex]
  | cons x t ih =>
    simp only [lastIndex, List.mem_cons, not_or]
    cases h : lastIndex t c with
    | some i =>
      have : ¬ (c ∉ t) := fun hn => by rw [ih.mpr hn] at h; cases h
      simp [this]
    | none =>
      have hn := ih.mp h
      by_cases hx : x = c
      · simp [hx]
      · have hx' : ¬ c = x := fun e => hx e.symm
        simp [hx, hx', hn]

/-- The last occurrence splits the text: nothing after it is the
character. -/
theorem lastIndex_some (s : List Char) (c : Char) :
    ∀ i, lastIndex s c = some i →
      i < s.length ∧ s = s.take i ++ c :: s.drop (i + 1) ∧ c ∉ s.drop (i + 1) := by
  induction s with
  | nil => intro i h; simp [lastIndex] at h
  | cons x t ih =>
    intro i h
    simp only [lastIndex] at h
    cases ht : lastIndex t c with
    | some j =>
      rw [ht] at h
      simp only [Option.some.injEq] at h
      subst h
      obtain ⟨h1, h2, h3⟩ := ih j ht
      refine ⟨by simp only [List.length_cons]; omega, ?_, ?_⟩
      · simp only [List.take_succ_cons, List.drop_succ_cons, List.cons_append]
        rw [← h2]
      · simpa using h3
    | none =>
      rw [ht] at h
      simp only at h
      split at h
      · rename_i hx
        simp only [Option.some.injEq] at h
        subst h
        subst hx
        refine ⟨by simp, by simp, ?_⟩
        simpa using (lastIndex_none t x).mp ht
      · cases h

theorem lastIndex_append (stem rest : List Char) (c : Char) (h : c ∉ rest) :
    lastIndex (stem ++ c :: rest) c = some stem.length := by
  induction stem with
  | nil =>
    simp only [List.nil_append, lastIndex, (lastIndex_none rest c).mpr h,
      if_true, List.length_nil]
  | cons x t ih =>
    show (match lastIndex (t ++ c :: rest) c with
      | some i => some (i + 1)
      | none => if x = c then some 0 else none) = some (t.length + 1)
    rw [ih]

/-- The extension test accepts exactly the names that end with `.txt` and the
name `txt` itself (for names shorter than `npos`). -/
theorem notTxt_false_iff (name : String) (hlen : name.data.length < npos) :
    notTxt name = some false ↔ endsWithTxt name ∨ name = "txt" := by
  have htxt : '.' ∉ ['t', 'x', 't'] := by decide
  unfold notTxt find_last_of
  cases hl : lastIndex name.data '.' with
  | none =>
    have hno := (lastIndex_none _ _).mp hl
    have hw : (npos + 1) % 2 ^ 64 = 0 := by decide
    simp only [Option.getD_none, hw, substr, Nat.not_lt_zero, if_false,
      List.drop_zero]
    constructor
    · intro h
      simp only [Option.some.injEq, decide_eq_false_iff_not, not_not] at h
      exact Or.inr h
    · rintro (⟨stem, hs⟩ | h)
      · exfalso
        apply hno
        rw [hs]
        simp
      · simp [h]
  | some i =>
    obtain ⟨h1, h2, h3⟩ := lastIndex_some _ _ i hl
    have hw : (i + 1) % 2 ^ 64 = i + 1 := by
      apply Nat.mod_eq_of_lt
      unfold npos at hlen
      omega
    have hle : ¬ name.data.length < i + 1 := by omega
    simp only [Option.getD_some, hw, substr, hle, if_false]
    constructor
    · intro h
      simp only [Option.some.injEq, decide_eq_false_iff_not, not_not] at h
      left
      refine ⟨name.data.take i, ?_⟩
      have hd : name.data.drop (i + 1) = ['t', 'x', 't'] := by
        have := congrArg String.data h
        simpa using this
      rw [← hd]
      exact h2
    · rintro (⟨stem, hs⟩ | h)
      · have hidx := lastIndex_append stem ['t', 'x', 't'] '.' htxt
        rw [← hs, hl] at hidx
        simp only [Option.some.injEq] at hidx
        subst hidx
        have hd : name.data.drop (stem.length + 1) = ['t', 'x', 't'] := by
          rw [hs]
          simp
        simp only [Option.some.injEq, decide_eq_false_iff_not, not_not]
        rw [hd]
      · exfalso
        have : '.' ∈ name.data := by rw [h2]; simp
        rw [h] at this
        exact absurd this (by decide)

/-- C18 does not hold of the code: the name `txt`, which has no `.` and does not
end with `.txt`, passes the extension test of both `validateArguments`:
`find_last_of` yields `npos`, `npos + 1` wraps around to 0 and the whole name
is compared with `txt`. Apart from that name the test accepts exactly the
names that end with `.txt`; `log.txt` is accepted, `log` is rejected with the
extension error. -/
theorem txt_without_dot_is_accepted :
    ¬ endsWithTxt "txt" ∧
    notTxt "txt" = some false ∧
    Coordinator.validateArguments sampleStod sampleStoi
        ["coordinator", "txt", "30", "alpha", "5001", "A", "beta", "5002", "B"] =
      Except.ok
        { logFilename := "txt", amount := Double.finite 30, hostFrom := "alpha",
          portFrom := 5001, accountFrom := "A", hostTo := "beta",
          portTo := 5002, accountTo := "B" } ∧
    Participant.validateArguments sampleStoi ["participant", "5001", "txt", "txt"] =
      Except.ok
        { serve_port := 5001, accounts_filename := "txt", log_filename := "txt" } ∧
    Participant.validateArguments sampleStoi
        ["participant", "5001", "accounts.txt", "log.txt"] =
      Except.ok
        { serve_port := 5001, accounts_filename := "accounts.txt",
          log_filename := "log.txt" } ∧
    Coordinator.validateArguments sampleStod sampleStoi
        ["coordinator", "log", "30", "alpha", "5001", "A", "beta", "5002", "B"] =
      Except.error (ArgError.runtime_error
        "Log file must have a .txt extension: log") ∧
    Participant.validateArguments sampleStoi
        ["participant", "5001", "accounts", "log.txt"] =
      Except.error (ArgError.runtime_error
        "Accounts file must have a .txt extension: accounts") ∧
    (∀ name : String, name.data.length < npos →
      (notTxt name = some false ↔ endsWithTxt name ∨ name = "txt")) := by
  refine ⟨?_, by decide, by decide!, by decide, by decide, by decide, by decide,
    notTxt_false_iff⟩
  rintro ⟨stem, hs⟩
  have := congrArg List.length hs
  simp at this

/-! ## The accounts file read back -/

/-- With a single account the file written does not depend on the order in
which the map is visited. -/
theorem Participant.updateAccountsFile_single (p : Participant)
    (rank : String → Nat) (e : String × Double) (h : p.accounts = [e]) :
    p.updateAccountsFile rank = p.updateAccountsFile (fun _ => 0) := by
  simp only [Participant.updateAccountsFile, h, Ledger.iterate_single]

/-- C19 does not hold of the code: the accounts file keeps six significant
digits only. A ledger loaded from the line `12345.67 A` is written back as
the line `12345.7 A`, which is read as another balance; a balance of
1234567.89 is written as `1.23457e+06 A` and read back as 1234570. The
account set is the same, the balances are not. A balance of 100 does come
back unchanged. -/
theorem accounts_file_keeps_six_digits :
    sampleLargeBalance.accounts = [("A", Double.ofRat (1234567 / 100))] ∧
    (∀ rank, (sampleLargeBalance.updateAccountsFile rank).accountsFile =
      "12345.7 A\n") ∧
    (Participant.construct "12345.7 A\n" []).2 = Except.ok () ∧
    (Participant.construct "12345.7 A\n" []).1.accounts =
      [("A", Double.ofRat (123457 / 10))] ∧
    (Participant.construct "12345.7 A\n" []).1.accounts ≠
      sampleLargeBalance.accounts ∧
    (∀ rank,
      (sampleLargeBalance.updateAccountsFile rank).readAccounts.1.accounts.find
        "A" = some (Double.ofRat (123457 / 10))) ∧
    sampleHugeBalance.accounts = [("A", Double.ofRat (123456789 / 100))] ∧
    (∀ rank, (sampleHugeBalance.updateAccountsFile rank).accountsFile =
      "1.23457e+06 A\n") ∧
    (Participant.construct "1.23457e+06 A\n" []).1.accounts =
      [("A", Double.finite 1234570)] ∧
    (∀ rank,
      (Participant.construct
        (sampleBankA.updateAccountsFile rank).accountsFile []).1.accounts =
          sampleBankA.accounts) := by
  have h1 : sampleLargeBalance.accounts = [("A", Double.ofRat (1234567 / 100))] := by
    decide!
  have h2 : sampleHugeBalance.accounts =
      [("A", Double.ofRat (123456789 / 100))] := by
    decide!
  refine ⟨h1, ?_, by decide!, by decide!, by decide!, ?_, h2, ?_, by decide!, ?_⟩
  · intro rank
    rw [Participant.updateAccountsFile_single _ rank _ h1]
    decide!
  · intro rank
    rw [Participant.updateAccountsFile_single _ rank _ h1]
    decide!
  · intro rank
    rw [Participant.updateAccountsFile_single _ rank _ h2]
    decide!
  · intro rank
    rw [Participant.updateAccountsFile_single _ rank _ rfl]
    decide!
/-! ## The hold table along one connection -/

namespace Ledger

theorem mem_keys_assign (m : Ledger) (k : String) (v : Double) (k' : String)
    (h : k' ∈ m.keys) : k' ∈ (m.assign k v).keys := by
  rw [← find_ne_none_iff] at h ⊢
  rw [find_assign]
  split
  · simp
  · exact h

theorem keys_assign (m : Ledger) (k : String) (v : Double) :
    (m.assign k v).keys = if k ∈ m.keys then m.keys else m.keys ++ [k] := by
  split
  · rename_i h; exact keys_assign_of_mem m k v h
  · rename_i h; exact keys_assign_of_not_mem m k v h

theorem length_assign_le (m : Ledger) (k : String) (v : Double) :
    (m.assign k v).length ≤ m.length + 1 := by
  have h := congrArg List.length (keys_assign m k v)
  simp only [keys, List.length_map] at h
  rw [h]
  split
  · simp
  · simp

theorem mem_keys_of_assign (m : Ledger) (k : String) (v : Double) (k' : String)
    (h : k' ∈ (m.assign k v).keys) : k' ∈ m.keys ∨ k' = k := by
  rw [keys_assign] at h
  split at h
  · exact Or.inl h
  · rcases List.mem_append.mp h with h | h
    · exact Or.inl h
    · exact Or.inr (by simpa using h)

/-- A map whose keys are all the same key has one entry at most. -/
theorem length_le_one_of_keys (m : Ledger) (a : String) (hwf : m.WF)
    (h : ∀ k ∈ m.keys, k = a) : m.length ≤ 1 := by
  cases m with
  | nil => simp
  | cons e t =>
    cases t with
    | nil => simp
    | cons e2 t2 =>
      exfalso
      have h1 := h e.1 (by simp [keys])
      have h2 := h e2.1 (by simp [keys])
      simp only [WF, keys, List.map_cons, List.nodup_cons, List.mem_cons,
        not_or] at hwf
      exact hwf.1.1 (h1.trans h2.symm)

end Ledger

namespace Participant

theorem processGlobalAbort_holding (p : Participant) (command : String) :
    (p.processGlobalAbort command).1.holding = [] := by
  have hr : ∀ q : Participant, q.rollback.1.holding = [] := by
    intro q
    unfold rollback
    split
    · rename_i p1 e h
      have : (readAccounts { q with holding := [] }).1.holding = [] := rfl
      rw [h] at this
      exact this
    · rename_i p1 u h
      have : (readAccounts { q with holding := [] }).1.holding = [] := rfl
      rw [h] at this
      exact this
  unfold processGlobalAbort
  have h := hr ((p.log ("Got " ++ command ++ ", replying ACK. State: ABORT")).log
    "Releasing hold from account")
  simp only
  split
  · rename_i p3 e hq
    rw [hq] at h
    exact h
  · rename_i p3 u hq
    rw [hq] at h
    exact h

theorem processGlobalCommit_keys (p : Participant) (env : Env)
    (command : String) :
    ∀ k ∈ p.accounts.keys,
      k ∈ (p.processGlobalCommit env command).accounts.keys := by
  intro k hk
  unfold processGlobalCommit
  simp only [log, updateAccountsFile, respond]
  split
  · exact Ledger.mem_keys_assign _ _ _ _ hk
  · exact hk

/-- One step of `process` keeps the hold table in order. Only a vote request
can add an entry, and only one for the account it names. -/
theorem process_holds (p : Participant) (env : Env) (request : String)
    (h : HoldsOk p) :
    HoldsOk (p.process env request).1 ∧
    (p.process env request).1.holding.length ≤
      p.holding.length + (voteAccount (env, request)).toList.length ∧
    (∀ k ∈ (p.process env request).1.holding.keys,
      k ∈ p.holding.keys ∨ k ∈ (voteAccount (env, request)).toList) := by
  unfold process
  simp only
  split
  · rename_i hc
    have hcmd : firstToken request = "VOTE-REQUEST" := by
      rw [← parseRequest_command env.junk request]
      exact toProtocol_vote_request _ hc
    have hva : voteAccount (env, request) =
        some (parseRequest env.junk request).2.1 := by
      simp [voteAccount, hcmd]
    obtain ⟨hacc, -, hhold, -⟩ := processVoteRequest_state p
      (parseRequest env.junk request).1 (parseRequest env.junk request).2.1
      (parseRequest env.junk request).2.2
    have happ := processVoteRequest_approves p (parseRequest env.junk request).1
      (parseRequest env.junk request).2.1 (parseRequest env.junk request).2.2
    simp only
    unfold HoldsOk
    rw [hhold, hacc, hva]
    simp only [Option.toList_some, List.length_singleton, List.mem_singleton]
    split
    · rename_i ht
      obtain ⟨bal, hb, -⟩ := happ.mp ht
      refine ⟨⟨Ledger.wf_assign _ _ _ h.1, ?_⟩, Ledger.length_assign_le _ _ _,
        fun k hk => Ledger.mem_keys_of_assign _ _ _ _ hk⟩
      intro k hk
      rcases Ledger.mem_keys_of_assign _ _ _ _ hk with hk | hk
      · exact h.2 k hk
      · subst hk
        exact (Ledger.find_ne_none_iff _ _).mp (by simp [hb])
    · exact ⟨h, Nat.le_succ _, fun k hk => Or.inl hk⟩
  · simp only
    unfold HoldsOk
    rw [processGlobalCommit_holding]
    exact ⟨⟨h.1, fun k hk => processGlobalCommit_keys p env _ k (h.2 k hk)⟩,
      Nat.le_add_right _ _, fun k hk => Or.inl hk⟩
  · have hh := processGlobalAbort_holding p (parseRequest env.junk request).1
    have key : ∀ q : Participant, q.holding = [] →
        HoldsOk q ∧
        q.holding.length ≤
          p.holding.length + (voteAccount (env, request)).toList.length ∧
        (∀ k ∈ q.holding.keys,
          k ∈ p.holding.keys ∨ k ∈ (voteAccount (env, request)).toList) := by
      intro q hq
      unfold HoldsOk
      rw [hq]
      refine ⟨⟨by simp [Ledger.WF, Ledger.keys], ?_⟩, by simp, ?_⟩
      · intro k hk
        simp [Ledger.keys] at hk
      · intro k hk
        simp [Ledger.keys] at hk
    split
    · rename_i p1 e hq
      rw [hq] at hh
      exact key p1 hh
    · rename_i p1 u hq
      rw [hq] at hh
      exact key p1 hh
  · exact ⟨h, Nat.le_add_right _ _, fun k hk => Or.inl hk⟩

theorem serveLoop_holds :
    ∀ (received : List (Env × String)) (p : Participant), HoldsOk p →
      HoldsOk (serveLoop p received) ∧
      (serveLoop p received).holding.length ≤
        p.holding.length + (voteAccounts received).length ∧
      (∀ k ∈ (serveLoop p received).holding.keys,
        k ∈ p.holding.keys ∨ k ∈ voteAccounts received) := by
  intro received
  induction received with
  | nil => intro p h; exact ⟨h, by simp [serveLoop], fun k hk => Or.inl hk⟩
  | cons m rest ih =>
    intro p h
    obtain ⟨env, request⟩ := m
    obtain ⟨s1, s2, s3⟩ := process_holds p env request h
    have hlen : (voteAccounts ((env, request) :: rest)).length =
        (voteAccount (env, request)).toList.length +
          (voteAccounts rest).length := by
      unfold voteAccounts
      rw [List.filterMap_cons]
      cases voteAccount (env, request) <;> simp [Nat.add_comm]
    have hmem : ∀ k, (k ∈ (voteAccount (env, request)).toList ∨
        k ∈ voteAccounts rest) → k ∈ voteAccounts ((env, request) :: rest) := by
      intro k hk
      unfold voteAccounts at hk ⊢
      rw [List.filterMap_cons]
      cases hv : voteAccount (env, request) with
      | none =>
        rw [hv] at hk
        simpa using hk
      | some a =>
        rw [hv] at hk
        simp only [Option.toList_some, List.mem_singleton] at hk
        simp only [List.mem_cons]
        exact hk
    rw [serveLoop]
    split
    · rename_i p1 hp
      rw [hp] at s1 s2 s3
      simp only at s1 s2 s3
      obtain ⟨i1, i2, i3⟩ := ih p1 s1
      refine ⟨i1, by omega, ?_⟩
      intro k hk
      rcases i3 k hk with hk | hk
      · rcases s3 k hk with hk | hk
        · exact Or.inl hk
        · exact Or.inr (hmem k (Or.inl hk))
      · exact Or.inr (hmem k (Or.inr hk))
    · rename_i p1 r hne hp
      rw [hp] at s1 s2 s3
      simp only at s1 s2 s3
      refine ⟨s1, by omega, ?_⟩
      intro k hk
      rcases s3 k hk with hk | hk
      · exact Or.inl hk
      · exact Or.inr (hmem k (Or.inl hk))

end Participant

/-- C16, as stated, fails: on one connection the loaded sample participant
approves a vote request on account `A` and then one on account `B`; both are
answered `VOTE-COMMIT` and the hold table has two entries. A `GLOBAL-COMMIT`
that follows applies one of the two holds, the one the loop over the table
ends on (the hold on `A` with the hash table of libstdc++), and leaves both in
the table. -/
theorem two_holds_outstanding :
    Participant.construct "100 A\n50 B\n" [] =
      (sampleParticipant, Except.ok ()) ∧
    sampleParticipant.holding = [] ∧
    (sampleParticipant.serve
      [(sampleEnv, "VOTE-REQUEST A -30.00"),
        (sampleEnv, "VOTE-REQUEST B 10.00")]).holding =
        [("A", Double.finite (-30)), ("B", Double.finite 10)] ∧
    (sampleParticipant.serve
      [(sampleEnv, "VOTE-REQUEST A -30.00"),
        (sampleEnv, "VOTE-REQUEST B 10.00")]).sent =
        ["VOTE-COMMIT", "VOTE-COMMIT"] ∧
    ¬ (sampleParticipant.serve
      [(sampleEnv, "VOTE-REQUEST A -30.00"),
        (sampleEnv, "VOTE-REQUEST B 10.00")]).holding.length ≤ 1 ∧
    (sampleParticipant.serve
      [(sampleEnv, "VOTE-REQUEST A -30.00"),
        (sampleEnv, "VOTE-REQUEST B 10.00"),
        (sampleEnvLastA, "GLOBAL-COMMIT")]).accounts =
        [("A", Double.finite 70), ("B", Double.finite 50)] ∧
    (sampleParticipant.serve
      [(sampleEnv, "VOTE-REQUEST A -30.00"),
        (sampleEnv, "VOTE-REQUEST B 10.00"),
        (sampleEnvLastA, "GLOBAL-COMMIT")]).accountsFile = "50 B\n70 A\n" ∧
    (sampleParticipant.serve
      [(sampleEnv, "VOTE-REQUEST A -30.00"),
        (sampleEnv, "VOTE-REQUEST B 10.00"),
        (sampleEnvLastA, "GLOBAL-COMMIT")]).holding.length = 2 := by
  decide!

/-- C16, amended. At most one hold per account, and at most one hold while the
vote requests name one account: in every state a participant with an empty
hold table reaches by handling a sequence of messages on one connection, the
hold table has at most one entry for each account; every held account is an
account of the ledger and is named by a vote request received on the
connection; the table has no more entries than vote requests were received,
and one entry at most when all vote requests received name the same account,
in particular when at most one vote request was received. An approved vote
request for an account that already has a hold keeps the set of held accounts,
one for another account adds that account to it. -/
theorem one_hold_per_account (p : Participant)
    (received : List (Participant.Env × String)) (h : p.holding = []) :
    (p.serve received).holding.keys.Nodup ∧
    (∀ k ∈ (p.serve received).holding.keys,
      k ∈ (p.serve received).accounts.keys ∧ k ∈ voteAccounts received) ∧
    (p.serve received).holding.length ≤ (voteAccounts received).length ∧
    (∀ a, (∀ k ∈ voteAccounts received, k = a) →
      (p.serve received).holding.length ≤ 1) ∧
    ((voteAccounts received).length ≤ 1 →
      (p.serve received).holding.length ≤ 1) ∧
    (∀ (q : Participant) (command account : String) (amount : Double),
      (q.processVoteRequest command account amount).2 = true →
      (q.processVoteRequest command account amount).1.holding.keys =
        if account ∈ q.holding.keys then q.holding.keys
        else q.holding.keys ++ [account]) := by
  have h0 : Participant.HoldsOk p.start_client := by
    unfold Participant.HoldsOk Participant.start_client Participant.log
    simp only [h]
    refine ⟨by simp [Ledger.WF, Ledger.keys], ?_⟩
    intro k hk
    simp [Ledger.keys] at hk
  have hl : p.start_client.holding = [] := by
    simp [Participant.start_client, Participant.log, h]
  obtain ⟨h1, h2, h3⟩ := Participant.serveLoop_holds received p.start_client h0
  rw [hl] at h2 h3
  have hnamed : ∀ k ∈ (p.serve received).holding.keys,
      k ∈ voteAccounts received := by
    intro k hk
    rcases h3 k hk with hk | hk
    · simp [Ledger.keys] at hk
    · exact hk
  have hlen : (p.serve received).holding.length ≤
      (voteAccounts received).length := by
    unfold Participant.serve
    simpa using h2
  refine ⟨h1.1, fun k hk => ⟨h1.2 k hk, hnamed k hk⟩, hlen, ?_,
    fun hle => le_trans hlen hle, ?_⟩
  · intro a ha
    exact Ledger.length_le_one_of_keys _ a h1.1
      (fun k hk => ha k (hnamed k hk))
  · intro q command account amount happ
    rw [(Participant.processVoteRequest_state q command account amount).2.2.1,
      happ, if_pos rfl, Ledger.keys_assign]

/-- Witness of the amended C16: on the loaded sample participant a vote
request on `A` followed by a second one on `A` leaves one hold, the second. -/
theorem one_hold_per_account_witness :
    sampleParticipant.holding = [] ∧
    voteAccounts
      [(sampleEnv, "VOTE-REQUEST A -30.00"),
        (sampleEnv, "VOTE-REQUEST A -10.00")] = ["A", "A"] ∧
    (sampleParticipant.serve
      [(sampleEnv, "VOTE-REQUEST A -30.00"),
        (sampleEnv, "VOTE-REQUEST A -10.00")]).holding =
      [("A", Double.finite (-10))] ∧
    (sampleParticipant.serve
      [(sampleEnv, "VOTE-REQUEST A -30.00"),
        (sampleEnv, "VOTE-REQUEST A -10.00")]).holding.length ≤ 1 :=
  ⟨rfl, by decide!, by decide!,
    (one_hold_per_account sampleParticipant
      [(sampleEnv, "VOTE-REQUEST A -30.00"),
        (sampleEnv, "VOTE-REQUEST A -10.00")] rfl).2.2.2.1 "A"
      (by decide!)⟩
/-! ## The index into the two vote requests -/

namespace Coordinator

theorem sendVoteLoop_in_range (messages : List String) :
    ∀ (bs : List Bank) (i : Nat) (log : List String),
      i + bs.length ≤ messages.length →
      (sendVoteLoop messages i bs log).2.2 ≠ some Failure.outOfRange := by
  intro bs
  induction bs with
  | nil => intro i log _; simp [sendVoteLoop]
  | cons b bs ih =>
    intro i log hlen
    have hi : i < messages.length := by
      simp only [List.length_cons] at hlen; omega
    rw [sendVoteLoop]
    simp only [List.getElem?_eq_getElem hi]
    split
    · simp
    · exact ih _ _ (by simp only [List.length_cons] at hlen; omega)

theorem collectVotes_in_range :
    ∀ (bs : List Bank) (log : List String),
      (collectVotes bs log).2.2 ≠ some Failure.outOfRange := by
  intro bs
  induction bs with
  | nil => intro log; simp [collectVotes]
  | cons b bs ih =>
    intro log
    rw [collectVotes]
    split
    · simp
    · exact ih _

theorem sendVoteRequest_in_range (c : Coordinator) (amount : Double)
    (accountFrom accountTo : String) (h : c.participants.length ≤ 2) :
    (c.sendVoteRequest amount accountFrom accountTo).2 ≠
      Except.error Failure.outOfRange := by
  have h1 := sendVoteLoop_in_range (voteMessages amount accountFrom accountTo)
    c.participants 0 c.logFile (by simpa [voteMessages] using h)
  rcases hr1 : sendVoteLoop (voteMessages amount accountFrom accountTo) 0
    c.participants c.logFile with ⟨bs, log, f⟩
  rw [hr1] at h1
  have h2 := collectVotes_in_range bs log
  rcases hr2 : collectVotes bs log with ⟨bs2, log2, f2⟩
  rw [hr2] at h2
  simp only [sendVoteRequest, hr1]
  cases f with
  | some e =>
    simp only [ne_eq, Except.error.injEq]
    intro he
    exact h1 (by rw [he])
  | none =>
    simp only [hr2]
    cases f2 with
    | some e =>
      simp only [ne_eq, Except.error.injEq]
      intro he
      exact h2 (by rw [he])
    | none => simp

/-- With a third participant and two working sockets before it, the first
loop of `sendVoteRequest` stops at the lookup `messages[2]`; the third and
later participants are untouched. -/
theorem sendVoteRequest_out_of_range (c : Coordinator) (amount : Double)
    (accountFrom accountTo : String) (h : 2 < c.participants.length)
    (hsend : ∀ b ∈ c.participants.take 2, b.canSend) :
    (c.sendVoteRequest amount accountFrom accountTo).2 =
      Except.error Failure.outOfRange ∧
    (c.sendVoteRequest amount accountFrom accountTo).1.participants.drop 2 =
      c.participants.drop 2 := by
  rcases hp : c.participants with _ | ⟨b1, _ | ⟨b2, _ | ⟨b3, rest⟩⟩⟩
  · rw [hp] at h; simp at h
  · rw [hp] at h; simp at h
  · rw [hp] at h; simp at h
  · rw [hp] at hsend
    simp only [List.take_succ_cons, List.take_zero, List.mem_cons,
      List.not_mem_nil, or_false, forall_eq_or_imp, forall_eq] at hsend
    obtain ⟨cl1, hcl1, -, -⟩ := send_request_of_canSend b1
      (toString Protocol.VOTE_REQUEST ++ " " ++ accountFrom ++ " " ++
        formatAmount (Double.neg amount)) hsend.1
    obtain ⟨cl2, hcl2, -, -⟩ := send_request_of_canSend b2
      (toString Protocol.VOTE_REQUEST ++ " " ++ accountTo ++ " " ++
        formatAmount amount) hsend.2
    simp only [sendVoteRequest, hp, voteMessages, sendVoteLoop,
      List.getElem?_cons_zero, List.getElem?_cons_succ, hcl1, hcl2,
      List.getElem?_nil, List.drop_succ_cons, List.drop_zero, and_self]

theorem addParticipants_appends (net : Network) :
    ∀ (banks : List (String × Nat)) (c : Coordinator),
      ∃ added, (addParticipants net c banks).1.participants =
          c.participants ++ added ∧
        ((addParticipants net c banks).2 = Except.ok () →
          added.length = banks.length) := by
  intro banks
  induction banks with
  | nil => intro c; exact ⟨[], by simp [addParticipants], fun _ => rfl⟩
  | cons bank banks ih =>
    intro c
    rw [addParticipants]
    cases hn : net bank.1 bank.2 with
    | none =>
      simp only [addParticipant, hn]
      exact ⟨[], by simp, fun h => by cases h⟩
    | some scripts =>
      simp only [addParticipant, hn]
      obtain ⟨added, h1, h2⟩ := ih
        { c with
          participants := c.participants ++
            [{ client := { outbox := [], sendScript := scripts.1,
                           inbox := scripts.2 },
               host := bank.1, port := bank.2,
               state := ParticipantState.INIT }],
          logFile := c.logFile ++ ["Connected to participant " ++
            Bank.address
              { client := { outbox := [], sendScript := scripts.1,
                            inbox := scripts.2 },
                host := bank.1, port := bank.2,
                state := ParticipantState.INIT }] }
      rw [List.append_assoc] at h1
      exact ⟨_, h1, fun hok => by
        rw [List.length_append, List.length_singleton, List.length_cons,
          h2 hok, Nat.add_comm]⟩

/-- A run of `callParticipants` ends with as many participants as were
registered at its start: none is ever removed. -/
theorem callParticipants_length (net : Network) (c : Coordinator)
    (accountFrom accountTo : String) (amount : Double) (banks : List (String × Nat)) :
    (callParticipants net c accountFrom accountTo amount banks).1.participants.length =
      (addParticipants net c banks).1.participants.length := by
  by_cases hd : ((addParticipants net c banks).1.sendVoteRequest amount
      accountFrom accountTo).2 = Except.ok true
  · exact (callParticipants_sent_commit net c accountFrom accountTo amount banks
      hd).length_eq.symm
  · exact (callParticipants_sent_abort net c accountFrom accountTo amount banks
      hd).length_eq.symm

end Coordinator

/-- C21. Message indexing safety in phase 1: `Coordinator::sendVoteRequest`
builds exactly two messages; the lookup `messages[i]` is in bounds for every
index `i` of the participant list if and only if the list holds at most two
entries; with at most two entries the run never fails on the lookup, and
with more than two (and working sockets for the first two) it fails on the
lookup `messages[2]` before anything reaches the third participant. The list
only grows: `addParticipants` appends to it, one entry per bank when it
succeeds, and a run of `callParticipants` removes none. -/
theorem sendVoteRequest_index_safety (c : Coordinator) (amount : Double)
    (accountFrom accountTo : String) :
    (Coordinator.voteMessages amount accountFrom accountTo).length = 2 ∧
    ((∀ i, i < c.participants.length →
        ∃ m, (Coordinator.voteMessages amount accountFrom accountTo)[i]? =
          some m) ↔
      c.participants.length ≤ 2) ∧
    (c.participants.length ≤ 2 →
      (c.sendVoteRequest amount accountFrom accountTo).2 ≠
        Except.error Failure.outOfRange) ∧
    (2 < c.participants.length →
      (∀ b ∈ c.participants.take 2, b.canSend) →
      (c.sendVoteRequest amount accountFrom accountTo).2 =
        Except.error Failure.outOfRange ∧
      (c.sendVoteRequest amount accountFrom accountTo).1.participants.drop 2 =
        c.participants.drop 2) ∧
    (∀ (net : Coordinator.Network) (banks : List (String × Nat)),
      ∃ added, (Coordinator.addParticipants net c banks).1.participants =
          c.participants ++ added ∧
        ((Coordinator.addParticipants net c banks).2 = Except.ok () →
          added.length = banks.length)) ∧
    (∀ (net : Coordinator.Network) (banks : List (String × Nat)),
      c.participants.length ≤
        (c.callParticipants net accountFrom accountTo amount
          banks).1.participants.length) := by
  refine ⟨rfl, ?_, Coordinator.sendVoteRequest_in_range c amount accountFrom
    accountTo, Coordinator.sendVoteRequest_out_of_range c amount accountFrom
    accountTo, fun net banks => Coordinator.addParticipants_appends net banks c,
    ?_⟩
  · constructor
    · intro h
      by_contra hlen
      obtain ⟨m, hm⟩ := h 2 (by omega)
      simp [Coordinator.voteMessages] at hm
    · intro hlen i hi
      have h2 : i < (Coordinator.voteMessages amount accountFrom accountTo).length := by
        simp only [Coordinator.voteMessages, List.length_cons, List.length_nil]
        omega
      exact ⟨_, List.getElem?_eq_getElem h2⟩
  · intro net banks
    rw [Coordinator.callParticipants_length]
    obtain ⟨added, h1, -⟩ := Coordinator.addParticipants_appends net banks c
    rw [h1, List.length_append]
    omega

/-- Witness of C21: a second run of `callParticipants` on the same coordinator
registers the two endpoints again, has four participants and fails on the
lookup `messages[2]`. -/
theorem sendVoteRequest_index_safety_witness :
    sampleAfterFirstRun.participants.length = 2 ∧
    (Coordinator.addParticipants sampleNetCommit sampleAfterFirstRun
      sampleEndpoints).1.participants.length = 4 ∧
    (sampleAfterFirstRun.callParticipants sampleNetCommit "A" "B"
      (Double.finite 30)
      sampleEndpoints).2 = Except.error Failure.outOfRange ∧
    ((Coordinator.addParticipants sampleNetCommit sampleAfterFirstRun
        sampleEndpoints).1.sendVoteRequest (Double.finite 30) "A" "B").2 =
      Except.error Failure.outOfRange ∧
    (sampleAfterFirstRun.sendVoteRequest (Double.finite 30) "A" "B").2 ≠
      Except.error Failure.outOfRange :=
  ⟨by decide!, by decide!, by decide!,
    ((sendVoteRequest_index_safety
      (Coordinator.addParticipants sampleNetCommit sampleAfterFirstRun
        sampleEndpoints).1 (Double.finite 30) "A" "B").2.2.2.1 (by decide!) (by decide!)).1,
    (sendVoteRequest_index_safety sampleAfterFirstRun (Double.finite 30) "A" "B").2.2.1
      (by decide!)⟩


end TwoPC
